import Mathlib

/-! Verification development for the graphite draw pipeline and the atlas text op.

Shallow embedding of
* `src/gpu/graphite/render/TessellateWedgesRenderStep.cpp`
* `src/gpu/graphite/render/TextDirectRenderStep.cpp`
* `src/gpu/graphite/DrawPass.h`
* `src/gpu/ops/GrAtlasTextOp.cpp`
* `src/ports/SkTypeface_mac_ct.cpp` (table data, variation axes)
* `src/ports/SkTypeface_win_dw.cpp` (table data, palette)
* `modules/skparagraph/src/FontCollection.cpp` (font manager order)
* `modules/svg/src/SkSVGFilterContext.cpp` (colorspace of filter inputs)
* `modules/particles/src/SkParticleEffect.cpp` (aging of particles)

Scalars of the source are `float`s that these functions only copy and compare
(never compute with); they are embedded as integers, i.e. as finite values on
which `operator!=` is the negation of equality. The particle ages, which are
computed with, are embedded over any scalar type with `+`, `*` and `<`.
-/

namespace skgpu.graphite

/-! ## Geometry handed to the wedge tessellator -/

/-- Scalar values (`float` in the source) that are copied and compared only. -/
abbrev SkScalar := Int

/-- Point `SkPoint { fX, fY }`. -/
structure SkPoint where
  fX : SkScalar
  fY : SkScalar
  deriving DecidableEq, Repr

/-- Verbs `SkPathVerb`. -/
inductive SkPathVerb where
  | kMove
  | kLine
  | kQuad
  | kConic
  | kCubic
  | kClose
  deriving DecidableEq, Repr

/-- One element `[verb, pts, w]` of the range `parser.currentContour()`:
`pts` is the C array of control points (indexed `pts[0]`, `pts[1]`, ...),
`w` the conic weight (dereferenced for conics only). -/
structure PathItem where
  verb : SkPathVerb
  pts : Nat → SkPoint
  w : SkScalar

/-- Contour as `MidpointContourParser` hands it over after a successful
`parseNextContour()`: its `currentMidpoint()` and its `currentContour()`.
The parser itself (`src/gpu/tessellate/MidpointContourParser.h`) is not part
of the sources, so what it yields is an input of the embedding. -/
structure Contour where
  currentMidpoint : SkPoint
  currentContour : List PathItem

/-! ## Patch writer -/

/-- Geometry of one patch-write call on the `PatchWriter`. -/
inductive PatchGeom where
  | line (p0 p1 : SkPoint)
  | quadratic (p0 p1 p2 : SkPoint)
  | conic (p0 p1 p2 : SkPoint) (w : SkScalar)
  | cubic (p0 p1 p2 p3 : SkPoint)
  deriving DecidableEq, Repr

/-- Patch record: the geometry of the write call together with the values the
three required attributes (`kFanPoint`, `kPaintDepth`, `kSsboIndex`) had when
the patch was written. -/
structure Patch where
  geom : PatchGeom
  fanPoint : SkPoint
  paintDepth : SkScalar
  ssboIndex : Int
  deriving DecidableEq, Repr

/-- Modelled from the spec: the `PatchWriter` instantiated at lines 34-37
(`src/gpu/tessellate/PatchWriter.h` is not part of the sources). It holds the
current value of each required attribute and the patches written so far; the
instantiation names no trait that discards patches, and "one patch per
line/quad/conic/cubic segment" is written. -/
structure Writer where
  fanPoint : SkPoint
  paintDepth : SkScalar
  ssboIndex : Int
  patches : List Patch

namespace Writer

/-- Writer right after construction `Writer writer{kAttribs, ...}`. -/
def init : Writer :=
  { fanPoint := ⟨0, 0⟩, paintDepth := 0, ssboIndex := 0, patches := [] }

def updatePaintDepthAttrib (wr : Writer) (depth : SkScalar) : Writer :=
  { wr with paintDepth := depth }

def updateSsboIndexAttrib (wr : Writer) (ssboIndex : Int) : Writer :=
  { wr with ssboIndex := ssboIndex }

def updateFanPointAttrib (wr : Writer) (fanPoint : SkPoint) : Writer :=
  { wr with fanPoint := fanPoint }

/-- Append one patch carrying the current attribute values. -/
def writePatch (wr : Writer) (g : PatchGeom) : Writer :=
  { wr with patches := wr.patches ++ [⟨g, wr.fanPoint, wr.paintDepth, wr.ssboIndex⟩] }

def writeLine (wr : Writer) (p0 p1 : SkPoint) : Writer :=
  wr.writePatch (.line p0 p1)

def writeQuadratic (wr : Writer) (pts : Nat → SkPoint) : Writer :=
  wr.writePatch (.quadratic (pts 0) (pts 1) (pts 2))

def writeConic (wr : Writer) (pts : Nat → SkPoint) (w : SkScalar) : Writer :=
  wr.writePatch (.conic (pts 0) (pts 1) (pts 2) w)

def writeCubic (wr : Writer) (pts : Nat → SkPoint) : Writer :=
  wr.writePatch (.cubic (pts 0) (pts 1) (pts 2) (pts 3))

end Writer

namespace TessellateWedgesRenderStep

/-- Local state of the body of `while (parser.parseNextContour())`. -/
structure ContourState where
  writer : Writer
  lastPoint : SkPoint
  startPoint : SkPoint

/-- The `switch (verb)` of lines 119-142, one iteration of the range-for. -/
def verbStep (s : ContourState) (it : PathItem) : ContourState :=
  match it.verb with
  | .kMove => { s with startPoint := it.pts 0, lastPoint := it.pts 0 }
  | .kLine => { s with writer := s.writer.writeLine (it.pts 0) (it.pts 1), lastPoint := it.pts 1 }
  | .kQuad => { s with writer := s.writer.writeQuadratic it.pts, lastPoint := it.pts 2 }
  | .kConic => { s with writer := s.writer.writeConic it.pts it.w, lastPoint := it.pts 2 }
  | .kCubic => { s with writer := s.writer.writeCubic it.pts, lastPoint := it.pts 3 }
  | .kClose => s

/-- The range-for of lines 118-143 over `parser.currentContour()`. -/
def verbLoop (s : ContourState) (items : List PathItem) : ContourState :=
  items.foldl verbStep s

/-- Body of the `while` loop, lines 115-149, for one parsed contour. -/
def contourStep (wr : Writer) (c : Contour) : Writer :=
  let wr := wr.updateFanPointAttrib c.currentMidpoint
  let s := verbLoop { writer := wr, lastPoint := ⟨0, 0⟩, startPoint := ⟨0, 0⟩ } c.currentContour
  if s.lastPoint ≠ s.startPoint then
    s.writer.writeLine s.lastPoint s.startPoint
  else
    s.writer

/-- Embedding of `TessellateWedgesRenderStep::writeVertices(dw, params, ssboIndex)`,
lines 96-150: `depth` is `params.order().depthAsFloat()`, `contours` is the
sequence of contours the parser yields for `params.geometry().shape().asPath()`.
The result is the writer after the call; its `patches` are the patches the call
appended to the draw writer. The buffer bookkeeping (static buffers, reserve
count) and the shader transform do not influence which patches are written. -/
def writeVertices (contours : List Contour) (depth : SkScalar) (ssboIndex : Int) : Writer :=
  let writer := Writer.init
  let writer := writer.updatePaintDepthAttrib depth
  let writer := writer.updateSsboIndexAttrib ssboIndex
  contours.foldl contourStep writer

end TessellateWedgesRenderStep

namespace TessellateWedgesRenderStep

/-- Whether a verb is a segment verb (line, quad, conic or cubic). -/
def isSegment : SkPathVerb → Bool
  | .kLine | .kQuad | .kConic | .kCubic => true
  | .kMove | .kClose => false

/-- The patch geometry that stands for a verb with its own control points (and
conic weight); a move or close verb stands for none. -/
def segmentGeom (it : PathItem) : Option PatchGeom :=
  match it.verb with
  | .kLine => some (.line (it.pts 0) (it.pts 1))
  | .kQuad => some (.quadratic (it.pts 0) (it.pts 1) (it.pts 2))
  | .kConic => some (.conic (it.pts 0) (it.pts 1) (it.pts 2) it.w)
  | .kCubic => some (.cubic (it.pts 0) (it.pts 1) (it.pts 2) (it.pts 3))
  | .kMove | .kClose => none

/-- The point a verb ends at: the last of its control points. -/
def endPoint (it : PathItem) : SkPoint :=
  match it.verb with
  | .kMove | .kClose => it.pts 0
  | .kLine => it.pts 1
  | .kQuad | .kConic => it.pts 2
  | .kCubic => it.pts 3

/-- Patches that stand for the segment verbs of `items`, in verb order, all
carrying the given attribute values. -/
def segmentPatches (fanPoint : SkPoint) (depth : SkScalar) (ssboIndex : Int)
    (items : List PathItem) : List Patch :=
  items.filterMap fun it => (segmentGeom it).map fun g => ⟨g, fanPoint, depth, ssboIndex⟩

/-- The closing line of a contour that starts at `start` and ends at `last`:
one line patch from `last` to `start` when they differ, nothing otherwise. -/
def closingPatches (fanPoint : SkPoint) (depth : SkScalar) (ssboIndex : Int)
    (last start : SkPoint) : List Patch :=
  if last = start then [] else [⟨.line last start, fanPoint, depth, ssboIndex⟩]

/-- Control-point array holding the given points (`pts[i]` is the `i`-th). -/
def ptsOf (l : List SkPoint) : Nat → SkPoint := fun i => l.getD i ⟨0, 0⟩

/-- The element a move to `p` yields. -/
def moveTo (p : SkPoint) : PathItem := ⟨.kMove, ptsOf [p], 0⟩

/-- The element a line from `p0` to `p1` yields. -/
def lineTo (p0 p1 : SkPoint) : PathItem := ⟨.kLine, ptsOf [p0, p1], 0⟩

/-- Contour of the filled triangle `(0,0) (4,0) (0,3)`, left open by the path:
a move and two lines, with fan point `(1,1)`. -/
def triangleContour : Contour :=
  ⟨⟨1, 1⟩, [moveTo ⟨0, 0⟩, lineTo ⟨0, 0⟩ ⟨4, 0⟩, lineTo ⟨4, 0⟩ ⟨0, 3⟩]⟩

end TessellateWedgesRenderStep

/-! ## Uniforms, textures and the pipeline-data gatherer -/

/-- Shading-language types used by the uniform and attribute declarations. -/
inductive SkSLType where
  | kFloat
  | kFloat2
  | kFloat4
  | kFloat4x4
  | kInt
  | kUShort2
  deriving DecidableEq, Repr

/-- Vertex attribute types used by the attribute declarations. -/
inductive VertexAttribType where
  | kFloat
  | kFloat2
  | kFloat4
  | kInt
  | kUShort2
  deriving DecidableEq, Repr

/-- Uniform declaration `{name, type}` of a RenderStep. -/
structure Uniform where
  name : String
  type : SkSLType
  deriving DecidableEq, Repr

/-- Attribute declaration `{name, vertex type, shader type}` of a RenderStep. -/
structure Attribute where
  name : String
  type : VertexAttribType
  gpuType : SkSLType
  deriving DecidableEq, Repr

/-- Matrix `SkM44`, sixteen scalars. -/
abbrev SkM44 := Fin 16 → SkScalar

/-- The float `1.f / den`. The quotient is not evaluated: the embedding keeps the
integer it is the reciprocal of. -/
structure Reciprocal where
  den : Int
  deriving DecidableEq, Repr

/-- Value handed to one of the overloads of `SkPipelineDataGatherer::write`. -/
inductive UniformValue where
  | m44 (m : SkM44)
  | float2 (x y : Reciprocal)

/-- Modelled from the spec: the type of the uniform data an overload of
`SkPipelineDataGatherer::write` emits (`SkPipelineData.h` is not part of the
sources): `write(const SkM44&)` writes a `float4x4`, `write(const skvx::float2&)`
a `float2` (the "inverse-atlas-dimension vector"). -/
def UniformValue.type : UniformValue → SkSLType
  | .m44 _ => .kFloat4x4
  | .float2 _ _ => .kFloat2

inductive SkFilterMode where
  | kNearest
  | kLinear
  deriving DecidableEq, Repr

inductive SkTileMode where
  | kClamp
  | kRepeat
  | kMirror
  | kDecal
  deriving DecidableEq, Repr

/-- Sampling options; `SkSamplingOptions(SkFilterMode)` sets the filter only. -/
structure SkSamplingOptions where
  filter : SkFilterMode
  deriving DecidableEq, Repr

/-- Texture proxy: its identity and its `dimensions()`. -/
structure TextureProxy where
  id : Nat
  width : Int
  height : Int
  deriving DecidableEq, Repr

/-- One `gatherer->add(sampling, tileModes, proxy)` registration. -/
structure TextureBinding where
  sampling : SkSamplingOptions
  tileModeX : SkTileMode
  tileModeY : SkTileMode
  proxy : TextureProxy
  deriving DecidableEq, Repr

/-- Modelled from the spec: the shared gatherer (`SkPipelineData.h` is not part
of the sources) into which a step "writes this draw's per-draw uniform values
and registers any sampled textures (with sampling options and tile modes)":
the uniform values written and the textures added, both in call order. -/
structure SkPipelineDataGatherer where
  uniforms : List UniformValue
  textures : List TextureBinding

namespace SkPipelineDataGatherer

def empty : SkPipelineDataGatherer := { uniforms := [], textures := [] }

def write (g : SkPipelineDataGatherer) (v : UniformValue) : SkPipelineDataGatherer :=
  { g with uniforms := g.uniforms ++ [v] }

def add (g : SkPipelineDataGatherer) (sampling : SkSamplingOptions)
    (tileModes : SkTileMode × SkTileMode) (proxy : TextureProxy) : SkPipelineDataGatherer :=
  { g with textures := g.textures ++ [⟨sampling, tileModes.1, tileModes.2, proxy⟩] }

end SkPipelineDataGatherer

namespace TessellateWedgesRenderStep

/-- The `uniforms` argument of the constructor, line 48. -/
def uniforms : List Uniform := [⟨"localToDevice", .kFloat4x4⟩]

/-- The `instanceAttrs` argument of the constructor, lines 53-58. -/
def instanceAttrs : List Attribute :=
  [⟨"p01", .kFloat4, .kFloat4⟩,
   ⟨"p23", .kFloat4, .kFloat4⟩,
   ⟨"fanPointAttrib", .kFloat2, .kFloat2⟩,
   ⟨"depth", .kFloat, .kFloat⟩,
   ⟨"ssboIndex", .kInt, .kInt⟩]

/-- Embedding of `TessellateWedgesRenderStep::writeUniformsAndTextures`, lines 153-158;
`matrix` is `params.transform().matrix()`. -/
def writeUniformsAndTextures (matrix : SkM44) (gatherer : SkPipelineDataGatherer) :
    SkPipelineDataGatherer :=
  gatherer.write (.m44 matrix)

end TessellateWedgesRenderStep

/-! ## Direct atlas text -/

/-- Mask formats of the glyph atlas. -/
inductive MaskFormat where
  | kA8
  | kA565
  | kARGB
  deriving DecidableEq, Repr

/-- What `AtlasManager::getProxies(format, &numProxies)` reports at a given
moment: the array `proxies[0..numProxies)`, per mask format. A null array is
the empty list. -/
abbrev AtlasManager := MaskFormat → List TextureProxy

namespace TextDirectRenderStep

/-- The `uniforms` argument of the constructor, line 39. -/
def uniforms : List Uniform := [⟨"atlasSizeInv", .kFloat2⟩]

/-- The `vertexAttrs` argument of the constructor, lines 43-45. -/
def vertexAttrs : List Attribute :=
  [⟨"position", .kFloat2, .kFloat2⟩,
   ⟨"depth", .kFloat, .kFloat⟩,
   ⟨"texCoords", .kUShort2, .kUShort2⟩]

/-- Values computed by the vertex stage from `texCoords`. -/
structure VertexUnpack where
  texIdx : Nat
  unormTexCoordsX : Nat
  unormTexCoordsY : Nat
  deriving DecidableEq, Repr

/-- The integer part of `vertexSkSL`, lines 55-57. `texCoords` is a `ushort2`, so
`int2(texCoords.x, texCoords.y)` holds the same non-negative values. -/
def vertexSkSL (texCoordsX texCoordsY : Nat) : VertexUnpack :=
  let coordsX := texCoordsX
  let coordsY := texCoordsY
  let texIdx := coordsX >>> 13
  { texIdx := texIdx, unormTexCoordsX := coordsX &&& 0x1FFF, unormTexCoordsY := coordsY }

/-- Embedding of `TextDirectRenderStep::writeUniformsAndTextures`, lines 74-97.
`atlas` is the recorder's atlas manager as it is when the call is made and
`maskFormat` is `subRunData.subRun()->maskFormat()`. The result is `none` when
`SkASSERT(proxies && numProxies > 0)` fails (line 88 then reads `proxies[0]`
of an empty array). -/
def writeUniformsAndTextures (atlas : AtlasManager) (maskFormat : MaskFormat)
    (gatherer : SkPipelineDataGatherer) : Option SkPipelineDataGatherer :=
  match atlas maskFormat with
  | [] => none
  | p0 :: rest =>
    let proxies := p0 :: rest
    let atlasDimensionsInverse := UniformValue.float2 ⟨p0.width⟩ ⟨p0.height⟩
    let gatherer := gatherer.write atlasDimensionsInverse
    let samplingOptions : SkSamplingOptions := ⟨.kNearest⟩
    let tileModes : SkTileMode × SkTileMode := (.kClamp, .kClamp)
    some (proxies.foldl (fun g proxy => g.add samplingOptions tileModes proxy) gatherer)

end TextDirectRenderStep

/-! ## DrawPass -/

/-- Modelled from the spec: an instanced draw of the pass's command list
(`DrawCommands.h` and `DrawPass.cpp` are not part of the sources): the number of
instances the draw's RenderStep wrote and the stride of one instance. -/
structure DrawInstanced where
  instanceCount : Nat
  instanceStride : Nat
  deriving DecidableEq, Repr

/-- The data members of `DrawPass` (lines 106-128) that carry values; the
resource handles are kept as counts. -/
structure DrawPass where
  fCommandList : List DrawInstanced
  fPipelineDescs : Nat
  fSamplerDescs : Nat
  fRequiresMSAA : Bool

namespace DrawPass

/-- Line 72: `bool requiresDstTexture() const { return false; }`. -/
def requiresDstTexture (_ : DrawPass) : Bool := false

/-- Line 73. -/
def requiresMSAA (p : DrawPass) : Bool := p.fRequiresMSAA

/-- Line 77: `size_t vertexBufferSize() const { return 0; }`. -/
def vertexBufferSize (_ : DrawPass) : Nat := 0

/-- Line 78: `size_t uniformBufferSize() const { return 0; }`. -/
def uniformBufferSize (_ : DrawPass) : Nat := 0

/-- Bytes of instance data of the pass's draws: for every draw, the instances
written times the instance stride. -/
def instanceBytes (p : DrawPass) : Nat :=
  (p.fCommandList.map fun d => d.instanceCount * d.instanceStride).sum

end DrawPass

namespace TessellateWedgesRenderStep

/-- Modelled from the spec: byte size of a vertex attribute type
(`VertexAttribTypeSize` of `DrawTypes.h` is not part of the sources): a float
and an int take four bytes, a ushort two. -/
def vertexAttribTypeSize : VertexAttribType → Nat
  | .kFloat => 4
  | .kFloat2 => 8
  | .kFloat4 => 16
  | .kInt => 4
  | .kUShort2 => 4

/-- Instance stride of the step: the sizes of the declared instance attributes
added up. -/
def instanceStride : Nat :=
  (instanceAttrs.map fun a => vertexAttribTypeSize a.type).sum

/-- The pass of three filled-triangle draws that share the wedge RenderStep: each
draw holds the instances `writeVertices` writes for the triangle contour, with
the step's instance stride. -/
def threeTrianglesPass : DrawPass :=
  { fCommandList := List.replicate 3
      ⟨(writeVertices [triangleContour] 1 0).patches.length, instanceStride⟩,
    fPipelineDescs := 1, fSamplerDescs := 0, fRequiresMSAA := true }

end TessellateWedgesRenderStep

namespace TextDirectRenderStep

/-- Atlas of the A8 format with pages `0, 1` (before growth). -/
def atlasTwoPages : AtlasManager := fun f =>
  match f with
  | .kA8 => [⟨0, 2048, 2048⟩, ⟨1, 2048, 2048⟩]
  | _ => []

/-- The same atlas after a third page was allocated. -/
def atlasThreePages : AtlasManager := fun f =>
  match f with
  | .kA8 => [⟨0, 2048, 2048⟩, ⟨1, 2048, 2048⟩, ⟨2, 2048, 2048⟩]
  | _ => []

end TextDirectRenderStep

end skgpu.graphite

/-! ## GrAtlasTextOp -/

namespace GrAtlasTextOp

/-- Identity of a `GrSurfaceProxy*`. -/
abbrev Proxy := Nat

/-- Number of vertices per glyph quad (`kVerticesPerGlyph`). -/
def kVerticesPerGlyph : Int := 4

/-- Number of indices per glyph quad (`kIndicesPerGlyph`). -/
def kIndicesPerGlyph : Int := 6

/-- The state of the geometry processor that `createDrawForGeneratedGlyphs`
reads and updates: `numTextureSamplers()`. -/
structure GeometryProcessor where
  numTextureSamplers : Nat
  deriving DecidableEq, Repr

/-- Modelled from the spec: `addNewViews(views, numActiveViews, filter)` of the
text geometry processors (`GrBitmapTextGeoProc`, `GrDistanceFieldGeoProc` are
not part of the sources): the processor adopts the expanded set of atlas pages,
so that it samples `numActiveViews` textures afterwards. -/
def GeometryProcessor.addNewViews (_ : GeometryProcessor) (numActiveViews : Nat) :
    GeometryProcessor :=
  { numTextureSamplers := numActiveViews }

/-- `FlushInfo`: `fPrimProcProxies` is the array obtained from
`allocPrimProcProxyPtrs(kMaxTextures)` (an entry is `none` while unset),
`fVertexBuffer` and `fIndexBuffer` are the identity of the vertex buffer and the
byte size of the index buffer. -/
structure FlushInfo where
  fVertexBuffer : Nat
  fIndexBuffer : Nat
  fGeometryProcessor : GeometryProcessor
  fPrimProcProxies : List (Option Proxy)
  fGlyphsToFlush : Int
  fVertexOffset : Int
  fNumDraws : Int
  deriving DecidableEq, Repr

/-- One `target->recordDraw(gp, mesh, 1, proxies, kTriangles)` with the
`setIndexedPatterned` arguments of the mesh. -/
structure RecordedDraw where
  glyphCount : Int
  maxGlyphsPerDraw : Int
  vertexBuffer : Nat
  baseVertex : Int
  deriving DecidableEq, Repr

/-- One `args.fillVertexData(dst, offset, count)` of geometry `geo`, where `dst`
is the quad `quadBufferIndex` of the allocation `vertices` points to; the
allocation is named by its number among the calls of `makeVertexSpace`. -/
structure FillCall where
  geo : Nat
  vertices : Nat
  quadBufferIndex : Int
  subRunIndex : Int
  count : Int
  deriving DecidableEq, Repr

/-- What the op does to its `Target`: proxies pushed on `sampledProxyArray()`,
every `ref()` taken on a proxy, the draws recorded, the vertex counts asked
from `makeVertexSpace` and the vertex data filled, each in call order. -/
structure Target where
  sampledProxyArray : List Proxy
  refs : List Proxy
  draws : List RecordedDraw
  vertexSpaces : List Int
  fills : List FillCall
  deriving DecidableEq, Repr

/-- Body of the loop of lines 385-394 for index `i`, whose view is
`views[i].proxy() = p`: store it, push it, and take one ref per recorded draw
(the pointer that is reffed is the one just stored). -/
def adoptView (st : Target × FlushInfo) (i : Nat) (p : Proxy) : Target × FlushInfo :=
  let (target, flushInfo) := st
  let flushInfo := { flushInfo with fPrimProcProxies := flushInfo.fPrimProcProxies.set i (some p) }
  let target := { target with sampledProxyArray := target.sampledProxyArray ++ [p] }
  let target := { target with refs := target.refs ++ List.replicate flushInfo.fNumDraws.toNat p }
  (target, flushInfo)

/-- The loop `for (unsigned i = gp->numTextureSamplers(); i < numActiveViews; ++i)`
of lines 385-394, started at index `i` with `views[i..]` still to visit. -/
def adoptViewsFrom : Nat → List Proxy → Target × FlushInfo → Target × FlushInfo
  | _, [], st => st
  | i, p :: rest, st => adoptViewsFrom (i + 1) rest (adoptView st i p)

/-- The stores `fPrimProcProxies[i] = views[i].proxy()` of that loop taken alone,
from index `i` on. -/
def storeViewsFrom : Nat → List Proxy → List (Option Proxy) → List (Option Proxy)
  | _, [], l => l
  | i, p :: rest, l => storeViewsFrom (i + 1) rest (l.set i (some p))

/-- Embedding of `GrAtlasTextOp::createDrawForGeneratedGlyphs`, lines 364-419.
`views` is the answer of `atlasManager->getViews(maskFormat, &numActiveViews)`
at the time of the call (`none` for a null array, else `views[0..numActiveViews)`). -/
def createDrawForGeneratedGlyphs (views : Option (List Proxy)) (target : Target)
    (flushInfo : FlushInfo) : Target × FlushInfo :=
  if flushInfo.fGlyphsToFlush = 0 then
    (target, flushInfo)
  else
    match views with
    | none => (target, flushInfo)
    | some views =>
      let numActiveViews := views.length
      if numActiveViews = 0 then
        (target, flushInfo)
      else
        let gp := flushInfo.fGeometryProcessor
        let (target, flushInfo) :=
          if gp.numTextureSamplers ≠ numActiveViews then
            let (target, flushInfo) :=
              adoptViewsFrom gp.numTextureSamplers
                (views.drop gp.numTextureSamplers) (target, flushInfo)
            (target, { flushInfo with fGeometryProcessor := gp.addNewViews numActiveViews })
          else
            (target, flushInfo)
        let maxGlyphsPerDraw : Int := ((flushInfo.fIndexBuffer / 2 / 6 : Nat) : Int)
        let mesh : RecordedDraw :=
          { glyphCount := flushInfo.fGlyphsToFlush, maxGlyphsPerDraw := maxGlyphsPerDraw,
            vertexBuffer := flushInfo.fVertexBuffer, baseVertex := flushInfo.fVertexOffset }
        let target := { target with draws := target.draws ++ [mesh] }
        (target,
          { flushInfo with
            fVertexOffset := flushInfo.fVertexOffset + kVerticesPerGlyph * flushInfo.fGlyphsToFlush,
            fGlyphsToFlush := 0,
            fNumDraws := flushInfo.fNumDraws + 1 })

/-- Flush state of an op that prepared with the two atlas pages `10, 11`, has
recorded two draws and holds five glyphs to flush. -/
def flushInfoTwoPages : FlushInfo :=
  { fVertexBuffer := 1, fIndexBuffer := 1200, fGeometryProcessor := ⟨2⟩,
    fPrimProcProxies := [some 10, some 11, none, none],
    fGlyphsToFlush := 5, fVertexOffset := 40, fNumDraws := 2 }

/-- Target of that op: the two pages were pushed when preparation began. -/
def targetTwoPages : Target :=
  { sampledProxyArray := [10, 11], refs := [], draws := [], vertexSpaces := [], fills := [] }

/-- The op as `onPrepareDraws` reads it: `fGeoData[i].fSubRunPtr->glyphCount()`
for each of the `fGeoCount` geometries, `fNumGlyphs`, `usesLocalCoords()`,
whether `fGeoData[0].fDrawMatrix` inverts, and the vertex stride of the
geometry processor that is set up. -/
structure Op where
  fGeoData : List Int
  fNumGlyphs : Int
  usesLocalCoords : Bool
  drawMatrixInvertible : Bool
  vertexStride : Int

/-- What surrounds the op during `onPrepareDraws`. The answers are indexed by
the number of calls made before: `getViews n` is what the atlas manager reports
once `n` calls of `regenerate` have been made (regeneration may add pages),
`regenerate n begin end` is the result `(ok, glyphsRegenerated)` of call number
`n`, `makeVertexSpace n` is the buffer and first vertex given by allocation
number `n`, or `none` when it fails. `kMaxTextures`, `kMaxVertexBytes` and the
byte size of the quad index buffer are constants declared outside the sources. -/
structure Env where
  kMaxTextures : Nat
  kMaxVertexBytes : Int
  indexBufferSize : Nat
  getViews : Nat → Option (List Proxy)
  regenerate : Nat → Int → Int → Bool × Int
  makeVertexSpace : Nat → Option (Nat × Int)

/-- Local variables of `onPrepareDraws` that live across the loops. -/
structure PrepState where
  target : Target
  flushInfo : FlushInfo
  regenCalls : Nat
  quadBufferBegin : Int
  quadBufferEnd : Int
  totalGlyphsRegened : Int
  deriving DecidableEq, Repr

/-- Which `return` statement ended `onPrepareDraws` early. -/
inductive Exit where
  | noLocalMatrix
  | noViews
  | noVertexSpace
  | regenFailed
  deriving DecidableEq, Repr

/-- Outcome of a (part of a) run: control goes on with state `s`, or the
function returned early in state `s`, or the fuel given to a `while` loop ran
out when the run had reached state `s`. -/
inductive Run where
  | next (s : PrepState)
  | returned (why : Exit) (s : PrepState)
  | outOfFuel (s : PrepState)
  deriving DecidableEq, Repr

/-- The state a run has reached. -/
def Run.state : Run → PrepState
  | .next s => s
  | .returned _ s => s
  | .outOfFuel s => s

/-- Line 261: `maxQuadsPerBuffer = kMaxVertexBytes / (vertexStride * kVerticesPerGlyph)`. -/
def maxQuadsPerBuffer (env : Env) (op : Op) : Int :=
  let quadSize := op.vertexStride * kVerticesPerGlyph
  env.kMaxVertexBytes / quadSize

/-- `target->makeVertexSpace(stride, vertexCount, &fVertexBuffer, &fVertexOffset)`:
the request is logged and, on success, the out-parameters are stored. The
boolean is the test `vertices && flushInfo.fVertexBuffer`. -/
def makeVertexSpace (env : Env) (vertexCount : Int) (s : PrepState) : PrepState × Bool :=
  let n := s.target.vertexSpaces.length
  let s : PrepState :=
    { s with target := { s.target with vertexSpaces := s.target.vertexSpaces ++ [vertexCount] } }
  match env.makeVertexSpace n with
  | none => (s, false)
  | some (buffer, offset) =>
    ({ s with flushInfo := { s.flushInfo with fVertexBuffer := buffer, fVertexOffset := offset } },
      true)

/-- The `while (totalGlyphsRegened < subRunEnd)` loop of lines 297-351 for the
geometry `geo`, run for at most `fuel` iterations. -/
def subRunLoop (env : Env) (op : Op) (geo : Nat) (subRunBegin subRunEnd : Int) :
    Nat → PrepState → Run
  | 0, s => if s.totalGlyphsRegened < subRunEnd then .outOfFuel s else .next s
  | fuel + 1, s =>
    if s.totalGlyphsRegened < subRunEnd then
      let drawBegin := s.totalGlyphsRegened - subRunBegin
      let drawEnd := min subRunEnd s.quadBufferEnd - subRunBegin
      let (ok, glyphsRegenerated) := env.regenerate s.regenCalls drawBegin drawEnd
      let s : PrepState := { s with regenCalls := s.regenCalls + 1 }
      if !ok then
        .returned .regenFailed s
      else
        let s : PrepState :=
          if glyphsRegenerated > 0 then
            let quadBufferIndex := s.totalGlyphsRegened - s.quadBufferBegin
            let subRunIndex := s.totalGlyphsRegened - subRunBegin
            { s with target := { s.target with
                fills := s.target.fills ++
                  [⟨geo, s.target.vertexSpaces.length - 1, quadBufferIndex, subRunIndex,
                    glyphsRegenerated⟩] } }
          else s
        let s : PrepState := { s with
          totalGlyphsRegened := s.totalGlyphsRegened + glyphsRegenerated,
          flushInfo := { s.flushInfo with
            fGlyphsToFlush := s.flushInfo.fGlyphsToFlush + glyphsRegenerated } }
        if s.totalGlyphsRegened ≠ subRunEnd then
          let flushed :=
            createDrawForGeneratedGlyphs (env.getViews s.regenCalls) s.target s.flushInfo
          let s : PrepState := { s with target := flushed.1, flushInfo := flushed.2 }
          if s.totalGlyphsRegened = s.quadBufferEnd then
            let quadBufferBegin := s.totalGlyphsRegened
            let quadBufferSize := min (maxQuadsPerBuffer env op) (op.fNumGlyphs - s.totalGlyphsRegened)
            let s : PrepState := { s with
              quadBufferBegin := quadBufferBegin,
              quadBufferEnd := quadBufferBegin + quadBufferSize }
            let alloc := makeVertexSpace env (kVerticesPerGlyph * quadBufferSize) s
            if !alloc.2 then
              .returned .noVertexSpace alloc.1
            else
              subRunLoop env op geo subRunBegin subRunEnd fuel alloc.1
          else
            subRunLoop env op geo subRunBegin subRunEnd fuel s
        else
          subRunLoop env op geo subRunBegin subRunEnd fuel s
    else
      .next s

/-- The `for (int i = 0; i < fGeoCount; i++)` loop of lines 281-352, from
geometry `geo` on; `glyphCounts` are the glyph counts of the geometries still
to visit. Every `while` loop gets `fuel` iterations. -/
def geoLoop (env : Env) (op : Op) (fuel : Nat) : Nat → List Int → PrepState → Run
  | _, [], s => .next s
  | geo, glyphCount :: rest, s =>
    let subRunBegin := s.totalGlyphsRegened
    let subRunEnd := subRunBegin + glyphCount
    match subRunLoop env op geo subRunBegin subRunEnd fuel s with
    | .next s => geoLoop env op fuel (geo + 1) rest s
    | r => r

/-- The loop of lines 233-238: store and push `views[i].proxy()` for every
active view, from index `i` on. -/
def initViewsFrom : Nat → List Proxy → List (Option Proxy) × List Proxy →
    List (Option Proxy) × List Proxy
  | _, [], st => st
  | i, p :: rest, (primProcProxies, sampled) =>
    initViewsFrom (i + 1) rest (primProcProxies.set i (some p), sampled ++ [p])

/-- State of the target before the op prepares its draws. -/
def Target.init : Target :=
  { sampledProxyArray := [], refs := [], draws := [], vertexSpaces := [], fills := [] }

/-- Embedding of `GrAtlasTextOp::onPrepareDraws`, lines 206-354. `.next s` is
the normal end (after the final `createDrawForGeneratedGlyphs`), `.returned`
one of the early `return`s. -/
def onPrepareDraws (env : Env) (op : Op) (fuel : Nat) : Run :=
  let s0 : PrepState :=
    { target := Target.init,
      flushInfo :=
        { fVertexBuffer := 0, fIndexBuffer := 0, fGeometryProcessor := ⟨0⟩,
          fPrimProcProxies := [], fGlyphsToFlush := 0, fVertexOffset := 0, fNumDraws := 0 },
      regenCalls := 0, quadBufferBegin := 0, quadBufferEnd := 0, totalGlyphsRegened := 0 }
  if op.usesLocalCoords && !op.drawMatrixInvertible then
    .returned .noLocalMatrix s0
  else
    match env.getViews 0 with
    | none => .returned .noViews s0
    | some views =>
      let numActiveViews := views.length
      let (primProcProxies, sampled) :=
        initViewsFrom 0 views (List.replicate env.kMaxTextures none, s0.target.sampledProxyArray)
      let s : PrepState := { s0 with
        target := { s0.target with sampledProxyArray := sampled },
        flushInfo := { s0.flushInfo with
          fPrimProcProxies := primProcProxies,
          fGeometryProcessor := ⟨numActiveViews⟩ } }
      let quadBufferBegin : Int := 0
      let quadBufferEnd := min op.fNumGlyphs (maxQuadsPerBuffer env op)
      let s : PrepState := { s with
        quadBufferBegin := quadBufferBegin,
        quadBufferEnd := quadBufferEnd,
        flushInfo := { s.flushInfo with fIndexBuffer := env.indexBufferSize } }
      let alloc := makeVertexSpace env (kVerticesPerGlyph * (quadBufferEnd - quadBufferBegin)) s
      if !alloc.2 then
        .returned .noVertexSpace alloc.1
      else
        match geoLoop env op fuel 0 op.fGeoData alloc.1 with
        | .next s =>
          let flushed :=
            createDrawForGeneratedGlyphs (env.getViews s.regenCalls) s.target s.flushInfo
          .next { s with target := flushed.1, flushInfo := flushed.2 }
        | r => r

/-- Surroundings in which the atlas takes the glyphs of the first `regenerate`
call and fails (`ok = false`) from the second call on. -/
def envAtlasFails : Env :=
  { kMaxTextures := 4, kMaxVertexBytes := 32768, indexBufferSize := 1200,
    getViews := fun _ => some [10],
    regenerate := fun n drawBegin drawEnd => if n = 0 then (true, drawEnd - drawBegin) else (false, 0),
    makeVertexSpace := fun _ => some (1, 0) }

/-- Op of two merged geometries with two glyphs each. -/
def opTwoSubRuns : Op :=
  { fGeoData := [2, 2], fNumGlyphs := 4, usesLocalCoords := false, drawMatrixInvertible := true,
    vertexStride := 16 }

/-- State of `onPrepareDraws` on `opTwoSubRuns` in `envAtlasFails` when the
second sub-run is entered: the two glyphs of the first sub-run are regenerated
and filled, and wait to be flushed. -/
def stateAfterFirstSubRun : PrepState :=
  { target :=
      { sampledProxyArray := [10], refs := [], draws := [], vertexSpaces := [16],
        fills := [⟨0, 0, 0, 0, 2⟩] },
    flushInfo :=
      { fVertexBuffer := 1, fIndexBuffer := 1200, fGeometryProcessor := ⟨1⟩,
        fPrimProcProxies := [some 10, none, none, none],
        fGlyphsToFlush := 2, fVertexOffset := 0, fNumDraws := 0 },
    regenCalls := 1, quadBufferBegin := 0, quadBufferEnd := 4, totalGlyphsRegened := 2 }

end GrAtlasTextOp

namespace skgpu.graphite.TessellateWedgesRenderStep

/-- The point a contour ends at: the end point of its last verb other than a
close, `(0,0)` when it has none. -/
def contourLastPoint (items : List PathItem) : SkPoint :=
  ((items.filter fun it => it.verb ≠ .kClose).getLast?.map endPoint).getD ⟨0, 0⟩

/-- The point a contour starts at: the point of its (last) move, `(0,0)` when it
has none. -/
def contourStartPoint (items : List PathItem) : SkPoint :=
  ((items.filter fun it => it.verb = .kMove).getLast?.map fun it => it.pts 0).getD ⟨0, 0⟩

/-- Closed triangle: a move, three lines of which the last returns to the start,
and a close verb. Fan point `(1,1)`. -/
def closedTriangleContour : Contour :=
  ⟨⟨1, 1⟩, [moveTo ⟨0, 0⟩, lineTo ⟨0, 0⟩ ⟨4, 0⟩, lineTo ⟨4, 0⟩ ⟨0, 3⟩, lineTo ⟨0, 3⟩ ⟨0, 0⟩,
    ⟨.kClose, ptsOf [⟨0, 0⟩], 0⟩]⟩

end skgpu.graphite.TessellateWedgesRenderStep

namespace skgpu.graphite

/-! ## Transform kinds and the construction of the wedge step -/

/-- Modelled from the spec: the kinds of transform a draw may carry ("affine or
perspective"); `Transform::Type` of `Transform_graphite.h` is not part of the
sources. The source compares kinds with `<` and names `kProjection`: the kinds
listed before it are the affine ones, in increasing generality. -/
inductive TransformType where
  | kIdentity
  | kSimpleRectStaysRect
  | kRectStaysRect
  | kAffine
  | kProjection
  | kInvalid
  deriving DecidableEq, Repr

/-- Value of the enumerator, in declaration order. -/
def TransformType.toNat : TransformType → Nat
  | .kIdentity => 0
  | .kSimpleRectStaysRect => 1
  | .kRectStaysRect => 2
  | .kAffine => 3
  | .kProjection => 4
  | .kInvalid => 5

inductive CompareOp where
  | kAlways
  | kNever
  | kGreater
  | kGEqual
  | kLess
  | kLEqual
  | kEqual
  | kNotEqual
  deriving DecidableEq, Repr

/-- `DepthStencilSettings`, in the order of the initializer of
`kDirectShadingPass` (the two stencil faces are not read by the steps). -/
structure DepthStencilSettings where
  fStencilReferenceValue : Nat
  fStencilTestEnabled : Bool
  fDepthCompareOp : CompareOp
  fDepthTestEnabled : Bool
  fDepthWriteEnabled : Bool
  deriving DecidableEq, Repr

/-- The `Flags` of a RenderStep. -/
structure RenderStepFlags where
  kRequiresMSAA : Bool
  kPerformsShading : Bool
  kHasTextures : Bool
  kEmitsCoverage : Bool
  deriving DecidableEq, Repr

/-- The description a `RenderStep` constructor call fixes. -/
structure RenderStep where
  name : String
  variantName : String
  flags : RenderStepFlags
  uniforms : List Uniform
  depthStencilSettings : DepthStencilSettings
  vertexAttrs : List Attribute
  instanceAttrs : List Attribute
  deriving DecidableEq, Repr

/-- Modelled from the spec: `RenderStep::instanceStride()` (`Renderer.h` is not
part of the sources): the stride implied by the declared instance attributes,
their sizes added up. -/
def RenderStep.instanceStride (r : RenderStep) : Nat :=
  (r.instanceAttrs.map fun a => TessellateWedgesRenderStep.vertexAttribTypeSize a.type).sum

/-- The patch attributes the wedge step names (lines 30-32); the other
`PatchAttribs` bits are not set by it. -/
structure PatchAttribs where
  kFanPoint : Bool
  kPaintDepth : Bool
  kSsboIndex : Bool
  deriving DecidableEq, Repr

/-- Modelled from the spec: `PatchStride(attribs)` (`src/gpu/tessellate/Tessellation.h`
is not part of the sources). A patch is "control points (up to 4 packed
coordinate pairs), an optional fan-point, paint depth (float), and an SSBO
index": four pairs of floats, then eight bytes for the fan point and four for
each of depth and index when the attribute is present. -/
def PatchStride (attribs : PatchAttribs) : Nat :=
  4 * 8 + (if attribs.kFanPoint then 8 else 0) + (if attribs.kPaintDepth then 4 else 0) +
    (if attribs.kSsboIndex then 4 else 0)

namespace TessellateWedgesRenderStep

/-- Lines 30-32: `kAttribs = kFanPoint | kPaintDepth | kSsboIndex`. -/
def kAttribs : PatchAttribs := ⟨true, true, true⟩

/-- The constructor `TessellateWedgesRenderStep(variantName, depthStencilSettings)`,
lines 41-58. -/
def make (variantName : String) (depthStencilSettings : DepthStencilSettings) : RenderStep :=
  { name := "TessellateWedgesRenderStep",
    variantName := variantName,
    flags :=
      { kRequiresMSAA := true,
        kPerformsShading := depthStencilSettings.fDepthWriteEnabled,
        kHasTextures := false,
        kEmitsCoverage := false },
    uniforms := uniforms,
    depthStencilSettings := depthStencilSettings,
    vertexAttrs := [⟨"resolveLevel_and_idx", .kFloat2, .kFloat2⟩],
    instanceAttrs := instanceAttrs }

/-- Line 59: `SkASSERT(this->instanceStride() == PatchStride(kAttribs))`. -/
def constructorAssertion (step : RenderStep) : Bool :=
  step.instanceStride == PatchStride kAttribs

/-- Line 105: `SkASSERT(params.transform().type() < Transform::Type::kProjection)`. -/
def transformAssertion (type : TransformType) : Bool :=
  type.toNat < TransformType.kProjection.toNat

/-- `writeVertices` in a build with assertions, for a draw whose transform is of
kind `type`: `none` when the assertion of line 105 fails, else what
`writeVertices` does. -/
def writeVerticesDebug (type : TransformType) (contours : List Contour) (depth : SkScalar)
    (ssboIndex : Int) : Option Writer :=
  if transformAssertion type then some (writeVertices contours depth ssboIndex) else none

end TessellateWedgesRenderStep

end skgpu.graphite

/-! ## Font table data of the CoreText and DirectWrite typefaces

Sizes and offsets are `size_t` values; no operation on them below can wrap
(the one subtraction is guarded), so they are embedded as natural numbers. -/

namespace SkTypeface_Mac

/-- Embedding of `SkTypeface_Mac::onGetTableData`, lines 1078-1096 of
`SkTypeface_mac_ct.cpp`: the byte count returned. `srcData` is the answer of
`copy_table_from_font`: `none` for a null reference, else the table's length. -/
def onGetTableData (srcData : Option Nat) (offset length : Nat) : Nat :=
  match srcData with
  | none => 0
  | some srcSize =>
    if offset ≥ srcSize then
      0
    else
      let length := if length > srcSize - offset then srcSize - offset else length
      length

end SkTypeface_Mac

namespace DWriteFontTypeface

/-- The members of `AutoDWriteTable` that `onGetTableData` reads. -/
structure AutoDWriteTable where
  fExists : Bool
  fSize : Nat
  deriving DecidableEq, Repr

/-- Embedding of `DWriteFontTypeface::onGetTableData`, lines 381-398 of
`SkTypeface_win_dw.cpp`: the byte count returned. -/
def onGetTableData (table : AutoDWriteTable) (offset length : Nat) : Nat :=
  if !table.fExists then
    0
  else if offset > table.fSize then
    0
  else
    let size := min length (table.fSize - offset)
    size

end DWriteFontTypeface

/-! ## Variation axes of a CoreText font

Axis values are `double`s that are only copied and compared (`SkTPin` is a
`max` of a `min`); they are embedded as integers. -/

namespace SkTypeface_Mac

/-- A well-typed axis dictionary of `CTFontCopyVariationAxes`: the identifier as
read into `tagLong`, and the minimum, maximum and default value. -/
structure VariationAxis where
  tagLong : Int
  minDouble : Int
  maxDouble : Int
  defDouble : Int
  deriving DecidableEq, Repr

/-- `SkFontArguments::VariationPosition::Coordinate`. -/
structure Coordinate where
  axis : Nat
  value : Int
  deriving DecidableEq, Repr

/-- `OpszVariation`, default constructed as not set. -/
structure OpszVariation where
  isSet : Bool
  value : Int
  deriving DecidableEq, Repr

/-- The dictionary from axis identifier to value that is being built, as a
lookup function. -/
abbrev CFDictionary := Int → Option Int

/-- `CFDictionaryAddValue(dict, key, value)`: CoreFoundation adds the pair when
the key is absent and leaves the dictionary alone when it is present. -/
def CFDictionaryAddValue (dict : CFDictionary) (key value : Int) : CFDictionary :=
  fun k => if k = key then (match dict key with | some old => some old | none => some value)
    else dict k

/-- `CTFontVariation`: `dict` is `none` for the null dictionary of a default
constructed value. -/
structure CTFontVariation where
  dict : Option CFDictionary
  opsz : OpszVariation

/-- `SkSetFourByteTag('o','p','s','z')`. -/
def opszTag : Int := 0x6F70737A

/-- `SkTPin(x, lo, hi)`: `std::max(lo, std::min(x, hi))`. -/
def SkTPin (x lo hi : Int) : Int := max lo (min x hi)

/-- The search `for (int j = position.coordinateCount; j --> 0;)` of lines
1346-1355: the coordinate of highest index whose axis is `tagLong`. -/
def lastCoordinate (position : List Coordinate) (tagLong : Int) : Option Coordinate :=
  position.reverse.find? fun c => (c.axis : Int) = tagLong

/-- Lines 1343-1361, the part of the loop body that follows the type checks, for
one axis: the value is the default or the pinned last coordinate, `opsz` is
updated for the `opsz` axis, and the value is added to the dictionary. -/
def axisStep (position : List Coordinate) (st : CFDictionary × OpszVariation)
    (axis : VariationAxis) : CFDictionary × OpszVariation :=
  let (dict, opsz) := st
  let found := lastCoordinate position axis.tagLong
  let value :=
    match found with
    | some c => SkTPin c.value axis.minDouble axis.maxDouble
    | none => axis.defDouble
  let opsz : OpszVariation :=
    match found with
    | some _ => if axis.tagLong = opszTag then { opsz with isSet := true } else opsz
    | none => opsz
  let opsz : OpszVariation := if axis.tagLong = opszTag then { opsz with value := value } else opsz
  (CFDictionaryAddValue dict axis.tagLong value, opsz)

/-- The loop over the axes, lines 1307-1362. An axis is `none` when one of the
type checks on its dictionary fails; the function then returns a default
constructed `CTFontVariation`. -/
def axisLoop (position : List Coordinate) :
    List (Option VariationAxis) → CFDictionary × OpszVariation → CTFontVariation
  | [], (dict, opsz) => { dict := some dict, opsz := opsz }
  | none :: _, _ => { dict := none, opsz := ⟨false, 0⟩ }
  | some axis :: rest, st => axisLoop position rest (axisStep position st axis)

/-- Embedding of `SkCTVariationFromSkFontArguments(ct, args)`, lines 1287-1363.
`ctAxes` is the answer of `CTFontCopyVariationAxes` (`none` when null),
`position` is `args.getVariationDesignPosition()`. -/
def SkCTVariationFromSkFontArguments (ctAxes : Option (List (Option VariationAxis)))
    (position : List Coordinate) : CTFontVariation :=
  match ctAxes with
  | none => { dict := none, opsz := ⟨false, 0⟩ }
  | some axes => axisLoop position axes (fun _ => none, ⟨false, 0⟩)

/-- The value clamped to the interval `[lo, hi]`. -/
def clampTo (lo hi x : Int) : Int :=
  if x < lo then lo else if hi < x then hi else x

/-- The value a position asks for on an axis: the value of the last coordinate
(highest index) given for the axis's tag clamped to the axis's range, or the
axis's default when the position has no coordinate for the tag. -/
def requestedValue (position : List Coordinate) (axis : VariationAxis) : Int :=
  match (position.filter fun c => (c.axis : Int) = axis.tagLong).getLast? with
  | some c => clampTo axis.minDouble axis.maxDouble c.value
  | none => axis.defDouble

/-- A font with a weight axis and an optical size axis. -/
def axesWghtOpsz : List VariationAxis :=
  [⟨0x77676874, 100, 900, 400⟩, ⟨0x6F70737A, 8, 144, 14⟩]

/-- A position that gives the weight twice (the second one out of range) and
the optical size once. -/
def positionWghtTwice : List Coordinate :=
  [⟨0x77676874, 300⟩, ⟨0x6F70737A, 20⟩, ⟨0x77676874, 1000⟩]

end SkTypeface_Mac

/-! ## Palette of a DirectWrite typeface -/

namespace DWriteFontTypeface

/-- Colors `SkColor`. -/
abbrev SkColor := Nat

/-- `DWRITE_COLOR_F`: four float channels (kept as the values they hold). -/
structure DWRITE_COLOR_F where
  r : Int
  g : Int
  b : Int
  a : Int
  deriving DecidableEq, Repr

/-- `SkFontArguments::Palette::Override`. -/
structure Override where
  index : Int
  color : SkColor
  deriving DecidableEq, Repr

/-- `SkFontArguments::Palette` as stored in `fRequestedPalette`: the overrides are
`overrides[0..overrideCount)`. -/
structure Palette where
  index : Int
  overrides : List Override
  deriving DecidableEq, Repr

/-- What `initializePalette` asks of the font face: `GetColorPaletteCount()`,
`GetPaletteEntryCount()` and, per palette index, the entries
`GetPaletteEntries` writes to the buffer (`none` when the call fails). -/
structure FontFace where
  fIsColorFont : Bool
  colorPaletteCount : Nat
  paletteEntryCount : Nat
  getPaletteEntries : Nat → Option (Nat → DWRITE_COLOR_F)

/-- The members `initializePalette` writes. -/
structure PaletteState where
  fPalette : List SkColor
  fPaletteEntryCount : Nat
  deriving DecidableEq, Repr

/-- Result codes of `initializePalette`. -/
inductive HRESULT where
  | S_OK
  | failed
  deriving DecidableEq, Repr

/-- Lines 46-53: the base palette index. An `int` fits in `UINT32` exactly when
it is not negative. -/
def basePaletteIndex (dwPaletteCount : Nat) (requested : Palette) : Nat :=
  if 0 ≤ requested.index ∧ requested.index.toNat < dwPaletteCount then
    requested.index.toNat
  else
    0

/-- Body of the loop of lines 70-77 for one override. -/
def applyOverride (dwPaletteEntryCount : Nat) (fPalette : List SkColor)
    (paletteOverride : Override) : List SkColor :=
  if 0 ≤ paletteOverride.index ∧ paletteOverride.index.toNat < dwPaletteEntryCount then
    fPalette.set paletteOverride.index.toNat paletteOverride.color
  else
    fPalette

/-- Embedding of `DWriteFontTypeface::initializePalette`, lines 36-81. `toSkColor`
is the conversion of line 63-66 (`SkColorSetARGB` of the channels times 255,
rounded), a float computation that is taken as given. -/
def initializePalette (toSkColor : DWRITE_COLOR_F → SkColor) (face : FontFace)
    (fRequestedPalette : Palette) (st : PaletteState) : HRESULT × PaletteState :=
  if !face.fIsColorFont then
    (.S_OK, st)
  else
    let dwPaletteCount := face.colorPaletteCount
    if dwPaletteCount = 0 then
      (.S_OK, st)
    else
      let basePaletteIndex := basePaletteIndex dwPaletteCount fRequestedPalette
      let dwPaletteEntryCount := face.paletteEntryCount
      match face.getPaletteEntries basePaletteIndex with
      | none => (.failed, st)
      | some dwPaletteEntry =>
        let fPalette := (List.range dwPaletteEntryCount).map fun i => toSkColor (dwPaletteEntry i)
        let fPalette := fRequestedPalette.overrides.foldl (applyOverride dwPaletteEntryCount) fPalette
        (.S_OK, { fPalette := fPalette, fPaletteEntryCount := dwPaletteEntryCount })

/-- Whether an override's index names an entry: `0 <= index < entryCount`. -/
def inRange (dwPaletteEntryCount : Nat) (o : Override) : Bool :=
  decide (0 ≤ o.index ∧ o.index < (dwPaletteEntryCount : Int))

/-- The color of the last override of the request whose index is `i`, if any. -/
def lastOverride (overrides : List Override) (i : Nat) : Option SkColor :=
  ((overrides.filter fun o => o.index = (i : Int)).getLast?).map Override.color

/-- A color font with two palettes of three entries; palette `p` holds the
colors with red channel `10 * p + i`. -/
def faceTwoPalettes : FontFace :=
  { fIsColorFont := true, colorPaletteCount := 2, paletteEntryCount := 3,
    getPaletteEntries := fun p => some fun i => ⟨10 * p + i, 0, 0, 1⟩ }

/-- A request for palette 5 (out of range) with overrides for entry 1 (twice),
entry -1 and entry 3 (both out of range). -/
def requestOutOfRange : Palette :=
  { index := 5, overrides := [⟨1, 111⟩, ⟨-1, 222⟩, ⟨3, 333⟩, ⟨1, 444⟩] }

end DWriteFontTypeface

/-! ## Font manager order of the paragraph font collection -/

namespace skia.textlayout

/-- Identity of an `SkFontMgr` object. -/
abbrev SkFontMgr := Nat

/-- The members of `FontCollection` that decide the manager order; a null
`sk_sp` is `none`. -/
structure FontCollection where
  fEnableFontFallback : Bool
  fDefaultFontManager : Option SkFontMgr
  fAssetFontManager : Option SkFontMgr
  fDynamicFontManager : Option SkFontMgr
  fTestFontManager : Option SkFontMgr
  deriving DecidableEq, Repr

namespace FontCollection

/-- `if (manager) order.push_back(manager)`. -/
def pushIf (order : List SkFontMgr) (cond : Bool) (manager : Option SkFontMgr) :
    List SkFontMgr :=
  match manager with
  | some m => if cond then order ++ [m] else order
  | none => order

/-- Embedding of `FontCollection::getFontManagerOrder`, lines 64-80. -/
def getFontManagerOrder (fc : FontCollection) : List SkFontMgr :=
  let order : List SkFontMgr := []
  let order := pushIf order true fc.fDynamicFontManager
  let order := pushIf order true fc.fAssetFontManager
  let order := pushIf order true fc.fTestFontManager
  let order := pushIf order fc.fEnableFontFallback fc.fDefaultFontManager
  order

/-- Line 29. -/
def getFontManagersCount (fc : FontCollection) : Nat := (getFontManagerOrder fc).length

/-- Line 177. -/
def disableFontFallback (fc : FontCollection) : FontCollection :=
  { fc with fEnableFontFallback := false }

/-- Line 178. -/
def enableFontFallback (fc : FontCollection) : FontCollection :=
  { fc with fEnableFontFallback := true }

end FontCollection

end skia.textlayout

namespace skgpu.graphite

/-! ## Order of the draws of a pass -/

/-- Modelled from the spec: a draw of the list handed to `DrawPass::Make`
(`DrawList.h` and `DrawPass.cpp` are not part of the sources), "geometry +
transform + paint-order + render-step reference": its paint depth, the key of
its pipeline, whether its step requires MSAA, and the instanced draw it
becomes in the command list. -/
structure Draw where
  depth : Nat
  pipelineKey : Nat
  requiresMSAA : Bool
  command : DrawInstanced
  deriving DecidableEq, Repr

/-- Modelled from the spec: the order of `DrawPass::SortKey` (the class is only
declared in `DrawPass.h`): "(depth, pipeline-key) where depth dominates". -/
def SortKey.le (a b : Draw) : Prop :=
  a.depth < b.depth ∨ (a.depth = b.depth ∧ a.pipelineKey ≤ b.pipelineKey)

instance SortKey.decidableLe : DecidableRel SortKey.le := fun a b =>
  inferInstanceAs (Decidable (a.depth < b.depth ∨ (a.depth = b.depth ∧ a.pipelineKey ≤ b.pipelineKey)))

/-- Modelled from the spec: the order in which `DrawPass::Make` emits the draws
(`DrawPass.cpp` is not part of the sources): a "stable sort by (depth,
pipeline-key)" of the draw list. -/
def DrawPass.sortedDraws (draws : List Draw) : List Draw :=
  draws.insertionSort SortKey.le

/-- Modelled from the spec: `DrawPass::Make` (`DrawPass.cpp` is not part of the
sources): the command list holds the draws in sorted order, the pipeline
descriptors are the distinct ones met, and the pass requires MSAA when a draw
does. -/
def DrawPass.Make (draws : List Draw) : DrawPass :=
  { fCommandList := (DrawPass.sortedDraws draws).map Draw.command,
    fPipelineDescs := (draws.map Draw.pipelineKey).dedup.length,
    fSamplerDescs := 0,
    fRequiresMSAA := draws.any Draw.requiresMSAA }

/-- Four draws, recorded with depths 2, 1, 2, 1 and pipelines 7, 9, 5, 9. -/
def drawsOutOfOrder : List Draw :=
  [⟨2, 7, false, ⟨3, 48⟩⟩, ⟨1, 9, true, ⟨1, 48⟩⟩, ⟨2, 5, false, ⟨2, 48⟩⟩, ⟨1, 9, true, ⟨4, 48⟩⟩]

end skgpu.graphite

namespace GrAtlasTextOp

/-! ### Bounds of the vertex data -/

/-- A fill call stays inside the allocation it points to: it starts at a quad
index that is not negative, and its last quad ends within the vertices the
allocation asked for. -/
def FillCall.inBounds (vertexSpaces : List Int) (f : FillCall) : Prop :=
  0 ≤ f.quadBufferIndex ∧
    ∃ vertexCount, vertexSpaces[f.vertices]? = some vertexCount ∧
      kVerticesPerGlyph * (f.quadBufferIndex + f.count) ≤ vertexCount

/-- The vertex data of a state is in bounds: every allocation asked for at most
`maxQuadsPerBuffer` quads, and every fill call stayed inside its allocation. -/
def VertexDataInBounds (env : Env) (op : Op) (s : PrepState) : Prop :=
  (∀ vertexCount ∈ s.target.vertexSpaces,
    vertexCount ≤ kVerticesPerGlyph * maxQuadsPerBuffer env op) ∧
  (∀ f ∈ s.target.fills, f.inBounds s.target.vertexSpaces)

/-- What holds whenever the condition of the `while` loop is tested: the vertex
data is in bounds, the glyphs regenerated so far lie within the current quad
buffer `[quadBufferBegin, quadBufferEnd]`, and the most recent allocation
holds the quads of that buffer. -/
def LoopInvariant (env : Env) (op : Op) (s : PrepState) : Prop :=
  VertexDataInBounds env op s ∧
  s.quadBufferBegin ≤ s.totalGlyphsRegened ∧
  s.totalGlyphsRegened ≤ s.quadBufferEnd ∧
  s.target.vertexSpaces.getLast? =
    some (kVerticesPerGlyph * (s.quadBufferEnd - s.quadBufferBegin))

/-- Surroundings with room for two quads per vertex buffer, in which every
regeneration takes all the glyphs it is asked for. -/
def envSmallBuffer : Env :=
  { kMaxTextures := 4, kMaxVertexBytes := 128, indexBufferSize := 1200,
    getViews := fun _ => some [10],
    regenerate := fun _ drawBegin drawEnd => (true, drawEnd - drawBegin),
    makeVertexSpace := fun n => some (n + 1, 0) }

/-- Op of two merged geometries with three and two glyphs. -/
def opThreeAndTwo : Op :=
  { fGeoData := [3, 2], fNumGlyphs := 5, usesLocalCoords := false, drawMatrixInvertible := true,
    vertexStride := 16 }

end GrAtlasTextOp

namespace GrAtlasTextOp

/-! ### The stages of one iteration of the `while` loop -/

/-- Lines 310-320: the state after a call of `regenerate` (the one numbered
`s.regenCalls`) that returned `ok` with `glyphsRegenerated` glyphs. -/
def afterRegenerate (geo : Nat) (subRunBegin : Int) (s : PrepState) (glyphsRegenerated : Int) :
    PrepState :=
  let s : PrepState := { s with regenCalls := s.regenCalls + 1 }
  let s : PrepState :=
    if glyphsRegenerated > 0 then
      let quadBufferIndex := s.totalGlyphsRegened - s.quadBufferBegin
      let subRunIndex := s.totalGlyphsRegened - subRunBegin
      { s with target := { s.target with
          fills := s.target.fills ++
            [⟨geo, s.target.vertexSpaces.length - 1, quadBufferIndex, subRunIndex,
              glyphsRegenerated⟩] } }
    else s
  { s with
    totalGlyphsRegened := s.totalGlyphsRegened + glyphsRegenerated,
    flushInfo := { s.flushInfo with
      fGlyphsToFlush := s.flushInfo.fGlyphsToFlush + glyphsRegenerated } }

/-- Line 332: the state after `createDrawForGeneratedGlyphs(target, &flushInfo)`. -/
def flushGlyphs (env : Env) (s : PrepState) : PrepState :=
  let flushed := createDrawForGeneratedGlyphs (env.getViews s.regenCalls) s.target s.flushInfo
  { s with target := flushed.1, flushInfo := flushed.2 }

/-- Lines 335-338: the quad buffer is moved to begin at the glyphs regenerated so
far. -/
def nextQuadBuffer (env : Env) (op : Op) (s : PrepState) : PrepState :=
  let quadBufferBegin := s.totalGlyphsRegened
  let quadBufferSize := min (maxQuadsPerBuffer env op) (op.fNumGlyphs - s.totalGlyphsRegened)
  { s with quadBufferBegin := quadBufferBegin, quadBufferEnd := quadBufferBegin + quadBufferSize }

/-- What a part of a run guarantees: the loop invariant with all glyphs up to
`subRunEnd` regenerated when control goes on, and vertex data in bounds when
the function returned or the fuel ran out. -/
def RunInBounds (env : Env) (op : Op) (subRunEnd : Int) : Run → Prop
  | .next s => LoopInvariant env op s ∧ s.totalGlyphsRegened = subRunEnd
  | .returned _ s => VertexDataInBounds env op s
  | .outOfFuel s => VertexDataInBounds env op s

end GrAtlasTextOp

namespace GrAtlasTextOp

/-- Lines 232-267: the state of `onPrepareDraws` just before the first vertex
allocation, when the atlas manager reported `views`. -/
def initialState (env : Env) (op : Op) (views : List Proxy) : PrepState :=
  { target := { Target.init with
      sampledProxyArray :=
        (initViewsFrom 0 views
          (List.replicate env.kMaxTextures none, Target.init.sampledProxyArray)).2 },
    flushInfo :=
      { fVertexBuffer := 0, fIndexBuffer := env.indexBufferSize,
        fGeometryProcessor := ⟨views.length⟩,
        fPrimProcProxies :=
          (initViewsFrom 0 views
            (List.replicate env.kMaxTextures none, Target.init.sampledProxyArray)).1,
        fGlyphsToFlush := 0, fVertexOffset := 0, fNumDraws := 0 },
    regenCalls := 0, quadBufferBegin := 0,
    quadBufferEnd := min op.fNumGlyphs (maxQuadsPerBuffer env op),
    totalGlyphsRegened := 0 }

/-- Line 353: after the loop over the geometries the glyphs still pending are
flushed; an early return stays what it is. -/
def finishRun (env : Env) : Run → Run
  | .next s => .next (flushGlyphs env s)
  | r => r

end GrAtlasTextOp

namespace GrAtlasTextOp

/-- The state of `onPrepareDraws` on entry: nothing done to the target, a
default constructed `FlushInfo`. -/
def entryState : PrepState :=
  { target := Target.init,
    flushInfo :=
      { fVertexBuffer := 0, fIndexBuffer := 0, fGeometryProcessor := ⟨0⟩,
        fPrimProcProxies := [], fGlyphsToFlush := 0, fVertexOffset := 0, fNumDraws := 0 },
    regenCalls := 0, quadBufferBegin := 0, quadBufferEnd := 0, totalGlyphsRegened := 0 }

end GrAtlasTextOp

/-! ## Colorspace conversion of SVG filter inputs -/

namespace SkSVGFilterContext

/-- `SkSVGColorspace`. -/
inductive SkSVGColorspace where
  | kAuto
  | kSRGB
  | kLinearRGB
  deriving DecidableEq, Repr

/-- The color filters the filter context builds. -/
inductive SkColorFilter where
  | SRGBToLinearGamma
  | LinearToSRGBGamma
  | alphaOnlyMatrix
  deriving DecidableEq, Repr

/-- An `sk_sp<SkImageFilter>` as the filter context sees it: the null pointer
(which stands for the source graphic), a color filter over an input, a shader
filter made from a paint, or the filter some filter effect node made. -/
inductive SkImageFilter where
  | null
  | ColorFilter (cf : SkColorFilter) (input : SkImageFilter)
  | Shader (paint : Nat) (dither : Bool)
  | effect (node : Nat)
  deriving DecidableEq, Repr

/-- Line 31: `SkASSERT(src == kLinearRGB && dst == kSRGB)`. -/
def finalBranchAssertion (src dst : SkSVGColorspace) : Bool :=
  src == .kLinearRGB && dst == .kSRGB

/-- Embedding of `ConvertFilterColorspace(input, src, dst)`, lines 20-34, as a
build without assertions runs it. -/
def ConvertFilterColorspace (input : SkImageFilter) (src dst : SkSVGColorspace) :
    SkImageFilter :=
  if src = dst then
    input
  else if src = .kSRGB ∧ dst = .kLinearRGB then
    .ColorFilter .SRGBToLinearGamma input
  else
    .ColorFilter .LinearToSRGBGamma input

/-- `ConvertFilterColorspace` in a build with assertions: `none` when the
assertion of the final branch fails, else the filter returned. -/
def ConvertFilterColorspaceChecked (input : SkImageFilter) (src dst : SkSVGColorspace) :
    Option SkImageFilter :=
  if src = dst then
    some input
  else if src = .kSRGB ∧ dst = .kLinearRGB then
    some (.ColorFilter .SRGBToLinearGamma input)
  else if finalBranchAssertion src dst then
    some (.ColorFilter .LinearToSRGBGamma input)
  else
    none

/-- `SkSVGFeInputType`: its `type()` and, for a reference, its `id()`. -/
inductive SkSVGFeInputType where
  | kSourceGraphic
  | kSourceAlpha
  | kBackgroundImage
  | kBackgroundAlpha
  | kFillPaint
  | kStrokePaint
  | kFilterPrimitiveReference (id : String)
  | kUnspecified
  deriving DecidableEq, Repr

/-- `SkSVGFilterContext::Result`, without the subregion. -/
structure Result where
  fImageFilter : SkImageFilter
  fColorspace : SkSVGColorspace
  deriving DecidableEq, Repr

/-- A valid fill or stroke paint of the render context: the shader
`paint_as_shader` makes of it, and `isDither()`. -/
structure Paint where
  shader : Nat
  isDither : Bool
  deriving DecidableEq, Repr

/-- What `getInput` reads: the registered results (`fResults.find(id)`), the
previous result, and the fill and stroke paint of the render context (`none`
when not valid). -/
structure FilterContext where
  fResults : String → Option Result
  fPreviousResult : Result
  fillPaint : Option Paint
  strokePaint : Option Paint

/-- Embedding of `SkSVGFilterContext::getInput`, lines 89-149. -/
def getInput (fctx : FilterContext) (inputType : SkSVGFeInputType) :
    SkImageFilter × SkSVGColorspace :=
  let inputCS := SkSVGColorspace.kSRGB
  let result : SkImageFilter := .null
  match inputType with
  | .kSourceAlpha => (.ColorFilter .alphaOnlyMatrix .null, inputCS)
  | .kSourceGraphic => (result, inputCS)
  | .kFillPaint =>
    match fctx.fillPaint with
    | some fillPaint => (.Shader fillPaint.shader fillPaint.isDither, inputCS)
    | none => (result, inputCS)
  | .kStrokePaint =>
    match fctx.strokePaint with
    | some strokePaint => (.Shader strokePaint.shader strokePaint.isDither, inputCS)
    | none => (result, inputCS)
  | .kFilterPrimitiveReference id =>
    match fctx.fResults id with
    | some res => (res.fImageFilter, res.fColorspace)
    | none => (result, inputCS)
  | .kUnspecified => (fctx.fPreviousResult.fImageFilter, fctx.fPreviousResult.fColorspace)
  | _ => (result, inputCS)

/-- The pair `(src, dst)` that `resolveInput(ctx, inputType, colorspace)` hands to
`ConvertFilterColorspace`, lines 166-167. -/
def resolveInputColorspaces (fctx : FilterContext) (inputType : SkSVGFeInputType)
    (colorspace : SkSVGColorspace) : SkSVGColorspace × SkSVGColorspace :=
  ((getInput fctx inputType).2, colorspace)

/-- Embedding of the three-argument `SkSVGFilterContext::resolveInput`, lines
162-168. -/
def resolveInput (fctx : FilterContext) (inputType : SkSVGFeInputType)
    (colorspace : SkSVGColorspace) : SkImageFilter :=
  let (result, inputCS) := getInput fctx inputType
  ConvertFilterColorspace result inputCS colorspace

/-- A filter context right after construction: no result registered, the previous
result is the source graphic in sRGB. -/
def emptyContext : FilterContext :=
  { fResults := fun _ => none, fPreviousResult := ⟨.null, .kSRGB⟩, fillPaint := none,
    strokePaint := none }

end SkSVGFilterContext

/-! ## Aging of particles in `SkParticleEffect::advanceTime` -/

namespace SkParticleEffect

/-- The constants of `SkParticles` the aging step uses: the number of channels
and the channels of the age and of the (inverse) lifetime. -/
structure SkParticles where
  kNumChannels : Nat
  kAge : Fin kNumChannels
  kLifetime : Fin kNumChannels

/-- The sixteen channels the effect fills on spawning, `kAge` first and
`kLifetime` second. -/
def channels16 : SkParticles :=
  { kNumChannels := 16, kAge := 0, kLifetime := 1 }

/-- The particle storage of an effect over `n` channels with scalars in `α`:
`fParticles.fData[j][i]`, `fStableRandoms[i]` (the generator as its seed) and
`fCount`. -/
structure Effect (n : Nat) (α : Type) where
  fData : Fin n → Nat → α
  fStableRandoms : Nat → Nat
  fCount : Int

/-- The assignment `fData[j][i] = v`. -/
def setAt {n : Nat} {α : Type} (fData : Fin n → Nat → α) (j : Fin n) (i : Nat) (v : α) :
    Fin n → Nat → α :=
  fun j1 i1 => if j1 = j ∧ i1 = i then v else fData j1 i1

/-- Lines 392-394: `for (j = 0; j < kNumChannels; ++j) fData[j][i] = fData[j][last]`. -/
def copyChannels {n : Nat} {α : Type} (i last : Nat) (fData : Fin n → Nat → α) :
    Fin n → Nat → α :=
  (List.finRange n).foldl (fun d j => setAt d j i (d j last)) fData

/-- Lines 388-398, the body of the aging loop at index `i`: the age is advanced
by `lifetime * deltaTime`; a particle whose age is then greater than one is
overwritten by the last one, and `i` and `fCount` are decremented. Returns `i`
as the body leaves it. -/
def ageStep {α : Type} [Add α] [Mul α] [One α] [LT α] [DecidableRel (fun a b : α => a < b)]
    (P : SkParticles) (deltaTime : α) (i : Int) (s : Effect P.kNumChannels α) :
    Int × Effect P.kNumChannels α :=
  let fData := setAt s.fData P.kAge i.toNat
    (s.fData P.kAge i.toNat + s.fData P.kLifetime i.toNat * deltaTime)
  if 1 < fData P.kAge i.toNat then
    (i - 1,
     { fData := copyChannels i.toNat (s.fCount - 1).toNat fData
       fStableRandoms := fun k =>
         if k = i.toNat then s.fStableRandoms (s.fCount - 1).toNat else s.fStableRandoms k
       fCount := s.fCount - 1 })
  else
    (i, { s with fData := fData })

/-- Lines 387-399, `for (int i = ...; i < fCount; ++i)` from index `i` on; `none`
when the fuel runs out before the loop condition fails. -/
def ageLoop {α : Type} [Add α] [Mul α] [One α] [LT α] [DecidableRel (fun a b : α => a < b)]
    (P : SkParticles) (deltaTime : α) :
    Nat → Int → Effect P.kNumChannels α → Option (Effect P.kNumChannels α)
  | 0, i, s => if i < s.fCount then none else some s
  | fuel + 1, i, s =>
    if i < s.fCount then
      ageLoop P deltaTime fuel ((ageStep P deltaTime i s).1 + 1) (ageStep P deltaTime i s).2
    else some s

/-- The aging step of `advanceTime`, lines 386-399. -/
def ageParticles {α : Type} [Add α] [Mul α] [One α] [LT α]
    [DecidableRel (fun a b : α => a < b)]
    (P : SkParticles) (deltaTime : α) (fuel : Nat) (s : Effect P.kNumChannels α) :
    Option (Effect P.kNumChannels α) :=
  ageLoop P deltaTime fuel 0 s

/-- One particle: the values of its channels and its stable random seed. -/
structure Particle (n : Nat) (α : Type) where
  channels : Fin n → α
  stableRandom : Nat

/-- The particle stored at index `k`. -/
def particleAt {n : Nat} {α : Type} (s : Effect n α) (k : Nat) : Particle n α :=
  ⟨fun j => s.fData j k, s.fStableRandoms k⟩

/-- The particles at the indices `a, ..., a + len - 1`. -/
def particlesFrom {n : Nat} {α : Type} (s : Effect n α) (a len : Nat) : List (Particle n α) :=
  (List.range' a len).map (particleAt s)

/-- The live particles: those at the indices below `fCount`. -/
def liveParticles {n : Nat} {α : Type} (s : Effect n α) : List (Particle n α) :=
  particlesFrom s 0 s.fCount.toNat

/-- A particle with its age advanced once: age `a + l * deltaTime`, everything
else kept. -/
def Particle.advance {α : Type} [Add α] [Mul α] (P : SkParticles) (deltaTime : α)
    (p : Particle P.kNumChannels α) : Particle P.kNumChannels α :=
  ⟨fun j => if j = P.kAge then p.channels P.kAge + p.channels P.kLifetime * deltaTime
            else p.channels j, p.stableRandom⟩

/-- The age of the particle is not greater than one. -/
def Particle.alive {α : Type} [One α] [LT α] [DecidableRel (fun a b : α => a < b)]
    (P : SkParticles) (p : Particle P.kNumChannels α) : Bool :=
  !decide (1 < p.channels P.kAge)

/-- Three particles with age 0 and inverse lifetimes 2, 1, 3; the third channel
holds the index the particle was spawned at, the seed is 100 plus that index. -/
def threeParticles : Effect channels16.kNumChannels Int :=
  { fData := fun j k =>
      if j = channels16.kLifetime then [2, 1, 3].getD k 0
      else if j.val = 2 then (k : Int) else 0
    fStableRandoms := fun k => 100 + k
    fCount := 3 }

end SkParticleEffect

/-! ## Merging two atlas text ops -/

namespace GrAtlasTextOp

/-- `GrAtlasTextOp::MaskType`. -/
inductive MaskType where
  | kGrayscaleCoverageMask_MaskType
  | kLCDCoverageMask_MaskType
  | kColorBitmapMask_MaskType
  | kAliasedDistanceField_MaskType
  | kGrayscaleDistanceField_MaskType
  | kLCDDistanceField_MaskType
  | kLCDBGRDistanceField_MaskType
  deriving DecidableEq, Repr

/-- An `SkMatrix` as the merge reads it: its nine entries, which `CheapEqual`
compares, and the value of `hasPerspective()`. -/
structure SkMatrix where
  entries : List Int
  hasPerspective : Bool
  deriving DecidableEq, Repr

/-- `GrAtlasTextOp::Geometry`: the blob and sub-run it refers to, its draw matrix
and its color. -/
structure Geometry where
  fBlob : Nat
  fSubRunPtr : Nat
  fDrawMatrix : SkMatrix
  fColor : Nat
  deriving DecidableEq, Repr

/-- `GrOp::CombineResult`, the two values `onCombineIfPossible` returns. -/
inductive CombineResult where
  | kCannotCombine
  | kMerged
  deriving DecidableEq, Repr

/-- The members of a `GrAtlasTextOp` that `onCombineIfPossible` reads or writes;
`fGeoData` is the geometry array, of which `fGeoDataAllocSize` entries are
allocated and the first `fGeoCount` are in use. -/
structure AtlasTextOp where
  fProcessors : Nat
  fMaskType : MaskType
  fUsesLocalCoords : Bool
  fNeedsGlyphTransform : Bool
  fDFGPFlags : Nat
  fLuminanceColor : Nat
  fGeoData : Nat → Geometry
  fGeoDataAllocSize : Int
  fGeoCount : Int
  fNumGlyphs : Int

/-- `color()`: the color of the first geometry. -/
def AtlasTextOp.color (op : AtlasTextOp) : Nat :=
  (op.fGeoData 0).fColor

/-- Lines 424-460 of `onCombineIfPossible`: `some kCannotCombine` when one of the
early returns is taken, `none` when the ops go on to be merged.
`usesDistanceFields` is the accessor of that name, which the header declares. -/
def combineChecks (usesDistanceFields : AtlasTextOp → Bool) (this that : AtlasTextOp) :
    Option CombineResult :=
  if this.fProcessors ≠ that.fProcessors then
    some .kCannotCombine
  else if this.fMaskType ≠ that.fMaskType then
    some .kCannotCombine
  else
    let thisFirstMatrix := (this.fGeoData 0).fDrawMatrix
    let thatFirstMatrix := (that.fGeoData 0).fDrawMatrix
    if this.fUsesLocalCoords ∧ ¬ thisFirstMatrix.entries = thatFirstMatrix.entries then
      some .kCannotCombine
    else if this.fNeedsGlyphTransform ≠ that.fNeedsGlyphTransform then
      some .kCannotCombine
    else if this.fNeedsGlyphTransform ∧
        thisFirstMatrix.hasPerspective ≠ thatFirstMatrix.hasPerspective then
      some .kCannotCombine
    else if usesDistanceFields this then
      if this.fDFGPFlags ≠ that.fDFGPFlags then
        some .kCannotCombine
      else if this.fLuminanceColor ≠ that.fLuminanceColor then
        some .kCannotCombine
      else none
    else
      if MaskType.kColorBitmapMask_MaskType = this.fMaskType ∧ this.color ≠ that.color then
        some .kCannotCombine
      else none

/-- Lines 470-472: `while (newAllocSize < newGeoCount) newAllocSize += newAllocSize / 2`;
`none` when the fuel runs out before the loop condition fails. -/
def growLoop (newGeoCount : Int) : Nat → Int → Option Int
  | 0, newAllocSize => if newAllocSize < newGeoCount then none else some newAllocSize
  | fuel + 1, newAllocSize =>
    if newAllocSize < newGeoCount then
      growLoop newGeoCount fuel (newAllocSize + newAllocSize / 2)
    else some newAllocSize

/-- Lines 467-475: the new value of `fGeoDataAllocSize`. -/
def growAllocSize (fuel : Nat) (fGeoDataAllocSize newGeoCount : Int) : Option Int :=
  if newGeoCount > fGeoDataAllocSize then
    growLoop newGeoCount fuel (fGeoDataAllocSize + fGeoDataAllocSize / 2)
  else some fGeoDataAllocSize

/-- Line 479: `memcpy(&fGeoData[fGeoCount], that->fGeoData.get(), that->fGeoCount *
sizeof(Geometry))`. -/
def copyGeometries (this that : AtlasTextOp) : Nat → Geometry :=
  fun k =>
    if this.fGeoCount.toNat ≤ k ∧ k < this.fGeoCount.toNat + that.fGeoCount.toNat then
      that.fGeoData (k - this.fGeoCount.toNat)
    else this.fGeoData k

/-- Embedding of `GrAtlasTextOp::onCombineIfPossible`, lines 421-488: the result
with this op and the other op as the call leaves them; `none` when the fuel
runs out in the growth loop. The marking of the other op's blobs in debug
builds is left out. -/
def onCombineIfPossible (usesDistanceFields : AtlasTextOp → Bool) (fuel : Nat)
    (this that : AtlasTextOp) : Option (CombineResult × AtlasTextOp × AtlasTextOp) :=
  match combineChecks usesDistanceFields this that with
  | some result => some (result, this, that)
  | none =>
    let fNumGlyphs := this.fNumGlyphs + that.fNumGlyphs
    let newGeoCount := that.fGeoCount + this.fGeoCount
    match growAllocSize fuel this.fGeoDataAllocSize newGeoCount with
    | none => none
    | some fGeoDataAllocSize =>
      some (.kMerged,
        { this with
          fNumGlyphs := fNumGlyphs
          fGeoDataAllocSize := fGeoDataAllocSize
          fGeoData := copyGeometries this that
          fGeoCount := newGeoCount },
        { that with fGeoCount := 0 })

/-- `usesDistanceFields()` for the examples: the four distance field mask types. -/
def usesDistanceFieldsByMask (op : AtlasTextOp) : Bool :=
  op.fMaskType = .kAliasedDistanceField_MaskType ∨
  op.fMaskType = .kGrayscaleDistanceField_MaskType ∨
  op.fMaskType = .kLCDDistanceField_MaskType ∨
  op.fMaskType = .kLCDBGRDistanceField_MaskType

/-- A geometry of blob `b` with the identity matrix and color 7. -/
def geometryOfBlob (b : Nat) : Geometry :=
  { fBlob := b, fSubRunPtr := b, fDrawMatrix := ⟨[1, 0, 0, 0, 1, 0, 0, 0, 1], false⟩,
    fColor := 7 }

/-- A grayscale coverage op with two geometries (blobs 10, 11) in an array of
capacity 2, and 5 glyphs. -/
def opTwoGeometries : AtlasTextOp :=
  { fProcessors := 1, fMaskType := .kGrayscaleCoverageMask_MaskType, fUsesLocalCoords := false,
    fNeedsGlyphTransform := false, fDFGPFlags := 0, fLuminanceColor := 0,
    fGeoData := fun k => geometryOfBlob (10 + k), fGeoDataAllocSize := 2, fGeoCount := 2,
    fNumGlyphs := 5 }

/-- A grayscale coverage op with three geometries (blobs 20, 21, 22) and 4 glyphs. -/
def opThreeGeometries : AtlasTextOp :=
  { opTwoGeometries with
    fGeoData := fun k => geometryOfBlob (20 + k), fGeoDataAllocSize := 12, fGeoCount := 3,
    fNumGlyphs := 4 }

end GrAtlasTextOp

namespace GrAtlasTextOp

/-! ### The glyphs filled and drawn by `onPrepareDraws` -/

/-- The glyphs a `fillVertexData(dst, offset, count)` call of geometry `geo` writes
vertex data for: the glyphs `offset, ..., offset + count - 1` of its sub-run. -/
def FillCall.glyphs (f : FillCall) : List (Nat × Int) :=
  (List.range f.count.toNat).map fun (k : Nat) => (f.geo, f.subRunIndex + (k : Int))

/-- The glyphs whose vertex data was filled, as `(geometry, index in the
sub-run)`, in the order of the writes. -/
def filledGlyphs (target : Target) : List (Nat × Int) :=
  target.fills.flatMap FillCall.glyphs

/-- The first `glyphCount` glyphs of the sub-run of geometry `geo`, in order. -/
def subRunGlyphs (geo : Nat) (glyphCount : Int) : List (Nat × Int) :=
  (List.range glyphCount.toNat).map fun (k : Nat) => (geo, (k : Int))

/-- Every glyph of every sub-run once, in sub-run order; `geo` is the index of
the first geometry, `glyphCounts` the glyph counts from there on. -/
def glyphsInOrder : Nat → List Int → List (Nat × Int)
  | _, [] => []
  | geo, glyphCount :: rest => subRunGlyphs geo glyphCount ++ glyphsInOrder (geo + 1) rest

/-- The sum of the glyph counts of the recorded draws. -/
def drawnGlyphs (target : Target) : Int :=
  (target.draws.map fun d => d.glyphCount).sum

/-- What holds between the sub-runs: the glyphs `done` are filled, the glyphs
regenerated are those drawn plus those waiting to be flushed, and they fit the
current quad buffer. -/
def BetweenSubRuns (done : List (Nat × Int)) (s : PrepState) : Prop :=
  filledGlyphs s.target = done ∧
  drawnGlyphs s.target + s.flushInfo.fGlyphsToFlush = s.totalGlyphsRegened ∧
  s.totalGlyphsRegened ≤ s.quadBufferEnd

/-- What holds whenever the condition of the `while` loop of geometry `geo` is
tested: besides the glyphs `done` of the earlier sub-runs, the glyphs of this
sub-run regenerated so far are filled, each once and in order. -/
def CoverInvariant (done : List (Nat × Int)) (geo : Nat) (subRunBegin : Int) (s : PrepState) :
    Prop :=
  subRunBegin ≤ s.totalGlyphsRegened ∧
  BetweenSubRuns (done ++ subRunGlyphs geo (s.totalGlyphsRegened - subRunBegin)) s

end GrAtlasTextOp


/-! # Theorems -/

namespace skgpu.graphite.TessellateWedgesRenderStep

/-! ## The wedge tessellator -/

theorem verbStep_fanPoint (s : ContourState) (it : PathItem) :
    (verbStep s it).writer.fanPoint = s.writer.fanPoint := by
  unfold verbStep
  cases it.verb <;> rfl

theorem verbStep_paintDepth (s : ContourState) (it : PathItem) :
    (verbStep s it).writer.paintDepth = s.writer.paintDepth := by
  unfold verbStep
  cases it.verb <;> rfl

theorem verbStep_ssboIndex (s : ContourState) (it : PathItem) :
    (verbStep s it).writer.ssboIndex = s.writer.ssboIndex := by
  unfold verbStep
  cases it.verb <;> rfl

theorem verbStep_patches (s : ContourState) (it : PathItem) :
    (verbStep s it).writer.patches =
      s.writer.patches ++
        segmentPatches s.writer.fanPoint s.writer.paintDepth s.writer.ssboIndex [it] := by
  unfold verbStep segmentPatches segmentGeom
  cases h : it.verb <;>
    simp [h, Writer.writeLine, Writer.writeQuadratic, Writer.writeConic, Writer.writeCubic,
      Writer.writePatch]

theorem segmentPatches_cons (f : SkPoint) (d : SkScalar) (i : Int) (it : PathItem)
    (items : List PathItem) :
    segmentPatches f d i (it :: items) = segmentPatches f d i [it] ++ segmentPatches f d i items := by
  unfold segmentPatches
  cases h : segmentGeom it <;> simp [List.filterMap_cons, h]

theorem verbLoop_attrs (items : List PathItem) (s : ContourState) :
    (verbLoop s items).writer.fanPoint = s.writer.fanPoint ∧
    (verbLoop s items).writer.paintDepth = s.writer.paintDepth ∧
    (verbLoop s items).writer.ssboIndex = s.writer.ssboIndex := by
  induction items generalizing s with
  | nil => exact ⟨rfl, rfl, rfl⟩
  | cons it rest ih =>
    have h := ih (verbStep s it)
    simp only [verbLoop, List.foldl_cons] at h ⊢
    rw [verbStep_fanPoint, verbStep_paintDepth, verbStep_ssboIndex] at h
    exact h

theorem verbLoop_patches (items : List PathItem) (s : ContourState) :
    (verbLoop s items).writer.patches =
      s.writer.patches ++
        segmentPatches s.writer.fanPoint s.writer.paintDepth s.writer.ssboIndex items := by
  induction items generalizing s with
  | nil => simp [verbLoop, segmentPatches]
  | cons it rest ih =>
    have h := ih (verbStep s it)
    simp only [verbLoop, List.foldl_cons] at h ⊢
    rw [segmentPatches_cons s.writer.fanPoint s.writer.paintDepth s.writer.ssboIndex it rest, h,
      verbStep_patches, verbStep_fanPoint, verbStep_paintDepth, verbStep_ssboIndex,
      List.append_assoc]

/-- Patches one contour adds: those of its segment verbs, then the closing
line decided on the loop's `lastPoint` and `startPoint`. -/
theorem contourStep_patches (wr : Writer) (c : Contour) :
    (contourStep wr c).patches =
      wr.patches ++ segmentPatches c.currentMidpoint wr.paintDepth wr.ssboIndex c.currentContour ++
        closingPatches c.currentMidpoint wr.paintDepth wr.ssboIndex
          (verbLoop ⟨wr.updateFanPointAttrib c.currentMidpoint, ⟨0, 0⟩, ⟨0, 0⟩⟩
            c.currentContour).lastPoint
          (verbLoop ⟨wr.updateFanPointAttrib c.currentMidpoint, ⟨0, 0⟩, ⟨0, 0⟩⟩
            c.currentContour).startPoint := by
  have hp := verbLoop_patches c.currentContour
    ⟨wr.updateFanPointAttrib c.currentMidpoint, ⟨0, 0⟩, ⟨0, 0⟩⟩
  obtain ⟨hf, hd, hi⟩ := verbLoop_attrs c.currentContour
    ⟨wr.updateFanPointAttrib c.currentMidpoint, ⟨0, 0⟩, ⟨0, 0⟩⟩
  simp only [Writer.updateFanPointAttrib] at hp hf hd hi
  unfold contourStep closingPatches
  simp only [Writer.updateFanPointAttrib, ne_eq, ite_not]
  split
  · rw [hp]; simp
  · simp only [Writer.writeLine, Writer.writePatch]
    rw [hp, hf, hd, hi]

theorem contourStep_attrs (wr : Writer) (c : Contour) :
    (contourStep wr c).paintDepth = wr.paintDepth ∧ (contourStep wr c).ssboIndex = wr.ssboIndex := by
  obtain ⟨_, hd, hi⟩ := verbLoop_attrs c.currentContour
    ⟨wr.updateFanPointAttrib c.currentMidpoint, ⟨0, 0⟩, ⟨0, 0⟩⟩
  simp only [Writer.updateFanPointAttrib] at hd hi
  unfold contourStep
  simp only [Writer.updateFanPointAttrib, ne_eq, ite_not]
  split
  · exact ⟨hd, hi⟩
  · exact ⟨hd, hi⟩

theorem verbStep_segment_points (s : ContourState) (it : PathItem)
    (h : isSegment it.verb = true) :
    (verbStep s it).lastPoint = endPoint it ∧ (verbStep s it).startPoint = s.startPoint := by
  unfold verbStep endPoint
  cases hv : it.verb <;> simp_all [isSegment]

theorem verbLoop_segment_points (rest : List PathItem) (s : ContourState) (it : PathItem)
    (hlast : s.lastPoint = endPoint it) (hrest : ∀ x ∈ rest, isSegment x.verb = true) :
    (verbLoop s rest).lastPoint = endPoint ((it :: rest).getLast (List.cons_ne_nil it rest)) ∧
    (verbLoop s rest).startPoint = s.startPoint := by
  induction rest generalizing s it with
  | nil => exact ⟨hlast, rfl⟩
  | cons x xs ih =>
    have hx := verbStep_segment_points s x (hrest x (List.mem_cons_self x xs))
    have h := ih (verbStep s x) x hx.1 (fun y hy => hrest y (List.mem_cons_of_mem x hy))
    simp only [verbLoop, List.foldl_cons] at h ⊢
    rw [List.getLast_cons_cons]
    exact ⟨h.1, h.2.trans hx.2⟩

theorem segmentPatches_length (f : SkPoint) (d : SkScalar) (i : Int) (rest : List PathItem)
    (hrest : ∀ x ∈ rest, isSegment x.verb = true) :
    (segmentPatches f d i rest).length = rest.length := by
  induction rest with
  | nil => rfl
  | cons x xs ih =>
    have hx := hrest x (List.mem_cons_self x xs)
    rw [segmentPatches_cons, List.length_append, ih (fun y hy => hrest y (List.mem_cons_of_mem x hy))]
    have h1 : (segmentPatches f d i [x]).length = 1 := by
      unfold segmentPatches segmentGeom
      cases hv : x.verb <;> simp_all [isSegment]
    rw [h1, List.length_cons, Nat.add_comm]

/-- Start and last point of a contour that is a move followed by segment verbs:
the loop leaves `startPoint` at the move's point and `lastPoint` at the end
point of the contour's last verb. -/
theorem contour_points (wr : Writer) (mv : PathItem) (rest : List PathItem)
    (hmv : mv.verb = .kMove) (hrest : ∀ x ∈ rest, isSegment x.verb = true) :
    (verbLoop ⟨wr, ⟨0, 0⟩, ⟨0, 0⟩⟩ (mv :: rest)).lastPoint =
        endPoint ((mv :: rest).getLast (List.cons_ne_nil mv rest)) ∧
    (verbLoop ⟨wr, ⟨0, 0⟩, ⟨0, 0⟩⟩ (mv :: rest)).startPoint = mv.pts 0 := by
  have hstep : verbStep ⟨wr, ⟨0, 0⟩, ⟨0, 0⟩⟩ mv = ⟨wr, mv.pts 0, mv.pts 0⟩ := by
    simp [verbStep, hmv]
  have hend : endPoint mv = mv.pts 0 := by simp [endPoint, hmv]
  have h := verbLoop_segment_points rest ⟨wr, mv.pts 0, mv.pts 0⟩ mv hend.symm hrest
  simp only [verbLoop, List.foldl_cons, hstep] at h ⊢
  exact h

theorem segmentPatches_move_cons (f : SkPoint) (d : SkScalar) (i : Int) (mv : PathItem)
    (rest : List PathItem) (hmv : mv.verb = .kMove) :
    segmentPatches f d i (mv :: rest) = segmentPatches f d i rest := by
  rw [segmentPatches_cons]
  simp [segmentPatches, segmentGeom, hmv]

/-- Patches of a contour that is a move followed by segment verbs, with the
closing line decided on the end point of the last verb and the move's point. -/
theorem contourStep_move_segments (wr : Writer) (mid : SkPoint) (mv : PathItem)
    (rest : List PathItem) (hmv : mv.verb = .kMove)
    (hrest : ∀ x ∈ rest, isSegment x.verb = true) :
    (contourStep wr ⟨mid, mv :: rest⟩).patches =
      wr.patches ++ segmentPatches mid wr.paintDepth wr.ssboIndex rest ++
        closingPatches mid wr.paintDepth wr.ssboIndex
          (endPoint ((mv :: rest).getLast (List.cons_ne_nil mv rest))) (mv.pts 0) := by
  have hpts := contour_points (wr.updateFanPointAttrib mid) mv rest hmv hrest
  have hp := contourStep_patches wr ⟨mid, mv :: rest⟩
  simp only at hp
  rw [hpts.1, hpts.2, segmentPatches_move_cons _ _ _ mv rest hmv] at hp
  exact hp

/-! ### The whole call -/

theorem foldl_contourStep_attrs (contours : List Contour) (wr : Writer) :
    (contours.foldl contourStep wr).paintDepth = wr.paintDepth ∧
    (contours.foldl contourStep wr).ssboIndex = wr.ssboIndex := by
  induction contours generalizing wr with
  | nil => exact ⟨rfl, rfl⟩
  | cons c cs ih =>
    obtain ⟨h1, h2⟩ := ih (contourStep wr c)
    obtain ⟨h3, h4⟩ := contourStep_attrs wr c
    simp only [List.foldl_cons]
    exact ⟨h1.trans h3, h2.trans h4⟩

theorem writeVertices_append_contour (pre : List Contour) (c : Contour) (depth : SkScalar)
    (ssboIndex : Int) :
    writeVertices (pre ++ [c]) depth ssboIndex =
        contourStep (writeVertices pre depth ssboIndex) c ∧
    (writeVertices pre depth ssboIndex).paintDepth = depth ∧
    (writeVertices pre depth ssboIndex).ssboIndex = ssboIndex := by
  unfold writeVertices
  refine ⟨by simp [List.foldl_append], ?_, ?_⟩
  · exact (foldl_contourStep_attrs pre _).1
  · exact (foldl_contourStep_attrs pre _).2

/-- C1: in a call of `writeVertices`, for a contour that is a move followed by
line/quad/conic/cubic verbs (whatever contours `pre` came before it), the
iteration for that contour writes one patch per verb after the move (the
contour's own segments) and then, when the contour's last point differs from
its start point, exactly one more patch, the line from the last point to the
start point; when the two points are equal it writes nothing more. -/
theorem writeVertices_closes_open_contour (pre : List Contour) (depth : SkScalar)
    (ssboIndex : Int) (mid : SkPoint) (mv : PathItem) (rest : List PathItem)
    (hmv : mv.verb = .kMove) (hrest : ∀ x ∈ rest, isSegment x.verb = true) :
    (segmentPatches mid depth ssboIndex rest).length = rest.length ∧
    (endPoint ((mv :: rest).getLast (List.cons_ne_nil mv rest)) = mv.pts 0 →
      (writeVertices (pre ++ [⟨mid, mv :: rest⟩]) depth ssboIndex).patches =
        (writeVertices pre depth ssboIndex).patches ++
          segmentPatches mid depth ssboIndex rest) ∧
    (endPoint ((mv :: rest).getLast (List.cons_ne_nil mv rest)) ≠ mv.pts 0 →
      (writeVertices (pre ++ [⟨mid, mv :: rest⟩]) depth ssboIndex).patches =
        (writeVertices pre depth ssboIndex).patches ++
          segmentPatches mid depth ssboIndex rest ++
          [⟨.line (endPoint ((mv :: rest).getLast (List.cons_ne_nil mv rest))) (mv.pts 0),
            mid, depth, ssboIndex⟩]) := by
  obtain ⟨happ, hd, hi⟩ := writeVertices_append_contour pre ⟨mid, mv :: rest⟩ depth ssboIndex
  have hp := contourStep_move_segments (writeVertices pre depth ssboIndex) mid mv rest hmv hrest
  rw [hd, hi] at hp
  refine ⟨segmentPatches_length _ _ _ rest hrest, ?_, ?_⟩
  · intro heq
    rw [happ, hp, closingPatches, if_pos heq, List.append_nil]
  · intro hne
    rw [happ, hp, closingPatches, if_neg hne]

/-- Witness of C1 on the open triangle: two line patches, then the closing line
from `(0,3)` back to `(0,0)`. -/
theorem writeVertices_closes_open_contour_witness :
    (moveTo ⟨0, 0⟩).verb = .kMove ∧
    (∀ x ∈ [lineTo ⟨0, 0⟩ ⟨4, 0⟩, lineTo ⟨4, 0⟩ ⟨0, 3⟩], isSegment x.verb = true) ∧
    (writeVertices ([] ++ [triangleContour]) 7 3).patches =
      [⟨.line ⟨0, 0⟩ ⟨4, 0⟩, ⟨1, 1⟩, 7, 3⟩, ⟨.line ⟨4, 0⟩ ⟨0, 3⟩, ⟨1, 1⟩, 7, 3⟩,
       ⟨.line ⟨0, 3⟩ ⟨0, 0⟩, ⟨1, 1⟩, 7, 3⟩] :=
  ⟨rfl, by decide,
    ((writeVertices_closes_open_contour [] 7 3 ⟨1, 1⟩ (moveTo ⟨0, 0⟩)
      [lineTo ⟨0, 0⟩ ⟨4, 0⟩, lineTo ⟨4, 0⟩ ⟨0, 3⟩] rfl (by decide)).2.2 (by decide)).trans
      (by decide)⟩

theorem segmentPatches_attrs (f : SkPoint) (d : SkScalar) (i : Int) (items : List PathItem)
    (p : Patch) (hp : p ∈ segmentPatches f d i items) :
    p.fanPoint = f ∧ p.paintDepth = d ∧ p.ssboIndex = i := by
  unfold segmentPatches at hp
  obtain ⟨it, _, hit⟩ := List.mem_filterMap.mp hp
  cases hg : segmentGeom it with
  | none => simp [hg] at hit
  | some g =>
    simp only [hg, Option.map_some'] at hit
    cases hit
    exact ⟨rfl, rfl, rfl⟩

theorem closingPatches_attrs (f : SkPoint) (d : SkScalar) (i : Int) (a b : SkPoint)
    (p : Patch) (hp : p ∈ closingPatches f d i a b) :
    p.fanPoint = f ∧ p.paintDepth = d ∧ p.ssboIndex = i := by
  unfold closingPatches at hp
  split at hp
  · cases hp
  · rw [List.mem_singleton] at hp
    subst hp
    exact ⟨rfl, rfl, rfl⟩

theorem foldl_contourStep_depth_ssbo (contours : List Contour) (wr : Writer)
    (hwr : ∀ p ∈ wr.patches, p.paintDepth = wr.paintDepth ∧ p.ssboIndex = wr.ssboIndex) :
    ∀ p ∈ (contours.foldl contourStep wr).patches,
      p.paintDepth = wr.paintDepth ∧ p.ssboIndex = wr.ssboIndex := by
  induction contours generalizing wr with
  | nil => exact hwr
  | cons c cs ih =>
    simp only [List.foldl_cons]
    obtain ⟨h3, h4⟩ := contourStep_attrs wr c
    have := ih (contourStep wr c) (by
      intro p hp
      rw [contourStep_patches, List.mem_append, List.mem_append] at hp
      rw [h3, h4]
      rcases hp with (hp | hp) | hp
      · exact hwr p hp
      · exact (segmentPatches_attrs _ _ _ _ p hp).2
      · exact (closingPatches_attrs _ _ _ _ _ p hp).2)
    rw [h3, h4] at this
    exact this

/-- C10: every patch written during one call `writeVertices(dw, params, ssboIndex)`
carries the paint depth `params.order().depthAsFloat()` and the ssbo index
given as argument. -/
theorem writeVertices_depth_and_ssboIndex (contours : List Contour) (depth : SkScalar)
    (ssboIndex : Int) :
    ∀ p ∈ (writeVertices contours depth ssboIndex).patches,
      p.paintDepth = depth ∧ p.ssboIndex = ssboIndex := by
  unfold writeVertices
  exact foldl_contourStep_depth_ssbo contours
    ((Writer.init.updatePaintDepthAttrib depth).updateSsboIndexAttrib ssboIndex)
    (by intro p hp; cases hp)

/-- Witness of C10: the closing line of the triangle, written by a call with depth
7 and ssbo index 3. -/
theorem writeVertices_depth_and_ssboIndex_witness :
    (⟨.line ⟨0, 3⟩ ⟨0, 0⟩, ⟨1, 1⟩, 7, 3⟩ : Patch) ∈ (writeVertices [triangleContour] 7 3).patches ∧
    (⟨.line ⟨0, 3⟩ ⟨0, 0⟩, ⟨1, 1⟩, 7, 3⟩ : Patch).paintDepth = 7 ∧
    (⟨.line ⟨0, 3⟩ ⟨0, 0⟩, ⟨1, 1⟩, 7, 3⟩ : Patch).ssboIndex = 3 :=
  ⟨by decide,
    writeVertices_depth_and_ssboIndex [triangleContour] 7 3 ⟨.line ⟨0, 3⟩ ⟨0, 0⟩, ⟨1, 1⟩, 7, 3⟩
      (by decide)⟩

theorem contourStep_single_move (wr : Writer) (mid : SkPoint) (mv : PathItem)
    (hmv : mv.verb = .kMove) : (contourStep wr ⟨mid, [mv]⟩).patches = wr.patches := by
  have h := contourStep_move_segments wr mid mv [] hmv (by intro x hx; cases hx)
  rw [h]
  simp [segmentPatches, closingPatches, endPoint, hmv]

theorem foldl_contourStep_single_moves (contours : List Contour) (wr : Writer)
    (h : ∀ c ∈ contours, ∃ mv : PathItem, c.currentContour = [mv] ∧ mv.verb = .kMove) :
    (contours.foldl contourStep wr).patches = wr.patches := by
  induction contours generalizing wr with
  | nil => rfl
  | cons c cs ih =>
    obtain ⟨mv, hc, hmv⟩ := h c (List.mem_cons_self c cs)
    simp only [List.foldl_cons]
    rw [ih _ (fun c1 hc1 => h c1 (List.mem_cons_of_mem c hc1))]
    have hc1 : c = ⟨c.currentMidpoint, [mv]⟩ := by
      cases c
      simp_all
    rw [hc1]
    exact contourStep_single_move wr _ mv hmv

/-- C4: `writeVertices` writes no patch for a path without contours, and no patch
when every contour handed over consists of a single move verb; the embedding
is a total function, so the call completes in both cases. -/
theorem writeVertices_empty_contours (contours : List Contour) (depth : SkScalar)
    (ssboIndex : Int) :
    (writeVertices [] depth ssboIndex).patches = [] ∧
    ((∀ c ∈ contours, ∃ mv : PathItem, c.currentContour = [mv] ∧ mv.verb = .kMove) →
      (writeVertices contours depth ssboIndex).patches = []) := by
  refine ⟨rfl, ?_⟩
  intro h
  unfold writeVertices
  exact foldl_contourStep_single_moves contours _ h

/-- Witness of C4: two contours, each a single move. -/
theorem writeVertices_empty_contours_witness :
    (∀ c ∈ [(⟨⟨0, 0⟩, [moveTo ⟨0, 0⟩]⟩ : Contour), ⟨⟨5, 7⟩, [moveTo ⟨5, 7⟩]⟩],
      ∃ mv : PathItem, c.currentContour = [mv] ∧ mv.verb = .kMove) ∧
    (writeVertices [⟨⟨0, 0⟩, [moveTo ⟨0, 0⟩]⟩, ⟨⟨5, 7⟩, [moveTo ⟨5, 7⟩]⟩] 3 1).patches = [] :=
  have h : ∀ c ∈ [(⟨⟨0, 0⟩, [moveTo ⟨0, 0⟩]⟩ : Contour), ⟨⟨5, 7⟩, [moveTo ⟨5, 7⟩]⟩],
      ∃ mv : PathItem, c.currentContour = [mv] ∧ mv.verb = .kMove := by
    intro c hc
    simp only [List.mem_cons, List.mem_singleton, List.not_mem_nil, or_false] at hc
    rcases hc with hc | hc
    · exact ⟨moveTo ⟨0, 0⟩, by rw [hc], rfl⟩
    · exact ⟨moveTo ⟨5, 7⟩, by rw [hc], rfl⟩
  ⟨h, (writeVertices_empty_contours _ 3 1).2 h⟩

end skgpu.graphite.TessellateWedgesRenderStep

namespace skgpu.graphite

/-! ## DrawPass -/

/-- C3, counterexample: the pass of three filled-triangle draws holds nine
instances of 48 bytes, 432 bytes of instance data, and `vertexBufferSize()`
is not that value. -/
theorem vertexBufferSize_not_instance_bytes :
    (TessellateWedgesRenderStep.threeTrianglesPass.fCommandList.map
      DrawInstanced.instanceCount).sum = 9 ∧
    TessellateWedgesRenderStep.instanceStride = 48 ∧
    TessellateWedgesRenderStep.threeTrianglesPass.instanceBytes = 9 * 48 ∧
    TessellateWedgesRenderStep.threeTrianglesPass.vertexBufferSize ≠ 9 * 48 := by
  decide

/-- C3, amended: `vertexBufferSize()` is 0 for every DrawPass, whatever its draws
wrote. -/
theorem vertexBufferSize_eq_zero (pass : DrawPass) : pass.vertexBufferSize = 0 := rfl

/-! ## Uniforms and textures of the render steps -/

theorem foldl_add_textures (sampling : SkSamplingOptions) (tileModes : SkTileMode × SkTileMode)
    (proxies : List TextureProxy) (g : SkPipelineDataGatherer) :
    (proxies.foldl (fun g proxy => g.add sampling tileModes proxy) g).textures =
        g.textures ++ proxies.map (fun p => ⟨sampling, tileModes.1, tileModes.2, p⟩) ∧
    (proxies.foldl (fun g proxy => g.add sampling tileModes proxy) g).uniforms = g.uniforms := by
  induction proxies generalizing g with
  | nil => simp
  | cons p ps ih =>
    obtain ⟨h1, h2⟩ := ih (g.add sampling tileModes p)
    simp only [List.foldl_cons, List.map_cons]
    rw [h1, h2]
    simp [SkPipelineDataGatherer.add]

/-- The gatherer after the text step's `writeUniformsAndTextures` when the atlas
reports the pages `p0 :: rest`. -/
theorem TextDirectRenderStep.writeUniformsAndTextures_eq (atlas : AtlasManager)
    (maskFormat : MaskFormat) (g : SkPipelineDataGatherer) (p0 : TextureProxy)
    (rest : List TextureProxy) (h : atlas maskFormat = p0 :: rest) :
    ∃ g1, TextDirectRenderStep.writeUniformsAndTextures atlas maskFormat g = some g1 ∧
      g1.textures =
        g.textures ++ (p0 :: rest).map (fun p => ⟨⟨.kNearest⟩, .kClamp, .kClamp, p⟩) ∧
      g1.uniforms = g.uniforms ++ [.float2 ⟨p0.width⟩ ⟨p0.height⟩] := by
  unfold TextDirectRenderStep.writeUniformsAndTextures
  rw [h]
  refine ⟨_, rfl, ?_, ?_⟩
  · rw [(foldl_add_textures _ _ _ _).1]
    rfl
  · rw [(foldl_add_textures _ _ _ _).2]
    rfl

/-- C6: `TextDirectRenderStep::writeUniformsAndTextures` adds to the gatherer
exactly the proxies `proxies[0..n)` the atlas manager reports when it is
called, in index order, each with nearest sampling and clamp/clamp tiling. -/
theorem TextDirectRenderStep.writeUniformsAndTextures_registers_reported_proxies
    (atlas : AtlasManager) (maskFormat : MaskFormat) (g : SkPipelineDataGatherer)
    (h : atlas maskFormat ≠ []) :
    ∃ g1, TextDirectRenderStep.writeUniformsAndTextures atlas maskFormat g = some g1 ∧
      g1.textures =
        g.textures ++ (atlas maskFormat).map (fun p => ⟨⟨.kNearest⟩, .kClamp, .kClamp, p⟩) := by
  cases hl : atlas maskFormat with
  | nil => exact absurd hl h
  | cons p0 rest =>
    obtain ⟨g1, h1, h2, _⟩ :=
      TextDirectRenderStep.writeUniformsAndTextures_eq atlas maskFormat g p0 rest hl
    exact ⟨g1, h1, h2⟩

/-- Witness of C6: the atlas has grown from two pages to three before the call,
and all three pages are registered. -/
theorem TextDirectRenderStep.writeUniformsAndTextures_registers_reported_proxies_witness :
    TextDirectRenderStep.atlasThreePages .kA8 ≠ [] ∧
    ∃ g1, TextDirectRenderStep.writeUniformsAndTextures TextDirectRenderStep.atlasThreePages .kA8
        SkPipelineDataGatherer.empty = some g1 ∧
      g1.textures =
        [⟨⟨.kNearest⟩, .kClamp, .kClamp, ⟨0, 2048, 2048⟩⟩,
         ⟨⟨.kNearest⟩, .kClamp, .kClamp, ⟨1, 2048, 2048⟩⟩,
         ⟨⟨.kNearest⟩, .kClamp, .kClamp, ⟨2, 2048, 2048⟩⟩] :=
  ⟨by decide,
    TextDirectRenderStep.writeUniformsAndTextures_registers_reported_proxies
      TextDirectRenderStep.atlasThreePages .kA8 SkPipelineDataGatherer.empty (by decide)⟩

/-- C8: both steps write one uniform value per declared uniform, in declaration
order and of the declared type, and no other uniform: the wedge step one
4x4 matrix for `localToDevice`, the direct text step (when the atlas reports at
least one page) one float2 for `atlasSizeInv`. -/
theorem writeUniformsAndTextures_matches_declared_uniforms (matrix : SkM44)
    (atlas : AtlasManager) (maskFormat : MaskFormat) (g : SkPipelineDataGatherer)
    (h : atlas maskFormat ≠ []) :
    ((TessellateWedgesRenderStep.writeUniformsAndTextures matrix g).uniforms =
        g.uniforms ++ [.m44 matrix] ∧
      [UniformValue.m44 matrix].map UniformValue.type =
        TessellateWedgesRenderStep.uniforms.map Uniform.type ∧
      TessellateWedgesRenderStep.uniforms = [⟨"localToDevice", .kFloat4x4⟩]) ∧
    (∃ g1 v, TextDirectRenderStep.writeUniformsAndTextures atlas maskFormat g = some g1 ∧
      g1.uniforms = g.uniforms ++ [v] ∧
      [v].map UniformValue.type = TextDirectRenderStep.uniforms.map Uniform.type ∧
      TextDirectRenderStep.uniforms = [⟨"atlasSizeInv", .kFloat2⟩]) := by
  refine ⟨⟨rfl, rfl, rfl⟩, ?_⟩
  cases hl : atlas maskFormat with
  | nil => exact absurd hl h
  | cons p0 rest =>
    obtain ⟨g1, h1, _, h3⟩ :=
      TextDirectRenderStep.writeUniformsAndTextures_eq atlas maskFormat g p0 rest hl
    exact ⟨g1, _, h1, h3, rfl, rfl⟩

/-- Witness of C8 on the two-page atlas and the zero matrix. -/
theorem writeUniformsAndTextures_matches_declared_uniforms_witness :
    TextDirectRenderStep.atlasTwoPages .kA8 ≠ [] ∧
    ((TessellateWedgesRenderStep.writeUniformsAndTextures (fun _ => 0)
        SkPipelineDataGatherer.empty).uniforms.map UniformValue.type = [.kFloat4x4]) ∧
    (∃ g1 v, TextDirectRenderStep.writeUniformsAndTextures TextDirectRenderStep.atlasTwoPages .kA8
        SkPipelineDataGatherer.empty = some g1 ∧ g1.uniforms = [v] ∧
      [v].map UniformValue.type = [.kFloat2]) :=
  have h := writeUniformsAndTextures_matches_declared_uniforms (fun _ => 0)
    TextDirectRenderStep.atlasTwoPages .kA8 SkPipelineDataGatherer.empty (by decide)
  ⟨by decide, by rw [h.1.1]; rfl,
    h.2.elim fun g1 hg1 => hg1.elim fun v hv => ⟨g1, v, hv.1, hv.2.1, hv.2.2.1⟩⟩

/-! ## Texture coordinate unpacking of the direct text step -/

theorem shiftRight_or_low (p u : Nat) (hu : u < 2 ^ 13) : ((p <<< 13) ||| u) >>> 13 = p := by
  apply Nat.eq_of_testBit_eq
  intro i
  simp only [Nat.testBit_or, Nat.testBit_shiftLeft, Nat.testBit_shiftRight]
  have hbit : u.testBit (13 + i) = false :=
    Nat.testBit_lt_two_pow
      (lt_of_lt_of_le hu (Nat.pow_le_pow_right (by norm_num) (Nat.le_add_right 13 i)))
  simp [hbit]

theorem and_mask_or_low (p u : Nat) (hu : u < 2 ^ 13) : ((p <<< 13) ||| u) &&& 0x1FFF = u := by
  have h : (0x1FFF : Nat) = 2 ^ 13 - 1 := by norm_num
  rw [h]
  apply Nat.eq_of_testBit_eq
  intro i
  simp only [Nat.testBit_or, Nat.testBit_shiftLeft, Nat.testBit_and, Nat.testBit_two_pow_sub_one]
  by_cases hi : i < 13
  · simp [hi, Nat.not_le.mpr hi]
  · have h13 : 13 ≤ i := Nat.le_of_not_lt hi
    have hbit : u.testBit i = false :=
      Nat.testBit_lt_two_pow (lt_of_lt_of_le hu (Nat.pow_le_pow_right (by norm_num) h13))
    simp [hi, hbit]

theorem repack_high_low (x : Nat) : ((x >>> 13) <<< 13) ||| (x &&& 0x1FFF) = x := by
  have h : (0x1FFF : Nat) = 2 ^ 13 - 1 := by norm_num
  rw [h]
  apply Nat.eq_of_testBit_eq
  intro i
  simp only [Nat.testBit_or, Nat.testBit_shiftLeft, Nat.testBit_shiftRight, Nat.testBit_and,
    Nat.testBit_two_pow_sub_one]
  by_cases hi : i < 13
  · simp [hi, Nat.not_le.mpr hi]
  · have h13 : 13 ≤ i := Nat.le_of_not_lt hi
    simp [hi, h13, Nat.add_sub_cancel' h13]

/-- C9: for an unsigned 16-bit `texCoords.x` the vertex stage's page index
`x >> 13` is at most 7, the unnormalized coordinate `x & 0x1FFF` is at most
8191, and the two recombine to `x`; unpacking `(p << 13) | u` with `p <= 7`
and `u <= 8191` gives back `(p, u)`; `texCoords.y` is passed through. -/
theorem TextDirectRenderStep.vertexSkSL_unpacks_texCoords (x y : Nat) (hx : x < 65536) :
    (TextDirectRenderStep.vertexSkSL x y).texIdx ≤ 7 ∧
    (TextDirectRenderStep.vertexSkSL x y).unormTexCoordsX ≤ 8191 ∧
    ((TextDirectRenderStep.vertexSkSL x y).texIdx <<< 13) |||
      (TextDirectRenderStep.vertexSkSL x y).unormTexCoordsX = x ∧
    (TextDirectRenderStep.vertexSkSL x y).unormTexCoordsY = y ∧
    (∀ p u : Nat, p ≤ 7 → u ≤ 8191 →
      TextDirectRenderStep.vertexSkSL ((p <<< 13) ||| u) y = ⟨p, u, y⟩) := by
  have hmask : (0x1FFF : Nat) = 2 ^ 13 - 1 := by norm_num
  refine ⟨?_, ?_, repack_high_low x, rfl, ?_⟩
  · show x >>> 13 ≤ 7
    rw [Nat.shiftRight_eq_div_pow]
    omega
  · show x &&& 0x1FFF ≤ 8191
    rw [hmask, Nat.and_pow_two_sub_one_eq_mod]
    omega
  · intro p u _ hu
    have hu1 : u < 2 ^ 13 := by omega
    show (⟨((p <<< 13) ||| u) >>> 13, ((p <<< 13) ||| u) &&& 0x1FFF, y⟩ :
      TextDirectRenderStep.VertexUnpack) = ⟨p, u, y⟩
    rw [shiftRight_or_low p u hu1, and_mask_or_low p u hu1]

/-- Witness of C9 at `x = 0xFFFF` (page 7, coordinate 8191) and `y = 5`. -/
theorem TextDirectRenderStep.vertexSkSL_unpacks_texCoords_witness :
    (65535 : Nat) < 65536 ∧
    (TextDirectRenderStep.vertexSkSL 65535 5).texIdx ≤ 7 ∧
    (TextDirectRenderStep.vertexSkSL 65535 5).unormTexCoordsX ≤ 8191 :=
  have h := TextDirectRenderStep.vertexSkSL_unpacks_texCoords 65535 5 (by decide)
  ⟨by decide, h.1, h.2.1⟩

end skgpu.graphite

namespace GrAtlasTextOp

/-! ## Adoption of new atlas pages when a draw is created -/

theorem storeViewsFrom_below (vs : List Proxy) (i : Nat) (l : List (Option Proxy)) (j : Nat)
    (hj : j < i) : (storeViewsFrom i vs l)[j]? = l[j]? := by
  induction vs generalizing i l with
  | nil => rfl
  | cons p ps ih =>
    simp only [storeViewsFrom]
    rw [ih (i + 1) _ (Nat.lt_succ_of_lt hj), List.getElem?_set_ne (Nat.ne_of_gt hj)]

theorem storeViewsFrom_at (vs : List Proxy) (i : Nat) (l : List (Option Proxy)) (j : Nat)
    (hj : j < vs.length) (hcap : i + j < l.length) :
    (storeViewsFrom i vs l)[i + j]? = some vs[j]? := by
  induction vs generalizing i l j with
  | nil => cases hj
  | cons p ps ih =>
    simp only [storeViewsFrom]
    cases j with
    | zero =>
      have hi : i < l.length := by omega
      simp only [Nat.add_zero]
      rw [storeViewsFrom_below ps (i + 1) _ i (Nat.lt_succ_self i), List.getElem?_set_self hi]
      simp
    | succ j1 =>
      have h := ih (i + 1) (l.set i (some p)) j1 (Nat.lt_of_succ_lt_succ hj)
        (by rw [List.length_set]; omega)
      rw [show i + (j1 + 1) = i + 1 + j1 by omega, h]
      simp

theorem adoptViewsFrom_eq (vs : List Proxy) (i : Nat) (t : Target) (fi : FlushInfo) :
    adoptViewsFrom i vs (t, fi) =
      ({ t with
          sampledProxyArray := t.sampledProxyArray ++ vs,
          refs := t.refs ++ vs.flatMap fun p => List.replicate fi.fNumDraws.toNat p },
       { fi with fPrimProcProxies := storeViewsFrom i vs fi.fPrimProcProxies }) := by
  induction vs generalizing i t fi with
  | nil => simp [adoptViewsFrom, storeViewsFrom]
  | cons p ps ih =>
    simp only [adoptViewsFrom, adoptView, storeViewsFrom]
    rw [ih]
    simp [List.flatMap_cons, List.append_assoc]

/-- The state after `createDrawForGeneratedGlyphs` when there are glyphs to flush
and the atlas reports more views than the processor has samplers. -/
theorem createDraw_grown_eq (views : List Proxy) (t : Target) (fi : FlushInfo)
    (hglyphs : fi.fGlyphsToFlush ≠ 0)
    (hk : fi.fGeometryProcessor.numTextureSamplers < views.length) :
    createDrawForGeneratedGlyphs (some views) t fi =
      ({ t with
          sampledProxyArray :=
            t.sampledProxyArray ++ views.drop fi.fGeometryProcessor.numTextureSamplers,
          refs := t.refs ++ (views.drop fi.fGeometryProcessor.numTextureSamplers).flatMap
            fun p => List.replicate fi.fNumDraws.toNat p,
          draws := t.draws ++
            [⟨fi.fGlyphsToFlush, ((fi.fIndexBuffer / 2 / 6 : Nat) : Int), fi.fVertexBuffer,
              fi.fVertexOffset⟩] },
       { fi with
          fPrimProcProxies := storeViewsFrom fi.fGeometryProcessor.numTextureSamplers
            (views.drop fi.fGeometryProcessor.numTextureSamplers) fi.fPrimProcProxies,
          fGeometryProcessor := ⟨views.length⟩,
          fVertexOffset := fi.fVertexOffset + kVerticesPerGlyph * fi.fGlyphsToFlush,
          fGlyphsToFlush := 0,
          fNumDraws := fi.fNumDraws + 1 }) := by
  have hne : fi.fGeometryProcessor.numTextureSamplers ≠ views.length := Nat.ne_of_lt hk
  have hpos : views.length ≠ 0 := by omega
  unfold createDrawForGeneratedGlyphs
  simp only [hglyphs, hpos, hne, if_false, ne_eq, not_false_eq_true, if_true, adoptViewsFrom_eq,
    GeometryProcessor.addNewViews]

theorem count_flatMap_replicate (vs : List Proxy) (n : Nat) (p : Proxy) :
    (vs.flatMap fun q => List.replicate n q).count p = n * vs.count p := by
  induction vs with
  | nil => simp
  | cons q qs ih =>
    rw [List.flatMap_cons, List.count_append, ih, List.count_replicate, List.count_cons]
    split <;> simp [Nat.mul_add, Nat.add_comm]

/-- C7: when there are glyphs to flush and the atlas manager reports more views
than the geometry processor has texture samplers (`k < numActiveViews`, the
proxy array having room for them), `createDrawForGeneratedGlyphs` stores
`views[i].proxy()` in `fPrimProcProxies[i]` for every `i` in
`[k, numActiveViews)` and leaves the entries below `k` unchanged, appends
exactly those views, once each and in order, to the sampled-proxy array, and
takes `fNumDraws` (its value on entry) refs on each of them. -/
theorem createDraw_adopts_grown_views (views : List Proxy) (t : Target) (fi : FlushInfo)
    (hglyphs : fi.fGlyphsToFlush ≠ 0)
    (hk : fi.fGeometryProcessor.numTextureSamplers < views.length)
    (hcap : views.length ≤ fi.fPrimProcProxies.length) :
    (∀ i, fi.fGeometryProcessor.numTextureSamplers ≤ i → i < views.length →
      (createDrawForGeneratedGlyphs (some views) t fi).2.fPrimProcProxies[i]? = some views[i]?) ∧
    (∀ i, i < fi.fGeometryProcessor.numTextureSamplers →
      (createDrawForGeneratedGlyphs (some views) t fi).2.fPrimProcProxies[i]? =
        fi.fPrimProcProxies[i]?) ∧
    (createDrawForGeneratedGlyphs (some views) t fi).1.sampledProxyArray =
      t.sampledProxyArray ++ views.drop fi.fGeometryProcessor.numTextureSamplers ∧
    (createDrawForGeneratedGlyphs (some views) t fi).1.refs =
      t.refs ++ (views.drop fi.fGeometryProcessor.numTextureSamplers).flatMap
        (fun p => List.replicate fi.fNumDraws.toNat p) ∧
    (views.Nodup → ∀ p ∈ views.drop fi.fGeometryProcessor.numTextureSamplers,
      (createDrawForGeneratedGlyphs (some views) t fi).1.sampledProxyArray.count p =
        t.sampledProxyArray.count p + 1 ∧
      (createDrawForGeneratedGlyphs (some views) t fi).1.refs.count p =
        t.refs.count p + fi.fNumDraws.toNat) := by
  rw [createDraw_grown_eq views t fi hglyphs hk]
  refine ⟨?_, ?_, rfl, rfl, ?_⟩
  · intro i hki hi
    obtain ⟨j, rfl⟩ := Nat.exists_eq_add_of_le hki
    have hj : j < (views.drop fi.fGeometryProcessor.numTextureSamplers).length := by
      rw [List.length_drop]
      omega
    have h := storeViewsFrom_at (views.drop fi.fGeometryProcessor.numTextureSamplers)
      fi.fGeometryProcessor.numTextureSamplers fi.fPrimProcProxies j hj (by omega)
    rw [List.getElem?_drop] at h
    exact h
  · intro i hi
    exact storeViewsFrom_below _ _ _ i hi
  · intro hnodup p hp
    have hdrop : (views.drop fi.fGeometryProcessor.numTextureSamplers).Nodup :=
      (List.drop_sublist _ views).nodup hnodup
    have hone := List.count_eq_one_of_mem hdrop hp
    simp only [List.count_append, count_flatMap_replicate, hone, Nat.mul_one, and_self]

/-- Witness of C7: the atlas has grown from the pages `10, 11` to `10, 11, 12`
while two draws were already recorded. -/
theorem createDraw_adopts_grown_views_witness :
    flushInfoTwoPages.fGlyphsToFlush ≠ 0 ∧
    flushInfoTwoPages.fGeometryProcessor.numTextureSamplers < [10, 11, 12].length ∧
    [10, 11, 12].length ≤ flushInfoTwoPages.fPrimProcProxies.length ∧
    (createDrawForGeneratedGlyphs (some [10, 11, 12]) targetTwoPages
      flushInfoTwoPages).2.fPrimProcProxies = [some 10, some 11, some 12, none] ∧
    (createDrawForGeneratedGlyphs (some [10, 11, 12]) targetTwoPages
      flushInfoTwoPages).1.sampledProxyArray = [10, 11, 12] ∧
    (createDrawForGeneratedGlyphs (some [10, 11, 12]) targetTwoPages
      flushInfoTwoPages).1.refs = [12, 12] :=
  have h := createDraw_adopts_grown_views [10, 11, 12] targetTwoPages flushInfoTwoPages
    (by decide) (by decide) (by decide)
  ⟨by decide, by decide, by decide, by decide, h.2.2.1.trans (by decide),
    h.2.2.2.1.trans (by decide)⟩

/-! ## Failure of a regeneration step -/

/-- C2, counterexample: on the op of two sub-runs the first sub-run is regenerated
and filled (two glyphs wait in `fGlyphsToFlush`), the regeneration of the
second sub-run returns `ok = false`, and `onPrepareDraws` returns with those
two glyphs still pending and no draw recorded. -/
theorem onPrepareDraws_drops_pending_glyphs :
    (envAtlasFails.regenerate 1 0 2).1 = false ∧
    onPrepareDraws envAtlasFails opTwoSubRuns 8 =
      .returned .regenFailed { stateAfterFirstSubRun with regenCalls := 2 } ∧
    stateAfterFirstSubRun.flushInfo.fGlyphsToFlush = 2 ∧
    stateAfterFirstSubRun.target.fills = [⟨0, 0, 0, 0, 2⟩] ∧
    stateAfterFirstSubRun.target.draws = [] := by
  decide

/-- C2, amended: when a regeneration step returns `ok = false`, the loop returns
at once with the target and the flush state as they were before the step: no
draw is recorded for the glyphs accumulated since the last flush, which stay
in `fGlyphsToFlush`, and the draws recorded earlier are kept. The loop over
the geometries hands that return on, so the final
`createDrawForGeneratedGlyphs` is not reached either. -/
theorem regenerate_failure_returns_without_flush (env : Env) (op : Op) (geo : Nat)
    (subRunBegin subRunEnd : Int) (fuel : Nat) (s : PrepState)
    (hlt : s.totalGlyphsRegened < subRunEnd)
    (hfail : (env.regenerate s.regenCalls (s.totalGlyphsRegened - subRunBegin)
      (min subRunEnd s.quadBufferEnd - subRunBegin)).1 = false) :
    subRunLoop env op geo subRunBegin subRunEnd (fuel + 1) s =
      .returned .regenFailed { s with regenCalls := s.regenCalls + 1 } ∧
    (∀ rest : List Int, subRunBegin = s.totalGlyphsRegened →
      geoLoop env op (fuel + 1) geo ((subRunEnd - subRunBegin) :: rest) s =
        .returned .regenFailed { s with regenCalls := s.regenCalls + 1 }) := by
  have hstep : subRunLoop env op geo subRunBegin subRunEnd (fuel + 1) s =
      .returned .regenFailed { s with regenCalls := s.regenCalls + 1 } := by
    rw [subRunLoop]
    simp only [hlt, if_true, hfail, Bool.not_false]
  refine ⟨hstep, ?_⟩
  intro rest hbegin
  rw [geoLoop]
  simp only [← hbegin, add_sub_cancel, hstep]

/-- Witness of the amended C2: the failing step of the run above. -/
theorem regenerate_failure_returns_without_flush_witness :
    stateAfterFirstSubRun.totalGlyphsRegened < 4 ∧
    (envAtlasFails.regenerate stateAfterFirstSubRun.regenCalls
      (stateAfterFirstSubRun.totalGlyphsRegened - 2)
      (min 4 stateAfterFirstSubRun.quadBufferEnd - 2)).1 = false ∧
    subRunLoop envAtlasFails opTwoSubRuns 1 2 4 (7 + 1) stateAfterFirstSubRun =
      .returned .regenFailed
        { stateAfterFirstSubRun with regenCalls := stateAfterFirstSubRun.regenCalls + 1 } :=
  ⟨by decide, by decide,
    (regenerate_failure_returns_without_flush envAtlasFails opTwoSubRuns 1 2 4 7
      stateAfterFirstSubRun (by decide) (by decide)).1⟩

end GrAtlasTextOp

namespace skgpu.graphite.TessellateWedgesRenderStep

/-! ## Fan point and number of patches of a contour -/

theorem verbLoop_lastPoint (items : List PathItem) (s : ContourState) :
    (verbLoop s items).lastPoint =
      ((items.filter fun it => it.verb ≠ .kClose).getLast?.map endPoint).getD s.lastPoint := by
  induction items generalizing s with
  | nil => rfl
  | cons it rest ih =>
    have h := ih (verbStep s it)
    simp only [verbLoop, List.foldl_cons] at h ⊢
    rw [h]
    by_cases hc : it.verb = .kClose
    · have hs : verbStep s it = s := by simp [verbStep, hc]
      simp [List.filter_cons, hc, hs]
    · have hl : (verbStep s it).lastPoint = endPoint it := by
        unfold verbStep endPoint
        cases hv : it.verb <;> simp_all
      rw [hl]
      simp only [List.filter_cons, hc, ne_eq, not_false_eq_true, decide_True, if_true,
        List.getLast?_cons]
      cases (List.filter (fun it => decide ¬it.verb = SkPathVerb.kClose) rest).getLast? <;> rfl

theorem verbLoop_startPoint (items : List PathItem) (s : ContourState) :
    (verbLoop s items).startPoint =
      ((items.filter fun it => it.verb = .kMove).getLast?.map fun it => it.pts 0).getD
        s.startPoint := by
  induction items generalizing s with
  | nil => rfl
  | cons it rest ih =>
    have h := ih (verbStep s it)
    simp only [verbLoop, List.foldl_cons] at h ⊢
    rw [h]
    by_cases hm : it.verb = .kMove
    · have hl : (verbStep s it).startPoint = it.pts 0 := by simp [verbStep, hm]
      rw [hl]
      simp only [List.filter_cons, hm, decide_True, if_true, List.getLast?_cons]
      cases (List.filter (fun it => decide (it.verb = SkPathVerb.kMove)) rest).getLast? <;> rfl
    · have hl : (verbStep s it).startPoint = s.startPoint := by
        unfold verbStep
        cases hv : it.verb <;> simp_all
      rw [hl]
      simp [List.filter_cons, hm]

/-- Patches the iteration for contour `c` appends within a call: those of its
segment verbs, then the closing line decided on the contour's last and start
point. -/
theorem writeVertices_contour_patches (pre : List Contour) (c : Contour) (depth : SkScalar)
    (ssboIndex : Int) :
    (writeVertices (pre ++ [c]) depth ssboIndex).patches =
      (writeVertices pre depth ssboIndex).patches ++
        segmentPatches c.currentMidpoint depth ssboIndex c.currentContour ++
        closingPatches c.currentMidpoint depth ssboIndex (contourLastPoint c.currentContour)
          (contourStartPoint c.currentContour) := by
  obtain ⟨happ, hd, hi⟩ := writeVertices_append_contour pre c depth ssboIndex
  rw [happ, contourStep_patches, verbLoop_lastPoint, verbLoop_startPoint, hd, hi]
  rfl

theorem segmentPatches_geom (f : SkPoint) (d : SkScalar) (i : Int) (items : List PathItem) :
    (segmentPatches f d i items).map Patch.geom = items.filterMap segmentGeom := by
  induction items with
  | nil => rfl
  | cons it rest ih =>
    rw [segmentPatches_cons, List.map_append, ih]
    unfold segmentPatches
    cases h : segmentGeom it <;> simp [List.filterMap_cons, h]

theorem segmentPatches_count (f : SkPoint) (d : SkScalar) (i : Int) (items : List PathItem) :
    (segmentPatches f d i items).length = items.countP fun it => isSegment it.verb := by
  induction items with
  | nil => rfl
  | cons it rest ih =>
    rw [segmentPatches_cons, List.length_append, ih, List.countP_cons]
    unfold segmentPatches segmentGeom
    cases hv : it.verb <;> simp [List.filterMap_cons, hv, isSegment, Nat.add_comm]

/-- C11: every patch written for a contour in a call of `writeVertices`, the
closing line included, carries as fan point the parser's midpoint of that
contour. -/
theorem writeVertices_fanPoint_is_midpoint (pre : List Contour) (c : Contour)
    (depth : SkScalar) (ssboIndex : Int) :
    ∃ written : List Patch,
      (writeVertices (pre ++ [c]) depth ssboIndex).patches =
        (writeVertices pre depth ssboIndex).patches ++ written ∧
      written.map Patch.geom =
        c.currentContour.filterMap segmentGeom ++
          (closingPatches c.currentMidpoint depth ssboIndex
            (contourLastPoint c.currentContour) (contourStartPoint c.currentContour)).map
            Patch.geom ∧
      ∀ p ∈ written, p.fanPoint = c.currentMidpoint := by
  refine ⟨segmentPatches c.currentMidpoint depth ssboIndex c.currentContour ++
    closingPatches c.currentMidpoint depth ssboIndex (contourLastPoint c.currentContour)
      (contourStartPoint c.currentContour), ?_, ?_, ?_⟩
  · rw [writeVertices_contour_patches, List.append_assoc]
  · rw [List.map_append, segmentPatches_geom]
  · intro p hp
    rcases List.mem_append.mp hp with h | h
    · exact (segmentPatches_attrs _ _ _ _ p h).1
    · exact (closingPatches_attrs _ _ _ _ _ p h).1

/-- C12: for every contour, the patch writes `writeVertices` issues are one per
line, quad, conic and cubic verb, with that verb's own control points (and
conic weight) and in verb order, none for move and close verbs, and one more
line when the contour is left open (its last point differs from its start
point); their number is the number of segment verbs plus one if left open. -/
theorem writeVertices_patch_writes_per_contour (pre : List Contour) (c : Contour)
    (depth : SkScalar) (ssboIndex : Int) :
    ((writeVertices (pre ++ [c]) depth ssboIndex).patches.map Patch.geom =
      (writeVertices pre depth ssboIndex).patches.map Patch.geom ++
        c.currentContour.filterMap segmentGeom ++
        (if contourLastPoint c.currentContour = contourStartPoint c.currentContour then []
         else [.line (contourLastPoint c.currentContour)
           (contourStartPoint c.currentContour)])) ∧
    ((writeVertices (pre ++ [c]) depth ssboIndex).patches.length =
      (writeVertices pre depth ssboIndex).patches.length +
        (c.currentContour.countP fun it => isSegment it.verb) +
        (if contourLastPoint c.currentContour = contourStartPoint c.currentContour then 0
         else 1)) ∧
    (∀ it : PathItem, (isSegment it.verb = true → ∃ g, segmentGeom it = some g) ∧
      (isSegment it.verb = false → segmentGeom it = none)) := by
  have hp := writeVertices_contour_patches pre c depth ssboIndex
  refine ⟨?_, ?_, ?_⟩
  · rw [hp, List.map_append, List.map_append, segmentPatches_geom]
    unfold closingPatches
    split <;> rfl
  · rw [hp, List.length_append, List.length_append, segmentPatches_count]
    unfold closingPatches
    split <;> rfl
  · intro it
    unfold segmentGeom isSegment
    cases it.verb <;> simp

end skgpu.graphite.TessellateWedgesRenderStep

namespace skgpu.graphite.TessellateWedgesRenderStep

/-! ## Assertions of the wedge step -/

/-- C13, counterexample: for a draw with a projective transform the assertion of
line 105 is false, and a build with assertions stops there. -/
theorem transformAssertion_fails_for_projection :
    transformAssertion .kProjection = false ∧
    (writeVerticesDebug .kProjection [triangleContour] 7 3).isNone = true := by
  decide

/-- C13, amended: the assertion on the transform kind holds exactly for the kinds
below `kProjection` (identity to affine); for those a build with assertions
writes what `writeVertices` writes, and for a projective transform the
assertion fails. -/
theorem transformAssertion_iff_affine (type : TransformType) (contours : List Contour)
    (depth : SkScalar) (ssboIndex : Int) :
    (transformAssertion type = true ↔
      type = .kIdentity ∨ type = .kSimpleRectStaysRect ∨ type = .kRectStaysRect ∨
        type = .kAffine) ∧
    (transformAssertion type = true →
      writeVerticesDebug type contours depth ssboIndex =
        some (writeVertices contours depth ssboIndex)) ∧
    (type = .kProjection → writeVerticesDebug type contours depth ssboIndex = none) := by
  refine ⟨?_, ?_, ?_⟩
  · cases type <;> simp [transformAssertion, TransformType.toNat]
  · intro h
    simp [writeVerticesDebug, h]
  · intro h
    subst h
    rfl

/-- C15: for every depth-stencil setting (and variant name) passed to the
constructor, the stride implied by the declared instance attributes is 48
bytes and equals `PatchStride(kFanPoint | kPaintDepth | kSsboIndex)`, so the
constructor's assertion holds. -/
theorem instanceStride_eq_PatchStride (variantName : String)
    (depthStencilSettings : DepthStencilSettings) :
    (make variantName depthStencilSettings).instanceStride = 48 ∧
    (make variantName depthStencilSettings).instanceStride = PatchStride kAttribs ∧
    constructorAssertion (make variantName depthStencilSettings) = true ∧
    (make variantName depthStencilSettings).instanceAttrs =
      [⟨"p01", .kFloat4, .kFloat4⟩, ⟨"p23", .kFloat4, .kFloat4⟩,
       ⟨"fanPointAttrib", .kFloat2, .kFloat2⟩, ⟨"depth", .kFloat, .kFloat⟩,
       ⟨"ssboIndex", .kInt, .kInt⟩] := by
  have h : (make variantName depthStencilSettings).instanceStride = instanceStride := rfl
  have h48 : instanceStride = 48 := by decide
  have hp : PatchStride kAttribs = 48 := by decide
  refine ⟨h.trans h48, ?_, ?_, rfl⟩
  · rw [h, h48, hp]
  · unfold constructorAssertion
    rw [h, h48, hp]
    rfl

end skgpu.graphite.TessellateWedgesRenderStep

/-! ## Font table data -/

/-- C16, counterexample: for a table of 10 bytes, offset 20 and length 5 both
functions return 0, and `offset + r <= S` does not hold. -/
theorem onGetTableData_offset_past_end :
    SkTypeface_Mac.onGetTableData (some 10) 20 5 = 0 ∧
    DWriteFontTypeface.onGetTableData ⟨true, 10⟩ 20 5 = 0 ∧
    ¬ (20 + SkTypeface_Mac.onGetTableData (some 10) 20 5 ≤ 10) := by
  decide

/-- C16, amended: the two functions return the same byte count for the same table
size `S`, offset and length: 0 when the table does not exist or `offset >= S`,
and `min(length, S - offset)` otherwise; the count `r` satisfies `r <= length`,
and `offset + r <= S` whenever `offset <= S`. -/
theorem onGetTableData_same_count (S offset length : Nat) :
    SkTypeface_Mac.onGetTableData (some S) offset length =
      DWriteFontTypeface.onGetTableData ⟨true, S⟩ offset length ∧
    SkTypeface_Mac.onGetTableData none offset length = 0 ∧
    DWriteFontTypeface.onGetTableData ⟨false, S⟩ offset length = 0 ∧
    (S ≤ offset → SkTypeface_Mac.onGetTableData (some S) offset length = 0) ∧
    (offset < S → SkTypeface_Mac.onGetTableData (some S) offset length = min length (S - offset)) ∧
    SkTypeface_Mac.onGetTableData (some S) offset length ≤ length ∧
    (offset ≤ S → offset + SkTypeface_Mac.onGetTableData (some S) offset length ≤ S) := by
  have hmac : SkTypeface_Mac.onGetTableData (some S) offset length =
      if S ≤ offset then 0 else min length (S - offset) := by
    unfold SkTypeface_Mac.onGetTableData
    simp only [ge_iff_le, gt_iff_lt]
    split
    · rfl
    · split <;> omega
  have hdw : DWriteFontTypeface.onGetTableData ⟨true, S⟩ offset length =
      if S ≤ offset then 0 else min length (S - offset) := by
    unfold DWriteFontTypeface.onGetTableData
    simp only [Bool.not_true, Bool.false_eq_true, if_false, gt_iff_lt]
    split <;> split <;> omega
  refine ⟨by rw [hmac, hdw], rfl, rfl, ?_, ?_, ?_, ?_⟩
  · intro h
    rw [hmac, if_pos h]
  · intro h
    rw [hmac, if_neg (by omega)]
  · rw [hmac]
    split <;> omega
  · intro h
    rw [hmac]
    split <;> omega

namespace SkTypeface_Mac

/-! ## Variation axes -/

theorem reverse_find?_eq_filter_getLast? {α : Type} (p : α → Bool) (l : List α) :
    l.reverse.find? p = (l.filter p).getLast? := by
  induction l with
  | nil => rfl
  | cons a l ih =>
    rw [List.reverse_cons, List.find?_append, ih]
    by_cases hp : p a = true
    · rw [List.filter_cons_of_pos hp, List.getLast?_cons]
      cases (l.filter p).getLast? <;> simp [List.find?, hp]
    · rw [List.filter_cons_of_neg hp]
      cases (l.filter p).getLast? <;> simp [List.find?, hp]

theorem SkTPin_eq_clampTo (x lo hi : Int) (h : lo ≤ hi) : SkTPin x lo hi = clampTo lo hi x := by
  unfold SkTPin clampTo
  split
  · omega
  · split <;> omega

theorem lastCoordinate_eq (position : List Coordinate) (tagLong : Int) :
    lastCoordinate position tagLong =
      (position.filter fun c => (c.axis : Int) = tagLong).getLast? := by
  unfold lastCoordinate
  exact reverse_find?_eq_filter_getLast? _ position

theorem lastCoordinate_isSome (position : List Coordinate) (tagLong : Int) :
    (∃ c, lastCoordinate position tagLong = some c) ↔
      ∃ c ∈ position, (c.axis : Int) = tagLong := by
  rw [lastCoordinate_eq]
  constructor
  · rintro ⟨c, hc⟩
    have hmem := List.mem_of_getLast?_eq_some hc
    rw [List.mem_filter] at hmem
    exact ⟨c, hmem.1, by simpa using hmem.2⟩
  · rintro ⟨c, hc, hax⟩
    have hne : (position.filter fun c => (c.axis : Int) = tagLong) ≠ [] := by
      intro h
      have : c ∈ position.filter fun c => (c.axis : Int) = tagLong :=
        List.mem_filter.mpr ⟨hc, by simpa using hax⟩
      rw [h] at this
      cases this
    cases hl : (position.filter fun c => (c.axis : Int) = tagLong).getLast? with
    | none => exact absurd (List.getLast?_eq_none_iff.mp hl) hne
    | some c1 => exact ⟨c1, rfl⟩

/-- What one pass of the loop body does to the dictionary and to `opsz`. -/
theorem axisStep_spec (position : List Coordinate) (dict : CFDictionary) (opsz : OpszVariation)
    (axis : VariationAxis) (hrange : axis.minDouble ≤ axis.maxDouble) :
    (axisStep position (dict, opsz) axis).1 =
        CFDictionaryAddValue dict axis.tagLong (requestedValue position axis) ∧
    ((axisStep position (dict, opsz) axis).2.isSet = true ↔
      opsz.isSet = true ∨
        (axis.tagLong = opszTag ∧ ∃ c ∈ position, (c.axis : Int) = axis.tagLong)) ∧
    (axis.tagLong = opszTag →
      (axisStep position (dict, opsz) axis).2.value = requestedValue position axis) ∧
    (axis.tagLong ≠ opszTag → (axisStep position (dict, opsz) axis).2.value = opsz.value) := by
  have hfound := lastCoordinate_isSome position axis.tagLong
  have hreq : requestedValue position axis =
      (match lastCoordinate position axis.tagLong with
       | some c => SkTPin c.value axis.minDouble axis.maxDouble
       | none => axis.defDouble) := by
    unfold requestedValue
    rw [lastCoordinate_eq]
    cases (position.filter fun c => (c.axis : Int) = axis.tagLong).getLast? with
    | none => rfl
    | some c => exact (SkTPin_eq_clampTo _ _ _ hrange).symm
  rw [hreq]
  unfold axisStep
  cases hl : lastCoordinate position axis.tagLong with
  | none =>
    have hno : ¬ ∃ c ∈ position, (c.axis : Int) = axis.tagLong := by
      intro h
      obtain ⟨c, hc⟩ := hfound.mpr h
      rw [hl] at hc
      cases hc
    by_cases ht : axis.tagLong = opszTag
    · have hno1 : ¬ ∃ c ∈ position, (c.axis : Int) = opszTag := ht ▸ hno
      simp [ht, hno1]
    · simp [ht]
  | some c =>
    have hyes : ∃ c ∈ position, (c.axis : Int) = axis.tagLong := hfound.mp ⟨c, hl⟩
    by_cases ht : axis.tagLong = opszTag
    · have hyes1 : ∃ c ∈ position, (c.axis : Int) = opszTag := ht ▸ hyes
      simp [ht, hyes1]
    · simp [ht]

end SkTypeface_Mac

namespace SkTypeface_Mac

theorem CFDictionaryAddValue_fresh (dict : CFDictionary) (key value : Int)
    (h : dict key = none) :
    CFDictionaryAddValue dict key value key = some value ∧
    ∀ k, k ≠ key → CFDictionaryAddValue dict key value k = dict k := by
  unfold CFDictionaryAddValue
  constructor
  · simp [h]
  · intro k hk
    simp [hk]

theorem CFDictionaryAddValue_keeps (dict : CFDictionary) (key value k v : Int)
    (h : dict k = some v) : CFDictionaryAddValue dict key value k = some v := by
  unfold CFDictionaryAddValue
  by_cases hk : k = key
  · subst hk
    simp [h]
  · simp [hk, h]

/-- The loop over well-typed axes with distinct tags, from a dictionary that
holds none of their tags. -/
theorem axisLoop_spec (position : List Coordinate) (axes : List VariationAxis)
    (dict : CFDictionary) (opsz : OpszVariation)
    (hnodup : (axes.map VariationAxis.tagLong).Nodup)
    (hrange : ∀ a ∈ axes, a.minDouble ≤ a.maxDouble)
    (hfresh : ∀ a ∈ axes, dict a.tagLong = none) :
    ∃ dict1 opsz1,
      (axisLoop position (axes.map some) (dict, opsz)).dict = some dict1 ∧
      (axisLoop position (axes.map some) (dict, opsz)).opsz = opsz1 ∧
      (∀ a ∈ axes, dict1 a.tagLong = some (requestedValue position a)) ∧
      (∀ k v, dict k = some v → dict1 k = some v) ∧
      (opsz1.isSet = true ↔ opsz.isSet = true ∨
        ((∃ a ∈ axes, a.tagLong = opszTag) ∧ ∃ c ∈ position, (c.axis : Int) = opszTag)) ∧
      (∀ a ∈ axes, a.tagLong = opszTag → opsz1.value = requestedValue position a) ∧
      ((∀ a ∈ axes, a.tagLong ≠ opszTag) → opsz1.value = opsz.value) := by
  induction axes generalizing dict opsz with
  | nil =>
    refine ⟨dict, opsz, rfl, rfl, ?_, fun _ _ h => h, ?_, ?_, fun _ => rfl⟩
    · intro a ha
      cases ha
    · simp
    · intro a ha
      cases ha
  | cons a rest ih =>
    rw [List.map_cons, List.nodup_cons] at hnodup
    obtain ⟨hnotin, hnodup1⟩ := hnodup
    have hra := hrange a (List.mem_cons_self a rest)
    obtain ⟨hd, hset, hval, hkeep⟩ := axisStep_spec position dict opsz a hra
    have hda := hfresh a (List.mem_cons_self a rest)
    obtain ⟨hnew, hother⟩ :=
      CFDictionaryAddValue_fresh dict a.tagLong (requestedValue position a) hda
    have hne : ∀ b ∈ rest, b.tagLong ≠ a.tagLong := by
      intro b hb heq
      exact hnotin (heq ▸ List.mem_map_of_mem VariationAxis.tagLong hb)
    have hfresh1 : ∀ b ∈ rest, (axisStep position (dict, opsz) a).1 b.tagLong = none := by
      intro b hb
      rw [hd, hother _ (hne b hb)]
      exact hfresh b (List.mem_cons_of_mem a hb)
    obtain ⟨dict1, opsz1, h1, h2, h3, h4, h5, h6, h7⟩ :=
      ih (axisStep position (dict, opsz) a).1 (axisStep position (dict, opsz) a).2 hnodup1
        (fun b hb => hrange b (List.mem_cons_of_mem a hb)) hfresh1
    refine ⟨dict1, opsz1, h1, h2, ?_, ?_, ?_, ?_, ?_⟩
    · intro b hb
      rcases List.mem_cons.mp hb with hb | hb
      · subst hb
        exact h4 _ _ (by rw [hd]; exact hnew)
      · exact h3 b hb
    · intro k v hk
      exact h4 k v (by rw [hd]; exact CFDictionaryAddValue_keeps _ _ _ _ _ hk)
    · rw [h5, hset]
      constructor
      · rintro ((h | ⟨ht, hc⟩) | ⟨⟨b, hb, hbt⟩, hc⟩)
        · exact Or.inl h
        · exact Or.inr ⟨⟨a, List.mem_cons_self a rest, ht⟩, ht ▸ hc⟩
        · exact Or.inr ⟨⟨b, List.mem_cons_of_mem a hb, hbt⟩, hc⟩
      · rintro (h | ⟨⟨b, hb, hbt⟩, hc⟩)
        · exact Or.inl (Or.inl h)
        · rcases List.mem_cons.mp hb with hb | hb
          · subst hb
            exact Or.inl (Or.inr ⟨hbt, hbt ▸ hc⟩)
          · exact Or.inr ⟨⟨b, hb, hbt⟩, hc⟩
    · intro b hb hbt
      rcases List.mem_cons.mp hb with hb | hb
      · subst hb
        rw [h7 (fun c hc hct => hne c hc (hct.trans hbt.symm))]
        exact hval hbt
      · exact h6 b hb hbt
    · intro hall
      rw [h7 (fun c hc => hall c (List.mem_cons_of_mem a hc))]
      exact hkeep (hall a (List.mem_cons_self a rest))

/-- C17: for a font whose axes are well typed, have distinct tags and ranges
with `lo <= hi`, the value stored for every axis is the value of the last
coordinate (highest index) the position gives for the axis's tag, clamped to
`[lo, hi]`, or the axis's default when the position gives none; `opsz` is
marked set exactly when the font has an `opsz` axis and the position has an
`opsz` coordinate, and its value is the value stored for the `opsz` axis. -/
theorem variation_uses_last_coordinate_clamped (axes : List VariationAxis)
    (position : List Coordinate)
    (hnodup : (axes.map VariationAxis.tagLong).Nodup)
    (hrange : ∀ a ∈ axes, a.minDouble ≤ a.maxDouble) :
    ∃ dict,
      (SkCTVariationFromSkFontArguments (some (axes.map some)) position).dict = some dict ∧
      (∀ a ∈ axes, dict a.tagLong = some (requestedValue position a)) ∧
      ((SkCTVariationFromSkFontArguments (some (axes.map some)) position).opsz.isSet = true ↔
        (∃ a ∈ axes, a.tagLong = opszTag) ∧ ∃ c ∈ position, (c.axis : Int) = opszTag) ∧
      (∀ a ∈ axes, a.tagLong = opszTag →
        (SkCTVariationFromSkFontArguments (some (axes.map some)) position).opsz.value =
          requestedValue position a ∧
        dict opszTag =
          some (SkCTVariationFromSkFontArguments (some (axes.map some)) position).opsz.value) := by
  obtain ⟨dict1, opsz1, h1, h2, h3, _, h5, h6, _⟩ :=
    axisLoop_spec position axes (fun _ => none) ⟨false, 0⟩ hnodup hrange (fun _ _ => rfl)
  refine ⟨dict1, h1, h3, ?_, ?_⟩
  · show (axisLoop position (axes.map some) (fun _ => none, ⟨false, 0⟩)).opsz.isSet = true ↔ _
    rw [h2, h5]
    simp
  · intro a ha hat
    show (axisLoop position (axes.map some) (fun _ => none, ⟨false, 0⟩)).opsz.value = _ ∧
      dict1 opszTag = some (axisLoop position (axes.map some) (fun _ => none, ⟨false, 0⟩)).opsz.value
    rw [h2, h6 a ha hat]
    exact ⟨rfl, hat ▸ h3 a ha⟩

/-- Witness of C17: weight given twice (the last value, 1000, is clamped to 900)
and optical size given once. -/
theorem variation_uses_last_coordinate_clamped_witness :
    (axesWghtOpsz.map VariationAxis.tagLong).Nodup ∧
    (∀ a ∈ axesWghtOpsz, a.minDouble ≤ a.maxDouble) ∧
    (∃ dict,
      (SkCTVariationFromSkFontArguments (some (axesWghtOpsz.map some)) positionWghtTwice).dict =
        some dict ∧
      dict 0x77676874 = some 900 ∧ dict 0x6F70737A = some 20) ∧
    (SkCTVariationFromSkFontArguments (some (axesWghtOpsz.map some)) positionWghtTwice).opsz =
      ⟨true, 20⟩ :=
  have h := variation_uses_last_coordinate_clamped axesWghtOpsz positionWghtTwice
    (by decide) (by decide)
  ⟨by decide, by decide,
    h.elim fun dict hd =>
      ⟨dict, hd.1, hd.2.1 ⟨0x77676874, 100, 900, 400⟩ (by decide),
        hd.2.1 ⟨0x6F70737A, 8, 144, 14⟩ (by decide)⟩,
    by decide⟩

end SkTypeface_Mac

namespace DWriteFontTypeface

/-! ## Palette initialization -/

theorem applyOverride_length (n : Nat) (pal : List SkColor) (o : Override) :
    (applyOverride n pal o).length = pal.length := by
  unfold applyOverride
  split
  · rw [List.length_set]
  · rfl

theorem foldl_applyOverride_length (n : Nat) (overrides : List Override) (pal : List SkColor) :
    (overrides.foldl (applyOverride n) pal).length = pal.length := by
  induction overrides generalizing pal with
  | nil => rfl
  | cons o os ih => rw [List.foldl_cons, ih, applyOverride_length]

theorem foldl_applyOverride_getElem? (n : Nat) (overrides : List Override) (pal : List SkColor)
    (hlen : pal.length = n) (i : Nat) (hi : i < n) :
    (overrides.foldl (applyOverride n) pal)[i]? =
      match lastOverride overrides i with
      | some c => some c
      | none => pal[i]? := by
  induction overrides generalizing pal with
  | nil => rfl
  | cons o os ih =>
    rw [List.foldl_cons, ih _ ((applyOverride_length n pal o).trans hlen)]
    unfold lastOverride
    by_cases ho : o.index = (i : Int)
    · have hf : (List.filter (fun o => decide (o.index = (i : Int))) (o :: os)) =
          o :: List.filter (fun o => decide (o.index = (i : Int))) os := by
        rw [List.filter_cons_of_pos (by simpa using ho)]
      rw [hf, List.getLast?_cons]
      cases hl : (List.filter (fun o => decide (o.index = (i : Int))) os).getLast? with
      | some o1 => rfl
      | none =>
        have happ : applyOverride n pal o = pal.set i o.color := by
          unfold applyOverride
          rw [if_pos (by omega)]
          congr 1
          omega
        simp only [Option.map_none', Option.getD_none, Option.map_some']
        rw [happ, List.getElem?_set_self (by omega)]
    · have hf : (List.filter (fun o => decide (o.index = (i : Int))) (o :: os)) =
          List.filter (fun o => decide (o.index = (i : Int))) os := by
        rw [List.filter_cons_of_neg (by simpa using ho)]
      rw [hf]
      cases hl : (List.filter (fun o => decide (o.index = (i : Int))) os).getLast? with
      | some o1 => rfl
      | none =>
        simp only [Option.map_none']
        unfold applyOverride
        split
        · rw [List.getElem?_set_ne (by omega)]
        · rfl

theorem foldl_applyOverride_filter (n : Nat) (overrides : List Override) (pal : List SkColor) :
    (overrides.filter (inRange n)).foldl (applyOverride n) pal =
      overrides.foldl (applyOverride n) pal := by
  induction overrides generalizing pal with
  | nil => rfl
  | cons o os ih =>
    by_cases ho : 0 ≤ o.index ∧ o.index < (n : Int)
    · rw [List.filter_cons_of_pos (by simpa [inRange] using ho), List.foldl_cons,
        List.foldl_cons, ih]
    · rw [List.filter_cons_of_neg (by simpa [inRange] using ho), List.foldl_cons, ih]
      have hsame : applyOverride n pal o = pal := by
        unfold applyOverride
        rw [if_neg (by omega)]
      rw [hsame]

theorem basePaletteIndex_eq (dwPaletteCount : Nat) (requested : Palette) :
    basePaletteIndex dwPaletteCount requested =
      if 0 ≤ requested.index ∧ requested.index < (dwPaletteCount : Int) then
        requested.index.toNat
      else 0 := by
  unfold basePaletteIndex
  by_cases h : 0 ≤ requested.index ∧ requested.index < (dwPaletteCount : Int)
  · rw [if_pos h, if_pos (by omega)]
  · rw [if_neg h, if_neg (by omega)]

/-- C18: for a color font with at least one palette whose entries can be
retrieved, the base palette is the requested index when
`0 <= index < paletteCount` and palette 0 otherwise; every entry
`i < entryCount` of the final `fPalette` is the color of the last override of
the request whose index is `i`, if any, else the converted entry `i` of the
base palette; overrides with an index that is negative or `>= entryCount`
change nothing (dropping them gives the same result); and
`fPaletteEntryCount` is `entryCount`. -/
theorem initializePalette_applies_last_override (toSkColor : DWRITE_COLOR_F → SkColor)
    (face : FontFace) (requested : Palette) (st : PaletteState)
    (dwPaletteEntry : Nat → DWRITE_COLOR_F)
    (hcolor : face.fIsColorFont = true) (hcount : 0 < face.colorPaletteCount)
    (hentries : face.getPaletteEntries
      (if 0 ≤ requested.index ∧ requested.index < (face.colorPaletteCount : Int) then
        requested.index.toNat else 0) = some dwPaletteEntry) :
    (initializePalette toSkColor face requested st).1 = .S_OK ∧
    (initializePalette toSkColor face requested st).2.fPaletteEntryCount =
      face.paletteEntryCount ∧
    (initializePalette toSkColor face requested st).2.fPalette.length =
      face.paletteEntryCount ∧
    (∀ i, i < face.paletteEntryCount →
      (initializePalette toSkColor face requested st).2.fPalette[i]? =
        some ((lastOverride requested.overrides i).getD (toSkColor (dwPaletteEntry i)))) ∧
    initializePalette toSkColor face
        { requested with
          overrides := requested.overrides.filter (inRange face.paletteEntryCount) } st =
      initializePalette toSkColor face requested st := by
  have hne : face.colorPaletteCount ≠ 0 := by omega
  have hbase := basePaletteIndex_eq face.colorPaletteCount requested
  have hbase1 : basePaletteIndex face.colorPaletteCount
      { requested with
        overrides := requested.overrides.filter (inRange face.paletteEntryCount) } =
      basePaletteIndex face.colorPaletteCount requested := rfl
  have hrun : ∀ req : Palette, basePaletteIndex face.colorPaletteCount req =
      basePaletteIndex face.colorPaletteCount requested →
      initializePalette toSkColor face req st =
        (.S_OK,
          { fPalette := req.overrides.foldl (applyOverride face.paletteEntryCount)
              ((List.range face.paletteEntryCount).map fun i => toSkColor (dwPaletteEntry i)),
            fPaletteEntryCount := face.paletteEntryCount }) := by
    intro req hreq
    unfold initializePalette
    simp only [hcolor, Bool.not_true, Bool.false_eq_true, if_false, hne, hreq, hbase, hentries]
  rw [hrun requested rfl, hrun _ hbase1]
  refine ⟨rfl, rfl, ?_, ?_, ?_⟩
  · show (requested.overrides.foldl (applyOverride face.paletteEntryCount) _).length = _
    rw [foldl_applyOverride_length]
    simp
  · intro i hi
    show (requested.overrides.foldl (applyOverride face.paletteEntryCount) _)[i]? = _
    rw [foldl_applyOverride_getElem? _ _ _ (by simp) i hi]
    cases lastOverride requested.overrides i with
    | some c => rfl
    | none => simp [hi]
  · show (HRESULT.S_OK, PaletteState.mk _ _) = (HRESULT.S_OK, PaletteState.mk _ _)
    rw [foldl_applyOverride_filter]

/-- Witness of C18: palette 5 of 2 is requested, so palette 0 is the base; entry 1
takes the color of the last of its two overrides, and the overrides for the
entries -1 and 3 are dropped. -/
theorem initializePalette_applies_last_override_witness :
    faceTwoPalettes.fIsColorFont = true ∧ 0 < faceTwoPalettes.colorPaletteCount ∧
    (initializePalette (fun c => c.r.toNat) faceTwoPalettes requestOutOfRange ⟨[], 0⟩).1 = .S_OK ∧
    (initializePalette (fun c => c.r.toNat) faceTwoPalettes requestOutOfRange ⟨[], 0⟩).2 =
      ⟨[0, 444, 2], 3⟩ :=
  have h := initializePalette_applies_last_override (fun c => c.r.toNat) faceTwoPalettes
    requestOutOfRange ⟨[], 0⟩ (fun i => ⟨10 * 0 + i, 0, 0, 1⟩) rfl (by decide) rfl
  ⟨rfl, by decide, h.1, by decide⟩

end DWriteFontTypeface

namespace skia.textlayout.FontCollection

/-! ## Font manager order -/

/-- C19: `getFontManagerOrder` returns the non-null managers among (dynamic,
asset, test, default), in that order, the default one only when font fallback
is enabled; `getFontManagersCount` is the length of that list; after
`disableFontFallback` the list holds the non-null managers among (dynamic,
asset, test) only, so a default manager that is none of those is not in it. -/
theorem getFontManagerOrder_lists_managers (fc : FontCollection) :
    getFontManagerOrder fc =
      [fc.fDynamicFontManager, fc.fAssetFontManager, fc.fTestFontManager,
        if fc.fEnableFontFallback then fc.fDefaultFontManager else none].filterMap id ∧
    getFontManagersCount fc = (getFontManagerOrder fc).length ∧
    getFontManagerOrder (disableFontFallback fc) =
      [fc.fDynamicFontManager, fc.fAssetFontManager, fc.fTestFontManager].filterMap id ∧
    (∀ m, fc.fDefaultFontManager = some m → fc.fDynamicFontManager ≠ some m →
      fc.fAssetFontManager ≠ some m → fc.fTestFontManager ≠ some m →
      m ∉ getFontManagerOrder (disableFontFallback fc)) := by
  have horder : ∀ fc : FontCollection, getFontManagerOrder fc =
      [fc.fDynamicFontManager, fc.fAssetFontManager, fc.fTestFontManager,
        if fc.fEnableFontFallback then fc.fDefaultFontManager else none].filterMap id := by
    intro fc
    obtain ⟨fb, d, a, dy, t⟩ := fc
    cases fb <;> cases d <;> cases a <;> cases dy <;> cases t <;>
      simp [getFontManagerOrder, pushIf]
  have hoff : getFontManagerOrder (disableFontFallback fc) =
      [fc.fDynamicFontManager, fc.fAssetFontManager, fc.fTestFontManager].filterMap id := by
    rw [horder]
    obtain ⟨fb, d, a, dy, t⟩ := fc
    cases a <;> cases dy <;> cases t <;> simp [disableFontFallback]
  refine ⟨horder fc, rfl, hoff, ?_⟩
  intro m _ h1 h2 h3 hmem
  rw [hoff] at hmem
  simp only [List.mem_filterMap, List.mem_cons, List.mem_singleton, List.not_mem_nil, or_false,
    id_eq] at hmem
  obtain ⟨x, hx, hxm⟩ := hmem
  subst hxm
  rcases hx with h | h | h
  · exact h1 h.symm
  · exact h2 h.symm
  · exact h3 h.symm

end skia.textlayout.FontCollection

namespace skgpu.graphite

/-! ## Order of the draws of a pass -/

theorem SortKey.le_total (a b : Draw) : SortKey.le a b ∨ SortKey.le b a := by
  unfold SortKey.le
  omega

theorem SortKey.le_trans (a b c : Draw) (hab : SortKey.le a b) (hbc : SortKey.le b c) :
    SortKey.le a c := by
  unfold SortKey.le at *
  omega

theorem SortKey.le_depth (a b : Draw) (h : SortKey.le a b) : a.depth ≤ b.depth := by
  unfold SortKey.le at h
  omega

/-- C14: for every draw list, the command list of the pass `DrawPass::Make`
produces visits the draws in non-decreasing paint-depth order: the draws are
those of the list, sorted by (depth, pipeline key) with depth dominating, and
the sort is stable (two draws that are in key order in the list keep their
relative order). -/
theorem Make_commands_in_depth_order (draws : List Draw) :
    (DrawPass.Make draws).fCommandList = (DrawPass.sortedDraws draws).map Draw.command ∧
    (DrawPass.sortedDraws draws).Perm draws ∧
    List.Pairwise (fun a b => a ≤ b) ((DrawPass.sortedDraws draws).map Draw.depth) ∧
    List.Pairwise SortKey.le (DrawPass.sortedDraws draws) ∧
    (∀ a b : Draw, SortKey.le a b → [a, b].Sublist draws →
      [a, b].Sublist (DrawPass.sortedDraws draws)) := by
  haveI : IsTotal Draw SortKey.le := ⟨SortKey.le_total⟩
  haveI : IsTrans Draw SortKey.le := ⟨SortKey.le_trans⟩
  have hsorted : List.Pairwise SortKey.le (DrawPass.sortedDraws draws) :=
    List.sorted_insertionSort SortKey.le draws
  refine ⟨rfl, List.perm_insertionSort SortKey.le draws, ?_, hsorted, ?_⟩
  · rw [List.pairwise_map]
    exact hsorted.imp (fun h => SortKey.le_depth _ _ h)
  · intro a b hab hsub
    exact List.pair_sublist_insertionSort hab hsub

end skgpu.graphite

namespace GrAtlasTextOp

/-! ## Bounds of the vertex data written by `onPrepareDraws` -/

theorem createDraw_keeps_vertex_data (views : Option (List Proxy)) (t : Target)
    (fi : FlushInfo) :
    (createDrawForGeneratedGlyphs views t fi).1.vertexSpaces = t.vertexSpaces ∧
    (createDrawForGeneratedGlyphs views t fi).1.fills = t.fills := by
  unfold createDrawForGeneratedGlyphs
  by_cases h0 : fi.fGlyphsToFlush = 0
  · simp only [h0, if_true, and_self]
  · cases views with
    | none => simp only [h0, if_false, and_self]
    | some vs =>
      by_cases h1 : vs.length = 0
      · simp only [h0, if_false, h1, if_true, and_self]
      · by_cases h2 : fi.fGeometryProcessor.numTextureSamplers = vs.length
        · simp only [h0, if_false, h1, h2, ne_eq, not_true_eq_false, and_self]
        · simp only [h0, if_false, h1, h2, ne_eq, not_false_eq_true, if_true,
            adoptViewsFrom_eq, and_self]

theorem FillCall.inBounds_append (spaces more : List Int) (f : FillCall)
    (h : f.inBounds spaces) : f.inBounds (spaces ++ more) := by
  obtain ⟨h0, n, hn, hle⟩ := h
  refine ⟨h0, n, ?_, hle⟩
  have hlt : f.vertices < spaces.length := by
    by_contra hcon
    rw [List.getElem?_eq_none (by omega)] at hn
    cases hn
  rw [List.getElem?_append_left hlt]
  exact hn

end GrAtlasTextOp

namespace GrAtlasTextOp

theorem makeVertexSpace_spec (env : Env) (vertexCount : Int) (s : PrepState) :
    (makeVertexSpace env vertexCount s).1.target.vertexSpaces =
        s.target.vertexSpaces ++ [vertexCount] ∧
    (makeVertexSpace env vertexCount s).1.target.fills = s.target.fills ∧
    (makeVertexSpace env vertexCount s).1.quadBufferBegin = s.quadBufferBegin ∧
    (makeVertexSpace env vertexCount s).1.quadBufferEnd = s.quadBufferEnd ∧
    (makeVertexSpace env vertexCount s).1.totalGlyphsRegened = s.totalGlyphsRegened := by
  cases h : env.makeVertexSpace s.target.vertexSpaces.length <;>
    simp [makeVertexSpace, h]

/-- One iteration of the `while` loop, written with the stages. -/
theorem subRunLoop_succ (env : Env) (op : Op) (geo : Nat) (subRunBegin subRunEnd : Int)
    (fuel : Nat) (s : PrepState) :
    subRunLoop env op geo subRunBegin subRunEnd (fuel + 1) s =
      if s.totalGlyphsRegened < subRunEnd then
        if !(env.regenerate s.regenCalls (s.totalGlyphsRegened - subRunBegin)
            (min subRunEnd s.quadBufferEnd - subRunBegin)).1 then
          .returned .regenFailed { s with regenCalls := s.regenCalls + 1 }
        else if (afterRegenerate geo subRunBegin s
            (env.regenerate s.regenCalls (s.totalGlyphsRegened - subRunBegin)
              (min subRunEnd s.quadBufferEnd - subRunBegin)).2).totalGlyphsRegened ≠ subRunEnd then
          if (flushGlyphs env (afterRegenerate geo subRunBegin s
              (env.regenerate s.regenCalls (s.totalGlyphsRegened - subRunBegin)
                (min subRunEnd s.quadBufferEnd - subRunBegin)).2)).totalGlyphsRegened =
              (flushGlyphs env (afterRegenerate geo subRunBegin s
                (env.regenerate s.regenCalls (s.totalGlyphsRegened - subRunBegin)
                  (min subRunEnd s.quadBufferEnd - subRunBegin)).2)).quadBufferEnd then
            if !(makeVertexSpace env
                (kVerticesPerGlyph * min (maxQuadsPerBuffer env op)
                  (op.fNumGlyphs - (flushGlyphs env (afterRegenerate geo subRunBegin s
                    (env.regenerate s.regenCalls (s.totalGlyphsRegened - subRunBegin)
                      (min subRunEnd s.quadBufferEnd - subRunBegin)).2)).totalGlyphsRegened))
                (nextQuadBuffer env op (flushGlyphs env (afterRegenerate geo subRunBegin s
                  (env.regenerate s.regenCalls (s.totalGlyphsRegened - subRunBegin)
                    (min subRunEnd s.quadBufferEnd - subRunBegin)).2)))).2 then
              .returned .noVertexSpace (makeVertexSpace env
                (kVerticesPerGlyph * min (maxQuadsPerBuffer env op)
                  (op.fNumGlyphs - (flushGlyphs env (afterRegenerate geo subRunBegin s
                    (env.regenerate s.regenCalls (s.totalGlyphsRegened - subRunBegin)
                      (min subRunEnd s.quadBufferEnd - subRunBegin)).2)).totalGlyphsRegened))
                (nextQuadBuffer env op (flushGlyphs env (afterRegenerate geo subRunBegin s
                  (env.regenerate s.regenCalls (s.totalGlyphsRegened - subRunBegin)
                    (min subRunEnd s.quadBufferEnd - subRunBegin)).2)))).1
            else
              subRunLoop env op geo subRunBegin subRunEnd fuel (makeVertexSpace env
                (kVerticesPerGlyph * min (maxQuadsPerBuffer env op)
                  (op.fNumGlyphs - (flushGlyphs env (afterRegenerate geo subRunBegin s
                    (env.regenerate s.regenCalls (s.totalGlyphsRegened - subRunBegin)
                      (min subRunEnd s.quadBufferEnd - subRunBegin)).2)).totalGlyphsRegened))
                (nextQuadBuffer env op (flushGlyphs env (afterRegenerate geo subRunBegin s
                  (env.regenerate s.regenCalls (s.totalGlyphsRegened - subRunBegin)
                    (min subRunEnd s.quadBufferEnd - subRunBegin)).2)))).1
          else
            subRunLoop env op geo subRunBegin subRunEnd fuel
              (flushGlyphs env (afterRegenerate geo subRunBegin s
                (env.regenerate s.regenCalls (s.totalGlyphsRegened - subRunBegin)
                  (min subRunEnd s.quadBufferEnd - subRunBegin)).2))
        else
          subRunLoop env op geo subRunBegin subRunEnd fuel
            (afterRegenerate geo subRunBegin s
              (env.regenerate s.regenCalls (s.totalGlyphsRegened - subRunBegin)
                (min subRunEnd s.quadBufferEnd - subRunBegin)).2)
      else
        .next s := by
  rw [subRunLoop]
  rfl


theorem afterRegenerate_fields (geo : Nat) (subRunBegin : Int) (s : PrepState) (g : Int) :
    (afterRegenerate geo subRunBegin s g).totalGlyphsRegened = s.totalGlyphsRegened + g ∧
    (afterRegenerate geo subRunBegin s g).quadBufferEnd = s.quadBufferEnd ∧
    (afterRegenerate geo subRunBegin s g).quadBufferBegin = s.quadBufferBegin ∧
    (afterRegenerate geo subRunBegin s g).target.vertexSpaces = s.target.vertexSpaces ∧
    (afterRegenerate geo subRunBegin s g).target.fills =
      if g > 0 then
        s.target.fills ++
          [⟨geo, s.target.vertexSpaces.length - 1, s.totalGlyphsRegened - s.quadBufferBegin,
            s.totalGlyphsRegened - subRunBegin, g⟩]
      else s.target.fills := by
  unfold afterRegenerate
  by_cases hg : g > 0
  · simp only [hg, if_true, and_self]
  · simp only [hg, if_false, and_self]

theorem afterRegenerate_invariant (env : Env) (op : Op) (geo : Nat) (subRunBegin : Int)
    (s : PrepState) (g : Int) (hinv : LoopInvariant env op s) (h0 : 0 ≤ g)
    (hle : s.totalGlyphsRegened + g ≤ s.quadBufferEnd) :
    LoopInvariant env op (afterRegenerate geo subRunBegin s g) ∧
    (afterRegenerate geo subRunBegin s g).totalGlyphsRegened = s.totalGlyphsRegened + g ∧
    (afterRegenerate geo subRunBegin s g).quadBufferEnd = s.quadBufferEnd := by
  obtain ⟨⟨hallocs, hfills⟩, hqb, hqe, hlast⟩ := hinv
  obtain ⟨ht, he, hb, hv, hf⟩ := afterRegenerate_fields geo subRunBegin s g
  refine ⟨⟨⟨?_, ?_⟩, ?_, ?_, ?_⟩, ht, he⟩
  · rw [hv]
    exact hallocs
  · rw [hv, hf]
    intro f hfm
    by_cases hg : g > 0
    · rw [if_pos hg] at hfm
      rcases List.mem_append.mp hfm with hfm | hfm
      · exact hfills f hfm
      · rw [List.mem_singleton] at hfm
        subst hfm
        refine ⟨?_, kVerticesPerGlyph * (s.quadBufferEnd - s.quadBufferBegin), ?_, ?_⟩
        · show 0 ≤ s.totalGlyphsRegened - s.quadBufferBegin
          omega
        · show s.target.vertexSpaces[s.target.vertexSpaces.length - 1]? = _
          rw [← List.getLast?_eq_getElem?]
          exact hlast
        · show kVerticesPerGlyph * (s.totalGlyphsRegened - s.quadBufferBegin + g) ≤
            kVerticesPerGlyph * (s.quadBufferEnd - s.quadBufferBegin)
          unfold kVerticesPerGlyph
          omega
    · rw [if_neg hg] at hfm
      exact hfills f hfm
  · rw [hb, ht]
    omega
  · rw [ht, he]
    exact hle
  · rw [hv, he, hb]
    exact hlast

theorem flushGlyphs_invariant (env : Env) (op : Op) (s : PrepState)
    (hinv : LoopInvariant env op s) :
    LoopInvariant env op (flushGlyphs env s) ∧
    (flushGlyphs env s).totalGlyphsRegened = s.totalGlyphsRegened ∧
    (flushGlyphs env s).quadBufferEnd = s.quadBufferEnd := by
  obtain ⟨⟨hallocs, hfills⟩, hqb, hqe, hlast⟩ := hinv
  obtain ⟨hv, hf⟩ :=
    createDraw_keeps_vertex_data (env.getViews s.regenCalls) s.target s.flushInfo
  refine ⟨⟨⟨?_, ?_⟩, hqb, hqe, ?_⟩, rfl, rfl⟩
  · show ∀ n ∈ (createDrawForGeneratedGlyphs (env.getViews s.regenCalls) s.target
      s.flushInfo).1.vertexSpaces, _
    rw [hv]
    exact hallocs
  · show ∀ f ∈ (createDrawForGeneratedGlyphs (env.getViews s.regenCalls) s.target
      s.flushInfo).1.fills, f.inBounds (createDrawForGeneratedGlyphs (env.getViews s.regenCalls)
        s.target s.flushInfo).1.vertexSpaces
    rw [hv, hf]
    exact hfills
  · show (createDrawForGeneratedGlyphs (env.getViews s.regenCalls) s.target
      s.flushInfo).1.vertexSpaces.getLast? = _
    rw [hv]
    exact hlast

theorem VertexDataInBounds_alloc (env : Env) (op : Op) (s s1 : PrepState) (n : Int)
    (hs : VertexDataInBounds env op s)
    (hn : n ≤ kVerticesPerGlyph * maxQuadsPerBuffer env op)
    (hv : s1.target.vertexSpaces = s.target.vertexSpaces ++ [n])
    (hf : s1.target.fills = s.target.fills) : VertexDataInBounds env op s1 := by
  obtain ⟨hallocs, hfills⟩ := hs
  refine ⟨?_, ?_⟩
  · rw [hv]
    intro a ha
    rcases List.mem_append.mp ha with ha | ha
    · exact hallocs a ha
    · rw [List.mem_singleton] at ha
      rw [ha]
      exact hn
  · rw [hv, hf]
    intro f hf1
    exact FillCall.inBounds_append _ _ f (hfills f hf1)

theorem nextQuadBuffer_invariant (env : Env) (op : Op) (s : PrepState)
    (hs : VertexDataInBounds env op s) (hQ : 0 ≤ maxQuadsPerBuffer env op)
    (hN : s.totalGlyphsRegened ≤ op.fNumGlyphs) :
    LoopInvariant env op (makeVertexSpace env
      (kVerticesPerGlyph * min (maxQuadsPerBuffer env op) (op.fNumGlyphs - s.totalGlyphsRegened))
      (nextQuadBuffer env op s)).1 ∧
    (makeVertexSpace env
      (kVerticesPerGlyph * min (maxQuadsPerBuffer env op) (op.fNumGlyphs - s.totalGlyphsRegened))
      (nextQuadBuffer env op s)).1.totalGlyphsRegened = s.totalGlyphsRegened := by
  obtain ⟨hv, hf, hqb, hqe, ht⟩ := makeVertexSpace_spec env
    (kVerticesPerGlyph * min (maxQuadsPerBuffer env op) (op.fNumGlyphs - s.totalGlyphsRegened))
    (nextQuadBuffer env op s)
  have hsafe := VertexDataInBounds_alloc env op s _ _ hs
    (show kVerticesPerGlyph * min (maxQuadsPerBuffer env op)
        (op.fNumGlyphs - s.totalGlyphsRegened) ≤ kVerticesPerGlyph * maxQuadsPerBuffer env op by
      unfold kVerticesPerGlyph
      omega) hv hf
  refine ⟨⟨hsafe, ?_, ?_, ?_⟩, ht⟩
  · rw [hqb, ht]
    show s.totalGlyphsRegened ≤ s.totalGlyphsRegened
    omega
  · rw [hqe, ht]
    show s.totalGlyphsRegened ≤
      s.totalGlyphsRegened + min (maxQuadsPerBuffer env op) (op.fNumGlyphs - s.totalGlyphsRegened)
    omega
  · rw [hv, hqe, hqb, List.getLast?_concat]
    show some _ = some (kVerticesPerGlyph * (s.totalGlyphsRegened +
      min (maxQuadsPerBuffer env op) (op.fNumGlyphs - s.totalGlyphsRegened) -
        s.totalGlyphsRegened))
    congr 2
    omega

theorem subRunLoop_in_bounds (env : Env) (op : Op) (geo : Nat) (subRunBegin subRunEnd : Int)
    (hQ : 0 ≤ maxQuadsPerBuffer env op) (hN : subRunEnd ≤ op.fNumGlyphs)
    (hregen : ∀ n b e, b ≤ e →
      0 ≤ (env.regenerate n b e).2 ∧ (env.regenerate n b e).2 ≤ e - b)
    (fuel : Nat) (s : PrepState) (hinv : LoopInvariant env op s)
    (hle : s.totalGlyphsRegened ≤ subRunEnd) :
    RunInBounds env op subRunEnd (subRunLoop env op geo subRunBegin subRunEnd fuel s) := by
  induction fuel generalizing s with
  | zero =>
    rw [subRunLoop]
    split
    · exact hinv.1
    · exact ⟨hinv, by omega⟩
  | succ fuel ih =>
    rw [subRunLoop_succ]
    by_cases hlt : s.totalGlyphsRegened < subRunEnd
    · rw [if_pos hlt]
      have hreg := hregen s.regenCalls (s.totalGlyphsRegened - subRunBegin)
        (min subRunEnd s.quadBufferEnd - subRunBegin) (by have := hinv.2.2.1; omega)
      obtain ⟨h3, ht3, hqe3⟩ := afterRegenerate_invariant env op geo subRunBegin s
        (env.regenerate s.regenCalls (s.totalGlyphsRegened - subRunBegin)
          (min subRunEnd s.quadBufferEnd - subRunBegin)).2 hinv hreg.1 (by omega)
      obtain ⟨h4, ht4, hqe4⟩ := flushGlyphs_invariant env op _ h3
      obtain ⟨h5, ht5⟩ := nextQuadBuffer_invariant env op _ h4.1 hQ (by omega)
      split
      · exact hinv.1
      · split
        · split
          · split
            · exact h5.1
            · exact ih _ h5 (by omega)
          · exact ih _ h4 (by omega)
        · exact ih _ h3 (by omega)
    · rw [if_neg hlt]
      exact ⟨hinv, by omega⟩


theorem RunInBounds_state (env : Env) (op : Op) (subRunEnd : Int) (r : Run)
    (h : RunInBounds env op subRunEnd r) : VertexDataInBounds env op r.state := by
  cases r with
  | next s => exact h.1.1
  | returned why s => exact h
  | outOfFuel s => exact h

theorem geoLoop_in_bounds (env : Env) (op : Op) (fuel : Nat)
    (hQ : 0 ≤ maxQuadsPerBuffer env op)
    (hregen : ∀ n b e, b ≤ e →
      0 ≤ (env.regenerate n b e).2 ∧ (env.regenerate n b e).2 ≤ e - b)
    (counts : List Int) (geo : Nat) (s : PrepState) (hinv : LoopInvariant env op s)
    (hcounts : ∀ c ∈ counts, 0 ≤ c)
    (hN : s.totalGlyphsRegened + counts.sum ≤ op.fNumGlyphs) :
    RunInBounds env op (s.totalGlyphsRegened + counts.sum) (geoLoop env op fuel geo counts s) := by
  induction counts generalizing geo s with
  | nil =>
    rw [geoLoop]
    exact ⟨hinv, by simp⟩
  | cons c rest ih =>
    have hc : 0 ≤ c := hcounts c (List.mem_cons_self c rest)
    have hrest : 0 ≤ rest.sum := List.sum_nonneg (fun x hx => hcounts x (List.mem_cons_of_mem c hx))
    rw [List.sum_cons] at hN ⊢
    have hsub := subRunLoop_in_bounds env op geo s.totalGlyphsRegened (s.totalGlyphsRegened + c)
      hQ (by omega) hregen fuel s hinv (by omega)
    rw [geoLoop]
    cases hr : subRunLoop env op geo s.totalGlyphsRegened (s.totalGlyphsRegened + c) fuel s with
    | next s1 =>
      rw [hr] at hsub
      obtain ⟨hinv1, ht1⟩ := hsub
      have h := ih (geo + 1) s1 hinv1 (fun x hx => hcounts x (List.mem_cons_of_mem c hx))
        (by omega)
      rw [ht1, Int.add_assoc] at h
      exact h
    | returned why s1 =>
      rw [hr] at hsub
      exact hsub
    | outOfFuel s1 =>
      rw [hr] at hsub
      exact hsub

theorem maxQuadsPerBuffer_nonneg (env : Env) (op : Op) (hbytes : 0 ≤ env.kMaxVertexBytes)
    (hstride : 0 < op.vertexStride) : 0 ≤ maxQuadsPerBuffer env op := by
  unfold maxQuadsPerBuffer kVerticesPerGlyph
  exact Int.ediv_nonneg hbytes (by omega)


/-- `onPrepareDraws` written with the initial state and the final flush. -/
theorem onPrepareDraws_eq (env : Env) (op : Op) (fuel : Nat) :
    onPrepareDraws env op fuel =
      if op.usesLocalCoords && !op.drawMatrixInvertible then
        .returned .noLocalMatrix entryState
      else
        match env.getViews 0 with
        | none => .returned .noViews entryState
        | some views =>
          if !(makeVertexSpace env
              (kVerticesPerGlyph * (min op.fNumGlyphs (maxQuadsPerBuffer env op) - 0))
              (initialState env op views)).2 then
            .returned .noVertexSpace (makeVertexSpace env
              (kVerticesPerGlyph * (min op.fNumGlyphs (maxQuadsPerBuffer env op) - 0))
              (initialState env op views)).1
          else
            finishRun env (geoLoop env op fuel 0 op.fGeoData (makeVertexSpace env
              (kVerticesPerGlyph * (min op.fNumGlyphs (maxQuadsPerBuffer env op) - 0))
              (initialState env op views)).1) := by
  rfl

/-- The vertex data stays in bounds in every state a run of `onPrepareDraws`
reaches, whatever the fuel. -/
theorem onPrepareDraws_in_bounds (env : Env) (op : Op) (fuel : Nat)
    (hsum : op.fNumGlyphs = op.fGeoData.sum) (hcounts : ∀ c ∈ op.fGeoData, 0 ≤ c)
    (hbytes : 0 ≤ env.kMaxVertexBytes) (hstride : 0 < op.vertexStride)
    (hregen : ∀ n b e, b ≤ e →
      0 ≤ (env.regenerate n b e).2 ∧ (env.regenerate n b e).2 ≤ e - b) :
    VertexDataInBounds env op (onPrepareDraws env op fuel).state := by
  have hQ := maxQuadsPerBuffer_nonneg env op hbytes hstride
  have hNpos : 0 ≤ op.fNumGlyphs := hsum ▸ List.sum_nonneg hcounts
  have hempty : ∀ s : PrepState, s.target.vertexSpaces = [] → s.target.fills = [] →
      VertexDataInBounds env op s := by
    intro s hv hf
    refine ⟨?_, ?_⟩
    · rw [hv]
      intro a ha
      cases ha
    · rw [hf]
      intro f hf1
      cases hf1
  rw [onPrepareDraws_eq]
  split
  · exact hempty _ rfl rfl
  · split
    · exact hempty _ rfl rfl
    · rename_i views hviews
      obtain ⟨hv, hf, hqb, hqe, ht⟩ := makeVertexSpace_spec env
        (kVerticesPerGlyph * (min op.fNumGlyphs (maxQuadsPerBuffer env op) - 0))
        (initialState env op views)
      have hsafe := VertexDataInBounds_alloc env op (initialState env op views) _ _
        (hempty _ rfl rfl)
        (show kVerticesPerGlyph * (min op.fNumGlyphs (maxQuadsPerBuffer env op) - 0) ≤
            kVerticesPerGlyph * maxQuadsPerBuffer env op by
          unfold kVerticesPerGlyph
          omega) hv hf
      split
      · exact hsafe
      · have hinv : LoopInvariant env op (makeVertexSpace env
            (kVerticesPerGlyph * (min op.fNumGlyphs (maxQuadsPerBuffer env op) - 0))
            (initialState env op views)).1 := by
          refine ⟨hsafe, ?_, ?_, ?_⟩
          · rw [hqb, ht]
            exact Int.le_refl 0
          · rw [hqe, ht]
            show (0 : Int) ≤ min op.fNumGlyphs (maxQuadsPerBuffer env op)
            omega
          · rw [hv, hqe, hqb, List.getLast?_concat]
            rfl
        have hgeo := geoLoop_in_bounds env op fuel hQ hregen op.fGeoData 0 _ hinv hcounts
          (by rw [ht, hsum]; show (0 : Int) + op.fGeoData.sum ≤ op.fGeoData.sum; omega)
        cases hr : geoLoop env op fuel 0 op.fGeoData (makeVertexSpace env
            (kVerticesPerGlyph * (min op.fNumGlyphs (maxQuadsPerBuffer env op) - 0))
            (initialState env op views)).1 with
        | next s1 =>
          rw [hr] at hgeo
          exact (flushGlyphs_invariant env op s1 hgeo.1).1.1
        | returned why s1 =>
          rw [hr] at hgeo
          exact hgeo
        | outOfFuel s1 =>
          rw [hr] at hgeo
          exact hgeo

/-- C20: in `onPrepareDraws`, when `fNumGlyphs` is the sum of the sub-runs' glyph
counts (none negative), the vertex byte limit is not negative, the stride is
positive, and every `regenerate(begin, end)` with `begin <= end` returns a
count in `[0, end - begin]`: in every state a run reaches (with any fuel),
every vertex allocation asked for at most `maxQuadsPerBuffer` quads, and every
`fillVertexData` call wrote the quads `[quadBufferIndex, quadBufferIndex +
glyphsRegenerated)` with `0 <= quadBufferIndex` and the end within the
vertices of the allocation that was the most recent one at the call. -/
theorem fills_stay_within_vertex_allocation (env : Env) (op : Op) (fuel : Nat)
    (hsum : op.fNumGlyphs = op.fGeoData.sum) (hcounts : ∀ c ∈ op.fGeoData, 0 ≤ c)
    (hbytes : 0 ≤ env.kMaxVertexBytes) (hstride : 0 < op.vertexStride)
    (hregen : ∀ n b e, b ≤ e →
      0 ≤ (env.regenerate n b e).2 ∧ (env.regenerate n b e).2 ≤ e - b) :
    (∀ vertexCount ∈ (onPrepareDraws env op fuel).state.target.vertexSpaces,
      vertexCount ≤ kVerticesPerGlyph * maxQuadsPerBuffer env op) ∧
    (∀ f ∈ (onPrepareDraws env op fuel).state.target.fills,
      0 ≤ f.quadBufferIndex ∧
        ∃ vertexCount,
          (onPrepareDraws env op fuel).state.target.vertexSpaces[f.vertices]? =
            some vertexCount ∧
          kVerticesPerGlyph * (f.quadBufferIndex + f.count) ≤ vertexCount) :=
  onPrepareDraws_in_bounds env op fuel hsum hcounts hbytes hstride hregen

/-- Witness of C20: five glyphs in sub-runs of three and two, two quads per
vertex buffer: three allocations of 8, 8 and 4 vertices, four fill calls. -/
theorem fills_stay_within_vertex_allocation_witness :
    opThreeAndTwo.fNumGlyphs = opThreeAndTwo.fGeoData.sum ∧
    (∀ c ∈ opThreeAndTwo.fGeoData, 0 ≤ c) ∧
    0 ≤ envSmallBuffer.kMaxVertexBytes ∧ 0 < opThreeAndTwo.vertexStride ∧
    (∀ n b e, b ≤ e → 0 ≤ (envSmallBuffer.regenerate n b e).2 ∧
      (envSmallBuffer.regenerate n b e).2 ≤ e - b) ∧
    maxQuadsPerBuffer envSmallBuffer opThreeAndTwo = 2 ∧
    (onPrepareDraws envSmallBuffer opThreeAndTwo 10).state.target.vertexSpaces = [8, 8, 4] ∧
    (onPrepareDraws envSmallBuffer opThreeAndTwo 10).state.target.fills =
      [⟨0, 0, 0, 0, 2⟩, ⟨0, 1, 0, 2, 1⟩, ⟨1, 1, 1, 0, 1⟩, ⟨1, 2, 0, 1, 1⟩] ∧
    (∀ vertexCount ∈ (onPrepareDraws envSmallBuffer opThreeAndTwo 10).state.target.vertexSpaces,
      vertexCount ≤ kVerticesPerGlyph * maxQuadsPerBuffer envSmallBuffer opThreeAndTwo) :=
  have hregen : ∀ (n : Nat) (b e : Int), b ≤ e →
      0 ≤ (envSmallBuffer.regenerate n b e).2 ∧ (envSmallBuffer.regenerate n b e).2 ≤ e - b := by
    intro n b e hbe
    show 0 ≤ e - b ∧ e - b ≤ e - b
    omega
  ⟨by decide, by decide, by decide, by decide, hregen, by decide, by decide, by decide,
    (fills_stay_within_vertex_allocation envSmallBuffer opThreeAndTwo 10 (by decide) (by decide)
      (by decide) (by decide) hregen).1⟩

end GrAtlasTextOp

namespace SkSVGFilterContext

/-! ## Colorspace conversion of SVG filter inputs -/

/-- What the code does if the `colorspace` argument of `resolveInput` is `kAuto`
(whether a caller ever passes it is decided by the filter effect nodes): on the
source graphic the pair `(kSRGB, kAuto)` goes to `ConvertFilterColorspace`, the
final branch is taken with its assertion false, and without assertions the
linear-to-sRGB wrap is returned. -/
theorem resolveInput_kAuto_takes_final_branch :
    resolveInputColorspaces emptyContext .kSourceGraphic .kAuto = (.kSRGB, .kAuto) ∧
    finalBranchAssertion .kSRGB .kAuto = false ∧
    ConvertFilterColorspaceChecked .null .kSRGB .kAuto = none ∧
    resolveInput emptyContext .kSourceGraphic .kAuto =
      .ColorFilter .LinearToSRGBGamma .null := by
  decide

/-- On every pair of resolved colorspaces (`kSRGB` or `kLinearRGB`),
`ConvertFilterColorspace` returns the input unchanged when `src = dst`, wraps it
in the sRGB-to-linear filter when `src = kSRGB` and `dst = kLinearRGB`, and
otherwise `src = kLinearRGB` and `dst = kSRGB` hold, so the assertion of the
final branch holds and the linear-to-sRGB wrap is returned. For a pair with
`src ≠ dst` the final branch's assertion holds only for `(kLinearRGB, kSRGB)`;
`resolveInput` passes on the colorspace it is given and the one of the chosen
input. -/
theorem ConvertFilterColorspace_resolved (input : SkImageFilter)
    (src dst : SkSVGColorspace) (fctx : FilterContext) (inputType : SkSVGFeInputType) :
    (src ≠ .kAuto → dst ≠ .kAuto →
      (src = dst → ConvertFilterColorspace input src dst = input) ∧
      (src = .kSRGB → dst = .kLinearRGB →
        ConvertFilterColorspace input src dst = .ColorFilter .SRGBToLinearGamma input) ∧
      (src ≠ dst → ¬ (src = .kSRGB ∧ dst = .kLinearRGB) →
        src = .kLinearRGB ∧ dst = .kSRGB ∧ finalBranchAssertion src dst = true ∧
        ConvertFilterColorspace input src dst = .ColorFilter .LinearToSRGBGamma input) ∧
      ConvertFilterColorspaceChecked input src dst = some (ConvertFilterColorspace input src dst)) ∧
    (src ≠ dst → (finalBranchAssertion src dst = true ↔ src = .kLinearRGB ∧ dst = .kSRGB)) ∧
    resolveInput fctx inputType dst =
      ConvertFilterColorspace (getInput fctx inputType).1 (getInput fctx inputType).2 dst := by
  refine ⟨?_, ?_, rfl⟩
  · intro hs hd
    cases src <;> cases dst <;>
      simp_all [ConvertFilterColorspace, ConvertFilterColorspaceChecked, finalBranchAssertion]
  · intro _
    cases src <;> cases dst <;> simp [finalBranchAssertion]

end SkSVGFilterContext

namespace SkParticleEffect

/-! ## Aging of particles -/

theorem setAt_apply {n : Nat} {α : Type} (fData : Fin n → Nat → α) (j : Fin n) (i : Nat) (v : α)
    (j1 : Fin n) (i1 : Nat) :
    setAt fData j i v j1 i1 = if j1 = j ∧ i1 = i then v else fData j1 i1 := rfl

theorem foldl_copy {n : Nat} {α : Type} (i last : Nat) :
    ∀ (js : List (Fin n)) (d : Fin n → Nat → α) (j : Fin n) (k : Nat),
      js.foldl (fun d j => setAt d j i (d j last)) d j k =
        if j ∈ js ∧ k = i then d j last else d j k := by
  intro js
  induction js with
  | nil => intro d j k; simp
  | cons j0 js ih =>
    intro d j k
    rw [List.foldl_cons, ih]
    simp only [setAt_apply, List.mem_cons]
    by_cases hk : k = i
    · by_cases hj : j = j0
      · subst hj; subst hk
        by_cases hm : j ∈ js <;> by_cases hl : last = k <;> simp [hm, hl]
      · by_cases hm : j ∈ js <;> simp [hm, hj, hk]
    · simp [hk]

/-- The copy loop moves every channel of index `last` to index `i`. -/
theorem copyChannels_apply {n : Nat} {α : Type} (i last : Nat) (d : Fin n → Nat → α)
    (j : Fin n) (k : Nat) :
    copyChannels i last d j k = if k = i then d j last else d j k := by
  rw [copyChannels, foldl_copy]
  simp [List.mem_finRange]

section
variable {α : Type} [Add α] [Mul α] [One α] [LT α] [DecidableRel (fun a b : α => a < b)]

theorem ageLoop_succ (P : SkParticles) (dt : α) (fuel : Nat) (i : Int)
    (s : Effect P.kNumChannels α) :
    ageLoop P dt (fuel + 1) i s =
      if i < s.fCount then
        ageLoop P dt fuel ((ageStep P dt i s).1 + 1) (ageStep P dt i s).2
      else some s := rfl

theorem ageLoop_exit (P : SkParticles) (dt : α) (fuel : Nat) (i : Int)
    (s : Effect P.kNumChannels α) (h : ¬ i < s.fCount) :
    ageLoop P dt fuel i s = some s := by
  cases fuel <;> simp [ageLoop, h]

/-- The body at index `a` when the advanced particle stays alive. -/
theorem ageStep_alive (P : SkParticles) (dt : α) (a : Nat) (s : Effect P.kNumChannels α)
    (h : ((particleAt s a).advance P dt).alive P = true) :
    (ageStep P dt a s).1 = a ∧ (ageStep P dt a s).2.fCount = s.fCount ∧
    ∀ k, particleAt (ageStep P dt a s).2 k =
      if k = a then (particleAt s a).advance P dt else particleAt s k := by
  have hage : ¬ (1 < s.fData P.kAge a + s.fData P.kLifetime a * dt) := by
    simpa [Particle.alive, Particle.advance, particleAt] using h
  have hstep : ageStep P dt a s =
      ((a : Int), { s with
        fData := (setAt s.fData P.kAge a (s.fData P.kAge a + s.fData P.kLifetime a * dt)) }) := by
    simp [ageStep, setAt_apply, hage]
  rw [hstep]
  refine ⟨rfl, rfl, ?_⟩
  intro k
  by_cases hk : k = a
  · subst hk
    simp only [particleAt, Particle.advance, setAt_apply, if_true, and_true]
  · simp [particleAt, setAt_apply, hk]

/-- The body at index `a` when the advanced particle has expired: index `a` gets
the last particle, which is the advanced one itself when `a` is the last index. -/
theorem ageStep_expired (P : SkParticles) (dt : α) (a b : Nat) (s : Effect P.kNumChannels α)
    (hb : s.fCount = b) (h : ((particleAt s a).advance P dt).alive P = false) :
    (ageStep P dt a s).1 = (a : Int) - 1 ∧ (ageStep P dt a s).2.fCount = (b : Int) - 1 ∧
    ∀ k, particleAt (ageStep P dt a s).2 k =
      if k = a then
        (if b - 1 = a then (particleAt s a).advance P dt else particleAt s (b - 1))
      else particleAt s k := by
  have hage : 1 < s.fData P.kAge a + s.fData P.kLifetime a * dt := by
    simpa [Particle.alive, Particle.advance, particleAt] using h
  have hlast : ((b : Int) - 1).toNat = b - 1 := by omega
  have hstep : ageStep P dt a s =
      ((a : Int) - 1,
       { fData := (copyChannels a (b - 1)
           (setAt s.fData P.kAge a (s.fData P.kAge a + s.fData P.kLifetime a * dt)))
         fStableRandoms := fun k =>
           if k = a then s.fStableRandoms (b - 1) else s.fStableRandoms k
         fCount := (b : Int) - 1 }) := by
    simp [ageStep, setAt_apply, hage, hb, hlast]
  rw [hstep]
  refine ⟨rfl, rfl, ?_⟩
  intro k
  by_cases hk : k = a
  · subst hk
    by_cases hl : b - 1 = k
    · simp only [particleAt, Particle.advance, copyChannels_apply, setAt_apply, hl, if_true,
        and_true]
    · simp [particleAt, copyChannels_apply, setAt_apply, hl]
  · simp [particleAt, copyChannels_apply, setAt_apply, hk]

theorem particlesFrom_congr {n : Nat} {β : Type} (s t : Effect n β) (a len : Nat)
    (h : ∀ k, a ≤ k → k < a + len → particleAt t k = particleAt s k) :
    particlesFrom t a len = particlesFrom s a len := by
  unfold particlesFrom
  apply List.map_congr_left
  intro k hk
  rw [List.mem_range'_1] at hk
  exact h k hk.1 hk.2

theorem particlesFrom_succ {n : Nat} {β : Type} (s : Effect n β) (a len : Nat) :
    particlesFrom s a (len + 1) = particleAt s a :: particlesFrom s (a + 1) len := by
  simp [particlesFrom, List.range'_succ]

theorem particlesFrom_concat {n : Nat} {β : Type} (s : Effect n β) (a len : Nat) :
    particlesFrom s a (len + 1) = particlesFrom s a len ++ [particleAt s (a + len)] := by
  simp [particlesFrom, List.range'_concat]

/-- The aging loop from index `a` on, with `b` particles stored: it ends, and the
live particles are then the ones below `a` together with the advanced particles
of `a, ..., b - 1` that are still alive. -/
theorem ageLoop_spec (P : SkParticles) (dt : α) :
    ∀ (fuel a b : Nat) (s : Effect P.kNumChannels α), s.fCount = b → a ≤ b → b - a ≤ fuel →
      ∃ s1, ageLoop P dt fuel a s = some s1 ∧ 0 ≤ s1.fCount ∧
        (liveParticles s1).Perm (particlesFrom s 0 a ++
          ((particlesFrom s a (b - a)).map (Particle.advance P dt)).filter (Particle.alive P)) := by
  intro fuel
  induction fuel with
  | zero =>
    intro a b s hb hab hf
    have : a = b := by omega
    subst this
    refine ⟨s, ageLoop_exit P dt 0 a s (by rw [hb]; omega), by rw [hb]; omega, ?_⟩
    simp [liveParticles, hb, particlesFrom]
  | succ f ih =>
    intro a b s hb hab hf
    by_cases hlt : a = b
    · subst hlt
      refine ⟨s, ageLoop_exit P dt _ a s (by rw [hb]; omega), by rw [hb]; omega, ?_⟩
      simp [liveParticles, hb, particlesFrom]
    · have hab1 : a < b := by omega
      have hcond : (a : Int) < s.fCount := by rw [hb]; omega
      rw [ageLoop_succ, if_pos hcond]
      cases hal : ((particleAt s a).advance P dt).alive P with
      | true =>
        obtain ⟨h1, h2, h3⟩ := ageStep_alive P dt a s hal
        rw [h1]
        have hcast : ((a : Int) + 1) = ((a + 1 : Nat) : Int) := by push_cast; rfl
        rw [hcast]
        obtain ⟨s1, hs1, hc1, hp1⟩ :=
          ih (a + 1) b (ageStep P dt a s).2 (by rw [h2, hb]) (by omega) (by omega)
        refine ⟨s1, hs1, hc1, ?_⟩
        have e1 : particlesFrom (ageStep P dt a s).2 0 (a + 1) =
            particlesFrom s 0 a ++ [(particleAt s a).advance P dt] := by
          rw [particlesFrom_concat, h3 (0 + a), if_pos (by omega)]
          congr 1
          apply particlesFrom_congr
          intro k _ hk
          rw [h3 k, if_neg (by omega)]
        have e2 : particlesFrom (ageStep P dt a s).2 (a + 1) (b - (a + 1)) =
            particlesFrom s (a + 1) (b - (a + 1)) := by
          apply particlesFrom_congr
          intro k hk _
          rw [h3 k, if_neg (by omega)]
        have e3 : b - a = (b - (a + 1)) + 1 := by omega
        rw [e1, e2] at hp1
        rw [e3, particlesFrom_succ, List.map_cons, List.filter_cons_of_pos hal]
        simpa using hp1
      | false =>
        obtain ⟨h1, h2, h3⟩ := ageStep_expired P dt a b s hb hal
        rw [h1]
        have hcast : ((a : Int) - 1 + 1) = (a : Int) := by omega
        rw [hcast]
        obtain ⟨s1, hs1, hc1, hp1⟩ :=
          ih a (b - 1) (ageStep P dt a s).2 (by rw [h2]; omega) (by omega) (by omega)
        refine ⟨s1, hs1, hc1, ?_⟩
        have e1 : particlesFrom (ageStep P dt a s).2 0 a = particlesFrom s 0 a := by
          apply particlesFrom_congr
          intro k _ hk
          rw [h3 k, if_neg (by omega)]
        rw [e1] at hp1
        refine hp1.trans (List.Perm.append_left _ ?_)
        by_cases hl : b - 1 = a
        · have e3 : b - a = 0 + 1 := by omega
          have e4 : b - 1 - a = 0 := by omega
          rw [e3, e4, particlesFrom_succ, List.map_cons, List.filter_cons_of_neg (by simp [hal])]
          simp [particlesFrom]
        · obtain ⟨m, hm⟩ : ∃ m, b - 1 - a = m + 1 := ⟨b - 1 - a - 1, by omega⟩
          have e3 : b - a = (m + 1) + 1 := by omega
          have e5 : a + 1 + m = b - 1 := by omega
          have e2 : particlesFrom (ageStep P dt a s).2 a (m + 1) =
              particleAt s (b - 1) :: particlesFrom s (a + 1) m := by
            rw [particlesFrom_succ, h3 a, if_pos rfl, if_neg hl]
            congr 1
            apply particlesFrom_congr
            intro k hk _
            rw [h3 k, if_neg (by omega)]
          have e4 : ((particlesFrom s a (b - a)).map (Particle.advance P dt)).filter
                (Particle.alive P) =
              ((particlesFrom s (a + 1) m ++ [particleAt s (b - 1)]).map
                (Particle.advance P dt)).filter (Particle.alive P) := by
            rw [e3, particlesFrom_succ, List.map_cons, List.filter_cons_of_neg (by simp [hal]),
              particlesFrom_concat, e5]
          rw [hm, e2, e4]
          apply List.Perm.filter
          apply List.Perm.map
          exact (List.perm_append_singleton _ _).symm

end

section
variable {α : Type} [Add α] [Mul α] [One α] [LT α] [DecidableRel (fun a b : α => a < b)]

/-- C24: the aging step of `advanceTime` on `n` live particles ends (fuel `n` is
enough); every particle is advanced exactly once, to age `a + l * deltaTime`:
the live particles afterwards are, as a multiset, exactly the initial particles
advanced once (all channels and the stable random seed of a particle together)
whose advanced age is not greater than one; the live count is their number; no
live particle has an age greater than one. -/
theorem advanceTime_ages_and_removes (P : SkParticles) (deltaTime : α)
    (s : Effect P.kNumChannels α) (fuel : Nat) (hcount : 0 ≤ s.fCount)
    (hfuel : s.fCount.toNat ≤ fuel) :
    ∃ s1, ageParticles P deltaTime fuel s = some s1 ∧
      (liveParticles s1).Perm
        (((liveParticles s).map (Particle.advance P deltaTime)).filter (Particle.alive P)) ∧
      s1.fCount =
        (((liveParticles s).map (Particle.advance P deltaTime)).filter (Particle.alive P)).length ∧
      ∀ p ∈ liveParticles s1, ¬ (1 < p.channels P.kAge) := by
  obtain ⟨s1, hs1, hc1, hp1⟩ :=
    ageLoop_spec P deltaTime fuel 0 s.fCount.toNat s (by omega) (by omega) (by omega)
  have hp2 : (liveParticles s1).Perm
      (((liveParticles s).map (Particle.advance P deltaTime)).filter (Particle.alive P)) := by
    simpa [liveParticles, particlesFrom] using hp1
  refine ⟨s1, hs1, hp2, ?_, ?_⟩
  · have hlen := hp2.length_eq
    have hl : (liveParticles s1).length = s1.fCount.toNat := by
      simp [liveParticles, particlesFrom]
    rw [hl] at hlen
    omega
  · intro p hp
    have hmem := (hp2.mem_iff).1 hp
    have hal := (List.mem_filter.1 hmem).2
    simpa [Particle.alive] using hal

end

/-- C24 at three particles of inverse lifetimes 2, 1, 3 and a time step of 1. -/
theorem advanceTime_ages_and_removes_witness :
    ∃ s1, ageParticles channels16 (1 : Int) 3 threeParticles = some s1 ∧
      (liveParticles s1).Perm
        (((liveParticles threeParticles).map (Particle.advance channels16 1)).filter
          (Particle.alive channels16)) ∧
      s1.fCount =
        (((liveParticles threeParticles).map (Particle.advance channels16 1)).filter
          (Particle.alive channels16)).length ∧
      ∀ p ∈ liveParticles s1, ¬ (1 < p.channels channels16.kAge) :=
  advanceTime_ages_and_removes channels16 1 threeParticles 3 (by decide) (by decide)

/-- The run on the three particles: the first and the third expire, the second
one, now of age 1, is the only live particle and sits at index 0 with its own
seed. -/
theorem ageParticles_threeParticles :
    ((ageParticles channels16 (1 : Int) 3 threeParticles).map fun s1 =>
      (s1.fCount, s1.fData channels16.kAge 0, s1.fData ⟨2, by decide⟩ 0, s1.fStableRandoms 0)) =
      some (1, 1, 1, 101) := by
  decide

end SkParticleEffect

namespace GrAtlasTextOp

/-! ## Merging two atlas text ops -/

/-- From a size of at least 2 the growth loop ends within `newGeoCount -
newAllocSize` rounds, at a size that is at least `newGeoCount`; when the loop
is entered below `newGeoCount` with twice the size below three times
`newGeoCount`, that stays so. -/
theorem growLoop_spec (newGeoCount : Int) :
    ∀ (fuel : Nat) (newAllocSize : Int), 2 ≤ newAllocSize →
      (newGeoCount - newAllocSize).toNat ≤ fuel →
      ∃ r, growLoop newGeoCount fuel newAllocSize = some r ∧ newGeoCount ≤ r ∧
        newAllocSize ≤ r ∧ (2 * newAllocSize < 3 * newGeoCount → 2 * r < 3 * newGeoCount) := by
  intro fuel
  induction fuel with
  | zero =>
    intro n h2 hf
    refine ⟨n, ?_, by omega, le_refl _, fun h => h⟩
    simp only [growLoop]
    rw [if_neg (by omega)]
  | succ f ih =>
    intro n h2 hf
    by_cases hlt : n < newGeoCount
    · obtain ⟨r, hr, h1, h3, h4⟩ := ih (n + n / 2) (by omega) (by omega)
      refine ⟨r, ?_, h1, by omega, fun _ => h4 (by omega)⟩
      simp only [growLoop]
      rw [if_pos hlt, hr]
    · refine ⟨n, ?_, by omega, le_refl _, fun h => h⟩
      simp only [growLoop]
      rw [if_neg hlt]

/-- The new capacity: computed within `newGeoCount` rounds of the growth loop
when the old one is at least 2, at least the new count when the old one was at
least the old count, never smaller than the old one. -/
theorem growAllocSize_spec (fuel : Nat) (alloc newGeoCount : Int) (h2 : 2 ≤ alloc)
    (hf : newGeoCount.toNat ≤ fuel) :
    ∃ r, growAllocSize fuel alloc newGeoCount = some r ∧ newGeoCount ≤ r ∧ alloc ≤ r ∧
      (alloc < newGeoCount → 2 * r < 3 * newGeoCount) := by
  unfold growAllocSize
  by_cases hgt : newGeoCount > alloc
  · rw [if_pos hgt]
    obtain ⟨r, hr, h1, h3, h4⟩ :=
      growLoop_spec newGeoCount fuel (alloc + alloc / 2) (by omega) (by omega)
    exact ⟨r, hr, h1, by omega, fun _ => h4 (by omega)⟩
  · rw [if_neg hgt]
    exact ⟨alloc, rfl, by omega, le_refl _, fun h => absurd h (by omega)⟩

/-- From a capacity of 1 the growth loop never ends: `1 + 1 / 2 = 1`. -/
theorem growLoop_capacity_one (fuel : Nat) : growLoop 2 fuel 1 = none := by
  induction fuel with
  | zero => decide
  | succ f ih =>
    simp only [growLoop]
    rw [if_pos (by decide)]
    exact ih

/-- C22: when the checks of `onCombineIfPossible` let the ops merge and this op's
geometry capacity is at least 2, the call returns `kMerged` (the 1.5x growth
loop ends, within as many rounds as the new geometry count); this op's geometry
count is then the sum of both counts, its own geometries are kept and the other
op's follow them in order; its glyph count is the sum of both glyph counts; the
other op's geometry count is 0; the allocated capacity is at least the new
geometry count, and below 1.5 times it when it was grown. -/
theorem onCombineIfPossible_merged (usesDistanceFields : AtlasTextOp → Bool) (fuel : Nat)
    (this that : AtlasTextOp)
    (hmerge : combineChecks usesDistanceFields this that = none)
    (hcap : 2 ≤ this.fGeoDataAllocSize)
    (hthis : 0 ≤ this.fGeoCount) (hthat : 0 ≤ that.fGeoCount)
    (hfuel : (that.fGeoCount + this.fGeoCount).toNat ≤ fuel) :
    ∃ this1 that1,
      onCombineIfPossible usesDistanceFields fuel this that = some (.kMerged, this1, that1) ∧
      this1.fGeoCount = this.fGeoCount + that.fGeoCount ∧
      (∀ k : Nat, (k : Int) < this.fGeoCount → this1.fGeoData k = this.fGeoData k) ∧
      (∀ k : Nat, (k : Int) < that.fGeoCount →
        this1.fGeoData (this.fGeoCount.toNat + k) = that.fGeoData k) ∧
      this1.fNumGlyphs = this.fNumGlyphs + that.fNumGlyphs ∧
      that1.fGeoCount = 0 ∧
      this1.fGeoCount ≤ this1.fGeoDataAllocSize ∧
      this.fGeoDataAllocSize ≤ this1.fGeoDataAllocSize ∧
      (this.fGeoDataAllocSize < this1.fGeoCount →
        2 * this1.fGeoDataAllocSize < 3 * this1.fGeoCount) := by
  obtain ⟨r, hr, h1, h3, h4⟩ :=
    growAllocSize_spec fuel this.fGeoDataAllocSize (that.fGeoCount + this.fGeoCount) hcap hfuel
  refine ⟨{ this with
      fNumGlyphs := this.fNumGlyphs + that.fNumGlyphs
      fGeoDataAllocSize := r
      fGeoData := copyGeometries this that
      fGeoCount := that.fGeoCount + this.fGeoCount }, { that with fGeoCount := 0 },
    by simp only [onCombineIfPossible, hmerge, hr], ?_, ?_, ?_, rfl, rfl, h1, h3, h4⟩
  · exact add_comm _ _
  · intro k hk
    show copyGeometries this that k = this.fGeoData k
    unfold copyGeometries
    rw [if_neg (by omega)]
  · intro k hk
    show copyGeometries this that (this.fGeoCount.toNat + k) = that.fGeoData k
    unfold copyGeometries
    rw [if_pos (by omega), Nat.add_sub_cancel_left]

/-- C22 at an op with two geometries in an array of capacity 2 and an op with
three geometries. -/
theorem onCombineIfPossible_merged_witness :
    ∃ this1 that1,
      onCombineIfPossible usesDistanceFieldsByMask 5 opTwoGeometries opThreeGeometries =
        some (.kMerged, this1, that1) ∧
      this1.fGeoCount = opTwoGeometries.fGeoCount + opThreeGeometries.fGeoCount ∧
      (∀ k : Nat, (k : Int) < opTwoGeometries.fGeoCount →
        this1.fGeoData k = opTwoGeometries.fGeoData k) ∧
      (∀ k : Nat, (k : Int) < opThreeGeometries.fGeoCount →
        this1.fGeoData (opTwoGeometries.fGeoCount.toNat + k) = opThreeGeometries.fGeoData k) ∧
      this1.fNumGlyphs = opTwoGeometries.fNumGlyphs + opThreeGeometries.fNumGlyphs ∧
      that1.fGeoCount = 0 ∧
      this1.fGeoCount ≤ this1.fGeoDataAllocSize ∧
      opTwoGeometries.fGeoDataAllocSize ≤ this1.fGeoDataAllocSize ∧
      (opTwoGeometries.fGeoDataAllocSize < this1.fGeoCount →
        2 * this1.fGeoDataAllocSize < 3 * this1.fGeoCount) :=
  onCombineIfPossible_merged usesDistanceFieldsByMask 5 opTwoGeometries opThreeGeometries
    (by decide) (by decide) (by decide) (by decide) (by decide)

/-- The merge of the two example ops: five geometries with blobs 10, 11, 20, 21,
22 in an array grown from 2 over 3 and 4 to 6 entries, 9 glyphs, and no
geometry left in the other op. -/
theorem onCombineIfPossible_example :
    ((onCombineIfPossible usesDistanceFieldsByMask 5 opTwoGeometries opThreeGeometries).map
      fun r => r.1) = some CombineResult.kMerged ∧
    ((onCombineIfPossible usesDistanceFieldsByMask 5 opTwoGeometries opThreeGeometries).map
      fun r => (r.2.1.fGeoCount, r.2.1.fGeoDataAllocSize, r.2.1.fNumGlyphs,
        (List.range 5).map (fun k => (r.2.1.fGeoData k).fBlob), r.2.2.fGeoCount)) =
      some ((5 : Int), (6 : Int), (9 : Int), [10, 11, 20, 21, 22], (0 : Int)) := by
  decide

end GrAtlasTextOp

namespace GrAtlasTextOp

/-! ## Every glyph is filled once and drawn -/

theorem subRunGlyphs_add (geo : Nat) (a g : Int) (ha : 0 ≤ a) (hg : 0 ≤ g) :
    subRunGlyphs geo (a + g) =
      subRunGlyphs geo a ++ (List.range g.toNat).map fun (k : Nat) => (geo, a + (k : Int)) := by
  unfold subRunGlyphs
  have h : (a + g).toNat = a.toNat + g.toNat := by omega
  rw [h, List.range_add, List.map_append, List.map_map]
  congr 1
  apply List.map_congr_left
  intro k _
  show (geo, ((a.toNat + k : Nat) : Int)) = (geo, a + (k : Int))
  rw [Nat.cast_add, Int.toNat_of_nonneg ha]

theorem afterRegenerate_flush_fields (geo : Nat) (subRunBegin : Int) (s : PrepState) (g : Int) :
    (afterRegenerate geo subRunBegin s g).target.draws = s.target.draws ∧
    (afterRegenerate geo subRunBegin s g).flushInfo.fGlyphsToFlush =
      s.flushInfo.fGlyphsToFlush + g := by
  unfold afterRegenerate
  by_cases hg : g > 0
  · simp only [hg, if_true, and_self]
  · simp only [hg, if_false, and_self]

theorem afterRegenerate_covers (done : List (Nat × Int)) (geo : Nat) (subRunBegin : Int)
    (s : PrepState) (g : Int) (hinv : CoverInvariant done geo subRunBegin s) (h0 : 0 ≤ g)
    (hle : s.totalGlyphsRegened + g ≤ s.quadBufferEnd) :
    CoverInvariant done geo subRunBegin (afterRegenerate geo subRunBegin s g) := by
  obtain ⟨hsb, hfill, hdraw, _⟩ := hinv
  obtain ⟨ht, he, _, _, hf⟩ := afterRegenerate_fields geo subRunBegin s g
  obtain ⟨hd, hp⟩ := afterRegenerate_flush_fields geo subRunBegin s g
  refine ⟨by rw [ht]; omega, ?_, ?_, by rw [ht, he]; exact hle⟩
  · rw [ht]
    unfold filledGlyphs at hfill ⊢
    rw [hf]
    by_cases hg : g > 0
    · rw [if_pos hg, List.flatMap_append, hfill,
        show s.totalGlyphsRegened + g - subRunBegin = (s.totalGlyphsRegened - subRunBegin) + g by
          omega,
        subRunGlyphs_add geo _ g (by omega) h0, List.append_assoc]
      simp [FillCall.glyphs]
    · have hg0 : g = 0 := by omega
      rw [if_neg hg, hfill, hg0, Int.add_zero]
  · unfold drawnGlyphs at hdraw ⊢
    rw [hd, hp, ht]
    omega

theorem createDraw_flushes (views : List Proxy) (hviews : views ≠ []) (t : Target)
    (fi : FlushInfo) :
    drawnGlyphs (createDrawForGeneratedGlyphs (some views) t fi).1 =
      drawnGlyphs t + fi.fGlyphsToFlush ∧
    (createDrawForGeneratedGlyphs (some views) t fi).2.fGlyphsToFlush = 0 := by
  have h1 : ¬ views.length = 0 := by
    intro h
    exact hviews (List.length_eq_zero.mp h)
  unfold createDrawForGeneratedGlyphs drawnGlyphs
  by_cases h0 : fi.fGlyphsToFlush = 0
  · simp only [h0, if_true, Int.add_zero, and_self]
  · by_cases h2 : fi.fGeometryProcessor.numTextureSamplers = views.length
    · simp [h0, h1, h2]
    · simp [h0, h1, h2, adoptViewsFrom_eq]

theorem flushGlyphs_covers (env : Env) (done : List (Nat × Int)) (s : PrepState)
    (hviews : ∀ n, ∃ views, env.getViews n = some views ∧ views ≠ [])
    (hinv : BetweenSubRuns done s) :
    BetweenSubRuns done (flushGlyphs env s) ∧ (flushGlyphs env s).flushInfo.fGlyphsToFlush = 0 ∧
    drawnGlyphs (flushGlyphs env s).target = s.totalGlyphsRegened := by
  obtain ⟨hfill, hdraw, hqe⟩ := hinv
  obtain ⟨views, hv, hne⟩ := hviews s.regenCalls
  obtain ⟨_, hf⟩ := createDraw_keeps_vertex_data (env.getViews s.regenCalls) s.target s.flushInfo
  obtain ⟨hd, hp⟩ := createDraw_flushes views hne s.target s.flushInfo
  rw [← hv] at hd hp
  have hd1 : drawnGlyphs (flushGlyphs env s).target =
      drawnGlyphs s.target + s.flushInfo.fGlyphsToFlush := hd
  have hp1 : (flushGlyphs env s).flushInfo.fGlyphsToFlush = 0 := hp
  have ht1 : (flushGlyphs env s).totalGlyphsRegened = s.totalGlyphsRegened := rfl
  have he1 : (flushGlyphs env s).quadBufferEnd = s.quadBufferEnd := rfl
  refine ⟨⟨?_, ?_, ?_⟩, hp1, by rw [hd1]; exact hdraw⟩
  · show (createDrawForGeneratedGlyphs (env.getViews s.regenCalls) s.target
      s.flushInfo).1.fills.flatMap FillCall.glyphs = done
    rw [hf]
    exact hfill
  · rw [hd1, hp1, ht1]
    omega
  · rw [ht1, he1]
    exact hqe

theorem makeVertexSpace_flush_fields (env : Env) (vertexCount : Int) (s : PrepState) :
    (makeVertexSpace env vertexCount s).1.target.draws = s.target.draws ∧
    (makeVertexSpace env vertexCount s).1.flushInfo.fGlyphsToFlush =
      s.flushInfo.fGlyphsToFlush ∧
    (makeVertexSpace env vertexCount s).2 =
      (env.makeVertexSpace s.target.vertexSpaces.length).isSome := by
  cases h : env.makeVertexSpace s.target.vertexSpaces.length <;>
    simp [makeVertexSpace, h]

theorem nextQuadBuffer_covers (env : Env) (op : Op) (done : List (Nat × Int)) (s : PrepState)
    (hQ : 1 ≤ maxQuadsPerBuffer env op) (hN : s.totalGlyphsRegened < op.fNumGlyphs)
    (hinv : BetweenSubRuns done s) :
    BetweenSubRuns done (makeVertexSpace env
      (kVerticesPerGlyph * min (maxQuadsPerBuffer env op) (op.fNumGlyphs - s.totalGlyphsRegened))
      (nextQuadBuffer env op s)).1 ∧
    (makeVertexSpace env
      (kVerticesPerGlyph * min (maxQuadsPerBuffer env op) (op.fNumGlyphs - s.totalGlyphsRegened))
      (nextQuadBuffer env op s)).1.totalGlyphsRegened = s.totalGlyphsRegened ∧
    s.totalGlyphsRegened < (makeVertexSpace env
      (kVerticesPerGlyph * min (maxQuadsPerBuffer env op) (op.fNumGlyphs - s.totalGlyphsRegened))
      (nextQuadBuffer env op s)).1.quadBufferEnd := by
  obtain ⟨hfill, hdraw, _⟩ := hinv
  obtain ⟨_, hf, _, hqe, ht⟩ := makeVertexSpace_spec env
    (kVerticesPerGlyph * min (maxQuadsPerBuffer env op) (op.fNumGlyphs - s.totalGlyphsRegened))
    (nextQuadBuffer env op s)
  obtain ⟨hd, hp, _⟩ := makeVertexSpace_flush_fields env
    (kVerticesPerGlyph * min (maxQuadsPerBuffer env op) (op.fNumGlyphs - s.totalGlyphsRegened))
    (nextQuadBuffer env op s)
  have hqe1 : (nextQuadBuffer env op s).quadBufferEnd =
      s.totalGlyphsRegened +
        min (maxQuadsPerBuffer env op) (op.fNumGlyphs - s.totalGlyphsRegened) := rfl
  have ht1 : (nextQuadBuffer env op s).totalGlyphsRegened = s.totalGlyphsRegened := rfl
  rw [hqe1] at hqe
  rw [ht1] at ht
  refine ⟨⟨?_, ?_, ?_⟩, ht, ?_⟩
  · unfold filledGlyphs
    rw [hf]
    exact hfill
  · unfold drawnGlyphs at hdraw ⊢
    rw [hd, hp, ht]
    exact hdraw
  · rw [ht, hqe]
    omega
  · rw [hqe]
    omega

theorem makeVertexSpace_succeeds (env : Env) (vertexCount : Int) (s : PrepState)
    (halloc : ∀ n, (env.makeVertexSpace n).isSome = true) :
    (makeVertexSpace env vertexCount s).2 = true := by
  rw [(makeVertexSpace_flush_fields env vertexCount s).2.2]
  exact halloc _

/-- The `while` loop of one sub-run ends when the surroundings cooperate: one
round more than the glyphs still to regenerate is enough, and every glyph up to
`subRunEnd` is then filled. -/
theorem subRunLoop_covers (env : Env) (op : Op) (geo : Nat) (subRunBegin subRunEnd : Int)
    (done : List (Nat × Int))
    (hQ : 1 ≤ maxQuadsPerBuffer env op) (hN : subRunEnd ≤ op.fNumGlyphs)
    (hviews : ∀ n, ∃ views, env.getViews n = some views ∧ views ≠ [])
    (halloc : ∀ n, (env.makeVertexSpace n).isSome = true)
    (hregen : ∀ n b e, b ≤ e → (env.regenerate n b e).1 = true ∧
      (b < e → 1 ≤ (env.regenerate n b e).2 ∧ (env.regenerate n b e).2 ≤ e - b) ∧
      (b = e → (env.regenerate n b e).2 = 0))
    (fuel : Nat) (s : PrepState) (hinv : CoverInvariant done geo subRunBegin s)
    (hle : s.totalGlyphsRegened ≤ subRunEnd)
    (hfuel : s.totalGlyphsRegened < subRunEnd →
      (subRunEnd - s.totalGlyphsRegened).toNat +
        (if s.totalGlyphsRegened = s.quadBufferEnd then 1 else 0) ≤ fuel) :
    ∃ s1, subRunLoop env op geo subRunBegin subRunEnd fuel s = .next s1 ∧
      CoverInvariant done geo subRunBegin s1 ∧ s1.totalGlyphsRegened = subRunEnd := by
  induction fuel generalizing s with
  | zero =>
    have hnot : ¬ s.totalGlyphsRegened < subRunEnd := by
      intro hlt
      have := hfuel hlt
      omega
    rw [subRunLoop, if_neg hnot]
    exact ⟨s, rfl, hinv, by omega⟩
  | succ fuel ih =>
    rw [subRunLoop_succ]
    by_cases hlt : s.totalGlyphsRegened < subRunEnd
    · rw [if_pos hlt]
      have hf := hfuel hlt
      have hqe : s.totalGlyphsRegened ≤ s.quadBufferEnd := hinv.2.2.2
      obtain ⟨hok, hpos, hzero⟩ := hregen s.regenCalls (s.totalGlyphsRegened - subRunBegin)
        (min subRunEnd s.quadBufferEnd - subRunBegin) (by omega)
      have hg0 : 0 ≤ (env.regenerate s.regenCalls (s.totalGlyphsRegened - subRunBegin)
          (min subRunEnd s.quadBufferEnd - subRunBegin)).2 := by
        by_cases hfull : s.totalGlyphsRegened = s.quadBufferEnd
        · rw [hzero (by omega)]
        · have := hpos (by omega)
          omega
      have hgle : s.totalGlyphsRegened + (env.regenerate s.regenCalls
          (s.totalGlyphsRegened - subRunBegin)
          (min subRunEnd s.quadBufferEnd - subRunBegin)).2 ≤ min subRunEnd s.quadBufferEnd := by
        by_cases hfull : s.totalGlyphsRegened = s.quadBufferEnd
        · rw [hzero (by omega)]
          omega
        · have := hpos (by omega)
          omega
      have hprog : s.totalGlyphsRegened < s.quadBufferEnd →
          s.totalGlyphsRegened + 1 ≤ s.totalGlyphsRegened + (env.regenerate s.regenCalls
            (s.totalGlyphsRegened - subRunBegin)
            (min subRunEnd s.quadBufferEnd - subRunBegin)).2 := by
        intro hroom
        have := hpos (by omega)
        omega
      have h3 := afterRegenerate_covers done geo subRunBegin s
        (env.regenerate s.regenCalls (s.totalGlyphsRegened - subRunBegin)
          (min subRunEnd s.quadBufferEnd - subRunBegin)).2 hinv hg0 (by omega)
      obtain ⟨ht3, he3, _, _, _⟩ := afterRegenerate_fields geo subRunBegin s
        (env.regenerate s.regenCalls (s.totalGlyphsRegened - subRunBegin)
          (min subRunEnd s.quadBufferEnd - subRunBegin)).2
      obtain ⟨h4, _, _⟩ := flushGlyphs_covers env _ _ hviews h3.2
      have ht4 : ∀ x : PrepState, (flushGlyphs env x).totalGlyphsRegened = x.totalGlyphsRegened :=
        fun _ => rfl
      have he4 : ∀ x : PrepState, (flushGlyphs env x).quadBufferEnd = x.quadBufferEnd :=
        fun _ => rfl
      split
      · rename_i hbad
        rw [hok] at hbad
        exact absurd hbad (by decide)
      · split
        · rename_i hne
          have hlt3 : s.totalGlyphsRegened + (env.regenerate s.regenCalls
              (s.totalGlyphsRegened - subRunBegin)
              (min subRunEnd s.quadBufferEnd - subRunBegin)).2 < subRunEnd := by
            rw [ht3] at hne
            omega
          split
          · rename_i hfull4
            rw [ht4, he4, ht3, he3] at hfull4
            obtain ⟨h5, ht5, hq5⟩ := nextQuadBuffer_covers env op _ _ hQ
              (by rw [ht4, ht3]; omega) h4
            have hX := ht5.trans (ht4 _)
            have hXs := hX.trans ht3
            have hq5s := lt_of_eq_of_lt (ht3.symm.trans (ht4 _).symm) hq5
            split
            · rename_i hbad
              rw [makeVertexSpace_succeeds env _ _ halloc] at hbad
              exact absurd hbad (by decide)
            · apply ih
              · exact ⟨by rw [hXs]; have := hinv.1; omega, by rw [hX]; exact h5⟩
              · rw [hXs]
                omega
              · intro _
                rw [hXs, if_neg (by omega)]
                by_cases hroom : s.totalGlyphsRegened < s.quadBufferEnd
                · have := hprog hroom
                  omega
                · rw [if_pos (by omega)] at hf
                  omega
          · rename_i hroom4
            rw [ht4, he4, ht3, he3] at hroom4
            apply ih
            · exact ⟨h3.1, h4⟩
            · rw [ht4, ht3]
              omega
            · intro _
              rw [ht4, he4, ht3, he3, if_neg hroom4]
              have hroom : s.totalGlyphsRegened < s.quadBufferEnd := by omega
              have := hprog hroom
              omega
        · rename_i heq
          have heq3 : s.totalGlyphsRegened + (env.regenerate s.regenCalls
              (s.totalGlyphsRegened - subRunBegin)
              (min subRunEnd s.quadBufferEnd - subRunBegin)).2 = subRunEnd := by
            rw [ht3] at heq
            omega
          apply ih
          · exact h3
          · rw [ht3]
            omega
          · intro hcon
            rw [ht3] at hcon
            omega
    · rw [if_neg hlt]
      exact ⟨s, rfl, hinv, by omega⟩

theorem subRunGlyphs_zero (geo : Nat) : subRunGlyphs geo 0 = [] := rfl

/-- The loop over the geometries ends with every glyph of the geometries visited
filled once, in sub-run order. -/
theorem geoLoop_covers (env : Env) (op : Op) (fuel : Nat)
    (hQ : 1 ≤ maxQuadsPerBuffer env op)
    (hviews : ∀ n, ∃ views, env.getViews n = some views ∧ views ≠ [])
    (halloc : ∀ n, (env.makeVertexSpace n).isSome = true)
    (hregen : ∀ n b e, b ≤ e → (env.regenerate n b e).1 = true ∧
      (b < e → 1 ≤ (env.regenerate n b e).2 ∧ (env.regenerate n b e).2 ≤ e - b) ∧
      (b = e → (env.regenerate n b e).2 = 0))
    (counts : List Int) (geo : Nat) (s : PrepState) (done : List (Nat × Int))
    (hinv : BetweenSubRuns done s) (hcounts : ∀ c ∈ counts, 0 ≤ c)
    (hfuel : ∀ c ∈ counts, c.toNat + 1 ≤ fuel)
    (hN : s.totalGlyphsRegened + counts.sum ≤ op.fNumGlyphs) :
    ∃ s1, geoLoop env op fuel geo counts s = .next s1 ∧
      BetweenSubRuns (done ++ glyphsInOrder geo counts) s1 ∧
      s1.totalGlyphsRegened = s.totalGlyphsRegened + counts.sum := by
  induction counts generalizing geo s done with
  | nil =>
    rw [geoLoop]
    refine ⟨s, rfl, ?_, by simp⟩
    rw [glyphsInOrder, List.append_nil]
    exact hinv
  | cons c rest ih =>
    have hc : 0 ≤ c := hcounts c (List.mem_cons_self c rest)
    have hrest : 0 ≤ rest.sum := List.sum_nonneg (fun x hx => hcounts x (List.mem_cons_of_mem c hx))
    have hfc := hfuel c (List.mem_cons_self c rest)
    rw [List.sum_cons] at hN ⊢
    have hstart : CoverInvariant done geo s.totalGlyphsRegened s := by
      refine ⟨le_refl _, ?_⟩
      rw [Int.sub_self, subRunGlyphs_zero, List.append_nil]
      exact hinv
    obtain ⟨s1, hr, hinv1, ht1⟩ := subRunLoop_covers env op geo s.totalGlyphsRegened
      (s.totalGlyphsRegened + c) done hQ (by omega) hviews halloc hregen fuel s hstart (by omega)
      (by
        intro _
        have : (if s.totalGlyphsRegened = s.quadBufferEnd then 1 else 0) ≤ 1 := by
          split <;> omega
        omega)
    have hbetween : BetweenSubRuns (done ++ subRunGlyphs geo c) s1 := by
      have h := hinv1.2
      rw [ht1, show s.totalGlyphsRegened + c - s.totalGlyphsRegened = c by omega] at h
      exact h
    obtain ⟨s2, hr2, hinv2, ht2⟩ := ih (geo + 1) s1 (done ++ subRunGlyphs geo c) hbetween
      (fun x hx => hcounts x (List.mem_cons_of_mem c hx))
      (fun x hx => hfuel x (List.mem_cons_of_mem c hx)) (by omega)
    refine ⟨s2, ?_, ?_, by omega⟩
    · rw [geoLoop]
      simp only [hr]
      exact hr2
    · rw [glyphsInOrder, ← List.append_assoc]
      exact hinv2

theorem glyphCount_le_sum (counts : List Int) (hcounts : ∀ c ∈ counts, 0 ≤ c) :
    ∀ c ∈ counts, c ≤ counts.sum := by
  induction counts with
  | nil =>
    intro c hc
    cases hc
  | cons a rest ih =>
    intro c hc
    have ha : 0 ≤ a := hcounts a (List.mem_cons_self a rest)
    have hrest : 0 ≤ rest.sum := List.sum_nonneg (fun x hx => hcounts x (List.mem_cons_of_mem a hx))
    rw [List.sum_cons]
    rcases List.mem_cons.mp hc with h | h
    · rw [h]
      omega
    · have := ih (fun x hx => hcounts x (List.mem_cons_of_mem a hx)) c h
      omega

/-- A cooperative run of `onPrepareDraws` ends normally with every glyph filled
once in sub-run order and drawn. -/
theorem onPrepareDraws_covers (env : Env) (op : Op) (fuel : Nat)
    (hlocal : (op.usesLocalCoords && !op.drawMatrixInvertible) = false)
    (hviews : ∀ n, ∃ views, env.getViews n = some views ∧ views ≠ [])
    (hsum : op.fNumGlyphs = op.fGeoData.sum) (hcounts : ∀ c ∈ op.fGeoData, 0 ≤ c)
    (hQ : 1 ≤ maxQuadsPerBuffer env op)
    (halloc : ∀ n, (env.makeVertexSpace n).isSome = true)
    (hregen : ∀ n b e, b ≤ e → (env.regenerate n b e).1 = true ∧
      (b < e → 1 ≤ (env.regenerate n b e).2 ∧ (env.regenerate n b e).2 ≤ e - b) ∧
      (b = e → (env.regenerate n b e).2 = 0))
    (hfuel : op.fNumGlyphs.toNat + 1 ≤ fuel) :
    ∃ s, onPrepareDraws env op fuel = .next s ∧
      s.totalGlyphsRegened = op.fNumGlyphs ∧
      filledGlyphs s.target = glyphsInOrder 0 op.fGeoData ∧
      drawnGlyphs s.target = op.fNumGlyphs ∧
      s.flushInfo.fGlyphsToFlush = 0 := by
  have hNpos : 0 ≤ op.fNumGlyphs := hsum ▸ List.sum_nonneg hcounts
  obtain ⟨views, hv, _⟩ := hviews 0
  rw [onPrepareDraws_eq, hlocal, hv]
  simp only [Bool.false_eq_true, if_false]
  rw [makeVertexSpace_succeeds env _ _ halloc]
  simp only [Bool.not_true, Bool.false_eq_true, if_false]
  obtain ⟨_, hf, _, hqe, ht⟩ := makeVertexSpace_spec env
    (kVerticesPerGlyph * (min op.fNumGlyphs (maxQuadsPerBuffer env op) - 0))
    (initialState env op views)
  obtain ⟨hd, hp, _⟩ := makeVertexSpace_flush_fields env
    (kVerticesPerGlyph * (min op.fNumGlyphs (maxQuadsPerBuffer env op) - 0))
    (initialState env op views)
  have hinit : BetweenSubRuns [] (makeVertexSpace env
      (kVerticesPerGlyph * (min op.fNumGlyphs (maxQuadsPerBuffer env op) - 0))
      (initialState env op views)).1 := by
    refine ⟨?_, ?_, ?_⟩
    · unfold filledGlyphs
      rw [hf]
      rfl
    · unfold drawnGlyphs
      rw [hd, hp, ht]
      rfl
    · rw [ht, hqe]
      show (0 : Int) ≤ min op.fNumGlyphs (maxQuadsPerBuffer env op)
      omega
  obtain ⟨s1, hr, hinv1, ht1⟩ := geoLoop_covers env op fuel hQ hviews halloc hregen op.fGeoData 0
    _ [] hinit hcounts
    (by
      intro c hc
      have := glyphCount_le_sum op.fGeoData hcounts c hc
      have := hcounts c hc
      omega)
    (by rw [ht, hsum]; show (0 : Int) + op.fGeoData.sum ≤ op.fGeoData.sum; omega)
  rw [hr]
  obtain ⟨h2, hp2, hd2⟩ := flushGlyphs_covers env _ s1 hviews hinv1
  have ht0 : s1.totalGlyphsRegened = op.fNumGlyphs := by
    rw [ht1, ht, hsum]
    show (0 : Int) + op.fGeoData.sum = op.fGeoData.sum
    omega
  refine ⟨flushGlyphs env s1, rfl, ht0, ?_, by rw [hd2, ht0], hp2⟩
  have := h2.1
  rw [List.nil_append] at this
  exact this

theorem mem_subRunGlyphs (geo : Nat) (c : Int) (i : Nat) (j : Int) :
    (i, j) ∈ subRunGlyphs geo c ↔ i = geo ∧ 0 ≤ j ∧ j < c := by
  unfold subRunGlyphs
  rw [List.mem_map]
  constructor
  · rintro ⟨k, hk, heq⟩
    rw [List.mem_range] at hk
    cases heq
    exact ⟨rfl, by omega, by omega⟩
  · rintro ⟨hi, h0, hj⟩
    refine ⟨j.toNat, by rw [List.mem_range]; omega, ?_⟩
    rw [hi, Int.toNat_of_nonneg h0]

theorem subRunGlyphs_nodup (geo : Nat) (c : Int) : (subRunGlyphs geo c).Nodup := by
  unfold subRunGlyphs
  apply List.Nodup.map _ (List.nodup_range _)
  intro a b hab
  cases hab
  rfl

/-- The glyphs listed by `glyphsInOrder` are the glyphs `0 <= j < glyphCount` of
each geometry. -/
theorem mem_glyphsInOrder (counts : List Int) (geo i : Nat) (j : Int) :
    (i, j) ∈ glyphsInOrder geo counts ↔
      geo ≤ i ∧ ∃ c, counts[i - geo]? = some c ∧ 0 ≤ j ∧ j < c := by
  induction counts generalizing geo with
  | nil => simp [glyphsInOrder]
  | cons c rest ih =>
    rw [glyphsInOrder, List.mem_append, mem_subRunGlyphs, ih]
    constructor
    · rintro (⟨hi, h0, hj⟩ | ⟨hi, d, hd, h0, hj⟩)
      · refine ⟨by omega, c, ?_, h0, hj⟩
        rw [hi, Nat.sub_self]
        simp
      · refine ⟨by omega, d, ?_, h0, hj⟩
        rw [show i - geo = (i - (geo + 1)) + 1 by omega, List.getElem?_cons_succ]
        exact hd
    · rintro ⟨hi, d, hd, h0, hj⟩
      by_cases hig : i = geo
      · left
        rw [hig, Nat.sub_self] at hd
        simp at hd
        rw [hd]
        exact ⟨hig, h0, hj⟩
      · right
        refine ⟨by omega, d, ?_, h0, hj⟩
        rw [show i - geo = (i - (geo + 1)) + 1 by omega, List.getElem?_cons_succ] at hd
        exact hd

/-- No glyph is listed twice by `glyphsInOrder`. -/
theorem glyphsInOrder_nodup (counts : List Int) (geo : Nat) :
    (glyphsInOrder geo counts).Nodup := by
  induction counts generalizing geo with
  | nil => simp [glyphsInOrder]
  | cons c rest ih =>
    rw [glyphsInOrder, List.nodup_append]
    refine ⟨subRunGlyphs_nodup geo c, ih (geo + 1), ?_⟩
    intro p hp1 hp2
    obtain ⟨i, j⟩ := p
    rw [mem_subRunGlyphs] at hp1
    rw [mem_glyphsInOrder] at hp2
    omega

/-- C21: in `onPrepareDraws`, when `fNumGlyphs` is the sum of the sub-runs' glyph
counts (none negative), `maxQuadsPerBuffer >= 1`, every vertex allocation
succeeds, every `regenerate(begin, end)` returns `ok = true` with a count in
`[1, end - begin]` on a non-empty range and 0 on an empty one, a local matrix
is there when needed and the atlas manager reports at least one view at every
call: each `while` loop ends within `fNumGlyphs + 1` rounds and the function
reaches its normal end; the glyphs whose vertex data was filled are then, in
the order of the writes, the glyphs `0 <= j < glyphCount` of geometry 0, of
geometry 1, and so on, each exactly once; the glyph counts of the recorded
draws sum to `fNumGlyphs`, and no glyph is left to flush. -/
theorem onPrepareDraws_fills_each_glyph_once (env : Env) (op : Op) (fuel : Nat)
    (hlocal : (op.usesLocalCoords && !op.drawMatrixInvertible) = false)
    (hviews : ∀ n, ∃ views, env.getViews n = some views ∧ views ≠ [])
    (hsum : op.fNumGlyphs = op.fGeoData.sum) (hcounts : ∀ c ∈ op.fGeoData, 0 ≤ c)
    (hQ : 1 ≤ maxQuadsPerBuffer env op)
    (halloc : ∀ n, (env.makeVertexSpace n).isSome = true)
    (hregen : ∀ n b e, b ≤ e → (env.regenerate n b e).1 = true ∧
      (b < e → 1 ≤ (env.regenerate n b e).2 ∧ (env.regenerate n b e).2 ≤ e - b) ∧
      (b = e → (env.regenerate n b e).2 = 0))
    (hfuel : op.fNumGlyphs.toNat + 1 ≤ fuel) :
    ∃ s, onPrepareDraws env op fuel = .next s ∧
      s.totalGlyphsRegened = op.fNumGlyphs ∧
      filledGlyphs s.target = glyphsInOrder 0 op.fGeoData ∧
      (filledGlyphs s.target).Nodup ∧
      (∀ (i : Nat) (j : Int), (i, j) ∈ filledGlyphs s.target ↔
        ∃ c, op.fGeoData[i]? = some c ∧ 0 ≤ j ∧ j < c) ∧
      drawnGlyphs s.target = op.fNumGlyphs ∧
      s.flushInfo.fGlyphsToFlush = 0 := by
  obtain ⟨s, hr, ht, hf, hd, hp⟩ :=
    onPrepareDraws_covers env op fuel hlocal hviews hsum hcounts hQ halloc hregen hfuel
  refine ⟨s, hr, ht, hf, ?_, ?_, hd, hp⟩
  · rw [hf]
    exact glyphsInOrder_nodup _ _
  · intro i j
    rw [hf, mem_glyphsInOrder]
    simp

/-- What `envSmallBuffer.regenerate` returns. -/
theorem envSmallBuffer_regenerate (n : Nat) (b e : Int) (_ : b ≤ e) :
    (envSmallBuffer.regenerate n b e).1 = true ∧
    (b < e → 1 ≤ (envSmallBuffer.regenerate n b e).2 ∧
      (envSmallBuffer.regenerate n b e).2 ≤ e - b) ∧
    (b = e → (envSmallBuffer.regenerate n b e).2 = 0) := by
  refine ⟨rfl, ?_, ?_⟩
  · intro h
    show 1 ≤ e - b ∧ e - b ≤ e - b
    omega
  · intro h
    show e - b = 0
    omega

/-- C21 at five glyphs in sub-runs of three and two with two quads per vertex
buffer: the glyphs are filled in order and drawn by draws of 2, 2 and 1 glyphs. -/
theorem onPrepareDraws_fills_each_glyph_once_witness :
    (onPrepareDraws envSmallBuffer opThreeAndTwo 6).state.target.draws.map
        (fun d => d.glyphCount) = [2, 2, 1] ∧
    ∃ s, onPrepareDraws envSmallBuffer opThreeAndTwo 6 = .next s ∧
      s.totalGlyphsRegened = opThreeAndTwo.fNumGlyphs ∧
      filledGlyphs s.target = glyphsInOrder 0 opThreeAndTwo.fGeoData ∧
      (filledGlyphs s.target).Nodup ∧
      (∀ (i : Nat) (j : Int), (i, j) ∈ filledGlyphs s.target ↔
        ∃ c, opThreeAndTwo.fGeoData[i]? = some c ∧ 0 ≤ j ∧ j < c) ∧
      drawnGlyphs s.target = opThreeAndTwo.fNumGlyphs ∧
      s.flushInfo.fGlyphsToFlush = 0 :=
  ⟨by decide,
    onPrepareDraws_fills_each_glyph_once envSmallBuffer opThreeAndTwo 6 (by decide)
      (fun _ => ⟨[10], rfl, by decide⟩) (by decide) (by decide) (by decide) (fun _ => rfl)
      envSmallBuffer_regenerate (by decide)⟩

/-- The run in which the quad buffer is full exactly where the first sub-run
ends: the second sub-run starts with a `regenerate` call on an empty range,
then the first two glyphs are flushed and a new buffer is allocated. -/
theorem onPrepareDraws_full_buffer_at_subRun_end :
    maxQuadsPerBuffer envSmallBuffer opTwoSubRuns = 2 ∧
    (onPrepareDraws envSmallBuffer opTwoSubRuns 5).state.regenCalls = 3 ∧
    (onPrepareDraws envSmallBuffer opTwoSubRuns 5).state.target.vertexSpaces = [8, 8] ∧
    (onPrepareDraws envSmallBuffer opTwoSubRuns 5).state.target.fills =
      [⟨0, 0, 0, 0, 2⟩, ⟨1, 1, 0, 0, 2⟩] ∧
    (onPrepareDraws envSmallBuffer opTwoSubRuns 5).state.target.draws.map
        (fun d => d.glyphCount) = [2, 2] ∧
    filledGlyphs (onPrepareDraws envSmallBuffer opTwoSubRuns 5).state.target =
      [(0, 0), (0, 1), (1, 0), (1, 1)] := by
  decide

end GrAtlasTextOp
